import Mathlib

/-!
# Verification of the `http-message-signatures` core against its specification

This file gives a shallow embedding, in Lean 4, of the TypeScript sources
`src/httpbis/index.ts`, `src/cavage/index.ts`, `src/structured-header.ts` and
`src/types/index.ts` of the `http-message-signatures` library, together with a
model of the subset of the external `structured-headers` npm package (an
RFC 8941 structured-field codec) that those sources use.

Modelling conventions:
* JavaScript numbers that the code only ever uses integrally (epoch
  milliseconds, epoch seconds, `tolerance`, header counts, …) are `Int`;
  `Math.floor(x / 1000)` becomes `Int.fdiv x 1000`.
* JavaScript `Map`s and plain string-keyed objects are insertion-ordered
  association lists `List (String × α)`; `set` replaces in place or appends,
  matching both `Map.prototype.set` and object spread update.
* Thrown exceptions / rejected promises are `Except ErrM`; `boolean | null`
  is `Option Bool`.
* Platform text codecs that the library calls but does not define
  (`Buffer` base64, `encodeURIComponent`, `decodeURIComponent`) are explicit
  function parameters collected in a `Platform` record; theorems quantify
  over them (with round-trip hypotheses where the code relies on them).
* The async `reduce` chains in the verify paths are sequential folds: the
  callables have no shared state in the model, and the source awaits the
  previous promise (capturing its rejection) at the top of every step, so the
  sequential fold has the same observable outcome.
-/

namespace HttpSig

/-- Error values for everything the library can throw.  The classes in
`src/errors` are told apart by constructor; plain `Error(...)` is `.err`. -/
inductive ErrM where
  | err (msg : String)
  | expired (msg : String)
  | malformed (msg : String)
  | unacceptable (msg : String)
  | unknownKey (msg : String)
  | unsupportedAlg (msg : String)
  | parseError (msg : String)
  | serializeError (msg : String)
  deriving DecidableEq, Repr

/-- Insertion-ordered string-keyed map membership test (`Map.prototype.has`,
`key in obj`). -/
def jsHas {α : Type} (m : List (String × α)) (k : String) : Bool :=
  m.any (fun p => p.1 == k)

/-- `Map.prototype.get` / property read: first (only) binding of `k`. -/
def jsGet {α : Type} (m : List (String × α)) (k : String) : Option α :=
  (m.find? (fun p => p.1 == k)).map (·.2)

/-- `Map.prototype.set` / object spread update: replace the binding in place
when the key is present, otherwise append it. -/
def jsSet {α : Type} (m : List (String × α)) (k : String) (v : α) :
    List (String × α) :=
  if jsHas m k then m.map (fun p => if p.1 == k then (k, v) else p)
  else m ++ [(k, v)]

theorem mem_jsSet {α : Type} {m : List (String × α)} {k : String} {v : α}
    {kv : String × α} (h : kv ∈ jsSet m k v) : kv = (k, v) ∨ kv ∈ m := by
  unfold jsSet at h
  by_cases hk : jsHas m k
  · rw [if_pos hk] at h
    obtain ⟨p, hp, hpe⟩ := List.mem_map.mp h
    by_cases hc : p.1 == k
    · rw [if_pos hc] at hpe
      exact Or.inl hpe.symm
    · rw [if_neg hc] at hpe
      exact Or.inr (hpe ▸ hp)
  · rw [if_neg hk] at h
    rcases List.mem_append.mp h with h | h
    · exact Or.inr h
    · exact Or.inl (List.mem_singleton.mp h)

theorem jsSet_key_exists {α : Type} {m : List (String × α)} {k : String}
    {v : α} (p : String → Prop) :
    (∃ kv ∈ jsSet m k v, p kv.1) ↔ p k ∨ (∃ kv ∈ m, p kv.1) := by
  constructor
  · rintro ⟨kv, hmem, hp⟩
    rcases mem_jsSet hmem with h | h
    · exact Or.inl (by simpa [h] using hp)
    · exact Or.inr ⟨kv, h, hp⟩
  · rintro (h | ⟨kv, hmem, hp⟩)
    · unfold jsSet
      by_cases hk : jsHas m k
      · have hk' := hk
        unfold jsHas at hk'
        obtain ⟨q, hq, hqe⟩ := List.any_eq_true.mp hk'
        refine ⟨(k, v), ?_, h⟩
        rw [if_pos hk]
        exact List.mem_map.mpr ⟨q, hq, if_pos hqe⟩
      · refine ⟨(k, v), ?_, h⟩
        rw [if_neg hk]
        exact List.mem_append.mpr (Or.inr (List.mem_singleton.mpr rfl))
    · unfold jsSet
      by_cases hk : jsHas m k
      · by_cases hke : kv.1 == k
        · refine ⟨(k, v), ?_, ?_⟩
          · rw [if_pos hk]
            exact List.mem_map.mpr ⟨kv, hmem, if_pos hke⟩
          · have : kv.1 = k := by simpa using hke
            exact this ▸ hp
        · refine ⟨kv, ?_, hp⟩
          rw [if_pos hk]
          refine List.mem_map.mpr ⟨kv, hmem, ?_⟩
          rw [if_neg hke]
      · refine ⟨kv, ?_, hp⟩
        rw [if_neg hk]
        exact List.mem_append.mpr (Or.inl hmem)

/-! ## Decimal rendering of naturals (JavaScript `Number.prototype.toString`
for the non-negative integers the code prints). -/

/-- Big-endian decimal digits, driven by structural fuel so that concrete
instances reduce in the kernel; any `fuel > n` computes the digits. -/
def natToCharsFuel : Nat → Nat → List Char
  | 0, _ => []
  | fuel + 1, n =>
    if n < 10 then [Char.ofNat (48 + n)]
    else natToCharsFuel fuel (n / 10) ++ [Char.ofNat (48 + n % 10)]

/-- Big-endian decimal digits of a natural number. -/
def natToChars (n : Nat) : List Char := natToCharsFuel (n + 1) n

theorem natToCharsFuel_irrel :
    ∀ (n f1 f2 : Nat), n < f1 → n < f2 →
      natToCharsFuel f1 n = natToCharsFuel f2 n := by
  intro n
  induction n using Nat.strong_induction_on with
  | _ n ih =>
    intro f1 f2 h1 h2
    match f1, f2 with
    | a + 1, b + 1 =>
      unfold natToCharsFuel
      by_cases h10 : n < 10
      · rw [if_pos h10, if_pos h10]
      · rw [if_neg h10, if_neg h10]
        have hdiv : n / 10 < n := Nat.div_lt_self (by omega) (by omega)
        rw [ih (n / 10) hdiv a n (by omega) (by omega),
          ih (n / 10) hdiv b n (by omega) (by omega)]

theorem natToChars_eq_small {n : Nat} (h : n < 10) :
    natToChars n = [Char.ofNat (48 + n)] := by
  unfold natToChars natToCharsFuel
  rw [if_pos h]

theorem natToChars_eq_big {n : Nat} (h : ¬n < 10) :
    natToChars n = natToChars (n / 10) ++ [Char.ofNat (48 + n % 10)] := by
  have hdiv : n / 10 < n := Nat.div_lt_self (by omega) (by omega)
  conv_lhs => unfold natToChars natToCharsFuel
  rw [if_neg h]
  rw [natToCharsFuel_irrel (n / 10) n (n / 10 + 1) (by omega) (by omega)]
  rfl

/-- Decimal rendering of a natural number. -/
def natToString (n : Nat) : String := ⟨natToChars n⟩

/-- Numeric value of a decimal digit character. -/
def digitVal (c : Char) : Nat := c.toNat - 48

/-- Value of a big-endian digit list. -/
def digitsToNat (cs : List Char) : Nat :=
  cs.foldl (fun a c => 10 * a + digitVal c) 0

theorem digitsToNat_append (xs : List Char) (c : Char) :
    digitsToNat (xs ++ [c]) = 10 * digitsToNat xs + digitVal c := by
  unfold digitsToNat
  rw [List.foldl_append]
  rfl

theorem digitVal_ofNat {d : Nat} (h : d < 10) :
    digitVal (Char.ofNat (48 + d)) = d := by
  interval_cases d <;> rfl

theorem isDigit_ofNat {d : Nat} (h : d < 10) :
    (Char.ofNat (48 + d)).isDigit = true := by
  interval_cases d <;> rfl

theorem digitsToNat_natToChars (n : Nat) :
    digitsToNat (natToChars n) = n := by
  induction n using Nat.strong_induction_on with
  | _ n ih =>
    by_cases h : n < 10
    · rw [natToChars_eq_small h]
      show 10 * 0 + digitVal (Char.ofNat (48 + n)) = n
      rw [digitVal_ofNat h]
      omega
    · have hdiv : n / 10 < n := Nat.div_lt_self (by omega) (by omega)
      rw [natToChars_eq_big h, digitsToNat_append, ih (n / 10) hdiv,
        digitVal_ofNat (Nat.mod_lt n (by omega))]
      omega

theorem natToChars_injective : Function.Injective natToChars := by
  intro a b h
  have := digitsToNat_natToChars a
  rw [h, digitsToNat_natToChars] at this
  omega

theorem natToString_injective : Function.Injective natToString := by
  intro a b h
  exact natToChars_injective (congrArg String.data h)

theorem natToChars_digits (n : Nat) :
    ∀ c ∈ natToChars n, c.isDigit = true := by
  induction n using Nat.strong_induction_on with
  | _ n ih =>
    by_cases h : n < 10
    · rw [natToChars_eq_small h]
      intro c hc
      rw [List.mem_singleton.mp hc]
      exact isDigit_ofNat h
    · have hdiv : n / 10 < n := Nat.div_lt_self (by omega) (by omega)
      rw [natToChars_eq_big h]
      intro c hc
      rcases List.mem_append.mp hc with hc | hc
      · exact ih (n / 10) hdiv c hc
      · rw [List.mem_singleton.mp hc]
        exact isDigit_ofNat (Nat.mod_lt n (by omega))

theorem natToChars_length_le : ∀ {n k : Nat}, 1 ≤ k → n < 10 ^ k →
    (natToChars n).length ≤ k := by
  intro n
  induction n using Nat.strong_induction_on with
  | _ n ihs =>
  intro k hk h
  by_cases hn : n < 10
  case pos =>
    rw [natToChars_eq_small hn]
    simpa using hk
  case neg =>
    have ih : ∀ {k : Nat}, 1 ≤ k → n / 10 < 10 ^ k →
        (natToChars (n / 10)).length ≤ k :=
      fun hk2 hlt => ihs (n / 10) (Nat.div_lt_self (by omega) (by omega)) hk2 hlt
    rw [natToChars_eq_big hn]
    have hk2 : 2 ≤ k := by
      by_contra hlt
      have : k = 1 := by omega
      subst this
      simp at h
      omega
    have hdiv : n / 10 < 10 ^ (k - 1) := by
      have h10 : 10 ^ k = 10 * 10 ^ (k - 1) := by
        conv_lhs => rw [show k = (k - 1) + 1 from by omega]
        rw [pow_succ]
        ring
      rw [Nat.div_lt_iff_lt_mul (by omega)]
      omega
    have := @ih (k - 1) (by omega) hdiv
    simp only [List.length_append, List.length_cons, List.length_nil]
    omega

/-- JavaScript `String.prototype.toLowerCase` for the ASCII header and
parameter names this library compares (structural, so it evaluates). -/
def jsToLower (s : String) : String := ⟨s.data.map Char.toLower⟩

/-- `String.prototype.startsWith` (structural, so it evaluates). -/
def jsStartsWith (s pre : String) : Bool := pre.data.isPrefixOf s.data

/-- `String.prototype.endsWith`. -/
def jsEndsWith (s suf : String) : Bool :=
  suf.data.reverse.isPrefixOf s.data.reverse

/-- `String.prototype.trim`. -/
def jsTrim (s : String) : String :=
  ⟨((s.data.dropWhile Char.isWhitespace).reverse.dropWhile
    Char.isWhitespace).reverse⟩

/-- `String.prototype.split` with a single-character separator. -/
def jsSplitChar (sep : Char) (s : String) : List String :=
  (s.data.splitOn sep).map (fun cs => ⟨cs⟩)

/-- Decimal rendering of an integer (JavaScript number-to-string for the
integral values the code prints). -/
def intToString (n : Int) : String :=
  if n < 0 then "-" ++ natToString n.natAbs else natToString n.natAbs

/-! ## Messages (`src/types/index.ts`)

Headers (`Record<string, string | string[]>`) are insertion-ordered
association lists; a URL is modelled pre-parsed (the code accepts `URL`
objects and otherwise builds one with `new URL`, which is platform code). -/

/-- A header value: `string | string[]`. -/
inductive HeaderVal where
  | one (s : String)
  | many (vs : List String)
  deriving DecidableEq, Repr

abbrev Headers := List (String × HeaderVal)

/-- A parsed URL as the WHATWG `URL` object exposes it to this library. -/
structure URLM where
  protocol : String     -- including the trailing colon, e.g. "https:"
  hostname : String
  port : String         -- "" when absent
  pathname : String
  search : String       -- including the leading "?", or ""
  href : String         -- `url.toString()`
  searchParams : List (String × String)
  deriving DecidableEq, Repr

structure RequestM where
  method : String
  url : URLM
  headers : Headers
  deriving DecidableEq, Repr

structure ResponseM where
  status : Int
  headers : Headers
  deriving DecidableEq, Repr

/-- `Request | Response`, the tagged union used throughout (the spec's design
note models the source's property-presence tagging as a sum type). -/
inductive MessageM where
  | req (r : RequestM)
  | res (r : ResponseM)
  deriving DecidableEq, Repr

def MessageM.headers : MessageM → Headers
  | .req r => r.headers
  | .res r => r.headers

/-- `string | number | boolean`: normalised component/signature parameter
values handed to component parsers and `deriveComponent`. -/
inductive PrimVal where
  | str (s : String)
  | int (n : Int)
  | bool (b : Bool)
  deriving DecidableEq, Repr

/-- JavaScript `toString` of a `PrimVal`. -/
def PrimVal.display : PrimVal → String
  | .str s => s
  | .int n => intToString n
  | .bool b => if b then "true" else "false"

/-- A consumer-supplied component parser (`ComponentParser` in
`src/types/index.ts`); `none` defers to built-in resolution. -/
abbrev ComponentParserM :=
  String → List (String × PrimVal) → MessageM → Option RequestM →
    Option (List String)

/-! ## Signing configuration (`src/types/index.ts`) -/

/-- A value of the `SignatureParameters` override map
(`Date | number | string | null`). -/
inductive PVal where
  | date (ms : Int)
  | str (s : String)
  | int (n : Int)
  | null
  deriving DecidableEq, Repr

/-- `paramValues`: the typed fields plus arbitrary extension entries. -/
structure ParamValuesM where
  created : Option (Option Int) := none  -- `some none` is an explicit `null`
  expires : Option Int := none           -- a `Date`, in epoch milliseconds
  keyid : Option String := none
  alg : Option String := none
  extra : List (String × PVal) := []
  deriving DecidableEq, Repr

structure SigningKeyM where
  id : Option String := none
  alg : Option String := none
  sign : String → Except ErrM String

structure SignConfigM where
  key : SigningKeyM
  name : Option String := none
  params : Option (List String) := none
  fields : Option (List String) := none
  paramValues : Option ParamValuesM := none
  componentParser : Option ComponentParserM := none

/-- `defaultParams` from `src/types/index.ts`. -/
def defaultParams : List String := ["keyid", "alg", "created", "expires"]

/-! ## `createSigningParameters` (`src/httpbis/index.ts` lines 219-270 and
`src/cavage/index.ts` lines 88-136)

The two dialects' functions are line-for-line identical except that the
cavage one renders a `Date`-valued extension parameter as a string
(`.toString()` on the computed number); the shared body is factored through
a flag so both can be stated (the sources are two literal copies). -/

/-- A signing-parameter value after the `switch`: `string | number`.  The
initial `let value: string | number = ''` is `SV.str ""`. -/
inductive SV where
  | str (s : String)
  | int (n : Int)
  deriving DecidableEq, Repr

/-- JavaScript truthiness of `string | number` (`if (value)`). -/
def svTruthy : SV → Bool
  | .str s => s != ""
  | .int n => n != 0

/-- `config.paramValues?.created === null` (the explicit opt-out). -/
def createdIsNull (cfg : SignConfigM) : Bool :=
  match cfg.paramValues with
  | some pv => pv.created == some none
  | none => false

/-- `config.paramValues?.created ?? now` as a timestamp (`??` also catches
the explicit `null`). -/
def createdDateMs (cfg : SignConfigM) (nowMs : Int) : Int :=
  match cfg.paramValues with
  | some pv =>
    match pv.created with
    | some (some ms) => ms
    | _ => nowMs
  | none => nowMs

/-- The `switch (jsToLower paramNameCase())` body computing `value` for one
requested parameter name. -/
def computeParamValue (dateExtraAsString : Bool) (cfg : SignConfigM)
    (nowMs : Int) (paramName : String) : SV :=
  match jsToLower paramName with
  | "created" =>
    if createdIsNull cfg then SV.str ""
    else SV.int (Int.fdiv (createdDateMs cfg nowMs) 1000)
  | "expires" =>
    let expiresOpt := cfg.paramValues.bind (·.expires)
    if expiresOpt.isSome || !createdIsNull cfg then
      SV.int (Int.fdiv (expiresOpt.getD (createdDateMs cfg nowMs + 300000)) 1000)
    else SV.str ""
  | "keyid" =>
    match (cfg.paramValues.bind (·.keyid)).or cfg.key.id with
    | some s => if s != "" then SV.str s else SV.str ""
    | none => SV.str ""
  | "alg" =>
    match (cfg.paramValues.bind (·.alg)).or cfg.key.alg with
    | some s => if s != "" then SV.str s else SV.str ""
    | none => SV.str ""
  | _ =>
    match cfg.paramValues.bind (fun pv => jsGet pv.extra paramName) with
    | some (PVal.date ms) =>
      if dateExtraAsString then SV.str (intToString (Int.fdiv ms 1000))
      else SV.int (Int.fdiv ms 1000)
    | some (PVal.str s) => if s != "" then SV.str s else SV.str ""
    | some (PVal.int n) => if n != 0 then SV.int n else SV.str ""
    | some PVal.null => SV.str ""
    | none => SV.str ""

/-- One step of the parameter-assembly `reduce`
(`if (value) params.set(paramName, value)`). -/
def spStep (dateExtraAsString : Bool) (cfg : SignConfigM) (nowMs : Int)
    (params : List (String × SV)) (paramName : String) : List (String × SV) :=
  let value := computeParamValue dateExtraAsString cfg nowMs paramName
  if svTruthy value then jsSet params paramName value else params

theorem spStep_pos {b : Bool} {cfg : SignConfigM} {now : Int}
    {params : List (String × SV)} {name : String}
    (h : svTruthy (computeParamValue b cfg now name) = true) :
    spStep b cfg now params name =
      jsSet params name (computeParamValue b cfg now name) := by
  unfold spStep
  rw [if_pos h]

theorem spStep_neg {b : Bool} {cfg : SignConfigM} {now : Int}
    {params : List (String × SV)} {name : String}
    (h : svTruthy (computeParamValue b cfg now name) = false) :
    spStep b cfg now params name = params := by
  unfold spStep
  rw [if_neg (by simp [h])]

/-- The `reduce` assembling the parameter map (`if (value) params.set(...)`). -/
def createSigningParametersWith (dateExtraAsString : Bool)
    (cfg : SignConfigM) (nowMs : Int) : List (String × SV) :=
  (cfg.params.getD defaultParams).foldl (spStep dateExtraAsString cfg nowMs) []

def Httpbis.createSigningParameters (cfg : SignConfigM) (nowMs : Int) :
    List (String × SV) :=
  createSigningParametersWith false cfg nowMs

def Cavage.createSigningParameters (cfg : SignConfigM) (nowMs : Int) :
    List (String × SV) :=
  createSigningParametersWith true cfg nowMs

/-- Key-membership characterisation of the parameter-assembly fold. -/
theorem exists_key_createSigningParametersWith (b : Bool)
    (cfg : SignConfigM) (now : Int) (p : String → Prop) :
    (∃ kv ∈ createSigningParametersWith b cfg now, p kv.1) ↔
      ∃ name ∈ cfg.params.getD defaultParams,
        svTruthy (computeParamValue b cfg now name) = true ∧ p name := by
  unfold createSigningParametersWith
  have main : ∀ (names : List String) (acc : List (String × SV)),
      (∃ kv ∈ names.foldl (spStep b cfg now) acc, p kv.1) ↔
      ((∃ kv ∈ acc, p kv.1) ∨
        ∃ name ∈ names,
          svTruthy (computeParamValue b cfg now name) = true ∧ p name) := by
    intro names
    induction names with
    | nil => intro acc; simp
    | cons n ns ih =>
      intro acc
      rw [List.foldl_cons, ih]
      rcases ht : svTruthy (computeParamValue b cfg now n) with _ | _
      · rw [spStep_neg ht]
        constructor
        · rintro (h | h)
          · exact Or.inl h
          · obtain ⟨m, hm, hmt, hmp⟩ := h
            exact Or.inr ⟨m, List.mem_cons_of_mem n hm, hmt, hmp⟩
        · rintro (h | ⟨m, hm, hmt, hmp⟩)
          · exact Or.inl h
          · rcases List.mem_cons.mp hm with rfl | hm'
            · rw [ht] at hmt; exact absurd hmt (by simp)
            · exact Or.inr ⟨m, hm', hmt, hmp⟩
      · rw [spStep_pos ht, jsSet_key_exists]
        constructor
        · rintro ((h | h) | h)
          · exact Or.inr ⟨n, List.mem_cons_self n ns, ht, h⟩
          · exact Or.inl h
          · obtain ⟨m, hm, hmt, hmp⟩ := h
            exact Or.inr ⟨m, List.mem_cons_of_mem n hm, hmt, hmp⟩
        · rintro (h | ⟨m, hm, hmt, hmp⟩)
          · exact Or.inl (Or.inr h)
          · rcases List.mem_cons.mp hm with rfl | hm'
            · exact Or.inl (Or.inl hmp)
            · exact Or.inr ⟨m, hm', hmt, hmp⟩
  rw [main]
  simp

theorem computeParamValue_created_null {b : Bool} {cfg : SignConfigM}
    {now : Int} {name : String} (hn : jsToLower name = "created")
    (h : createdIsNull cfg = true) :
    computeParamValue b cfg now name = SV.str "" := by
  unfold computeParamValue
  rw [hn]
  simp [h]

theorem computeParamValue_expires_of_created_null {b : Bool}
    {cfg : SignConfigM} {now : Int} {name : String}
    (hn : jsToLower name = "expires") (h : createdIsNull cfg = true) :
    computeParamValue b cfg now name =
      match cfg.paramValues.bind (·.expires) with
      | some e => SV.int (Int.fdiv e 1000)
      | none => SV.str "" := by
  unfold computeParamValue
  rw [hn]
  rcases he : cfg.paramValues.bind (·.expires) with _ | e <;>
    simp [he, h]

def keyNoop : SigningKeyM := { sign := fun _ => Except.ok "" }

/-- A `SignConfig` with `created: null` and an explicit `expires` lying in
the first second of the epoch: `Math.floor(500 / 1000) = 0` is falsy, so the
`if (value)` guard drops the supplied `expires`. -/
def cfgC7 : SignConfigM :=
  { key := keyNoop
    paramValues := some { created := some none, expires := some 500 } }

/-- C2-free counterexample for claim C7: with `created: null` and an
explicitly supplied `expires` whose computed integer value is `0`, neither
dialect's `createSigningParameters` emits an `expires` parameter, contrary
to the claim's "expires is still emitted". -/
theorem claim_C7_counterexample :
    createdIsNull cfgC7 = true ∧
    cfgC7.paramValues.bind (·.expires) = some 500 ∧
    (Httpbis.createSigningParameters cfgC7 0).any
      (fun kv => jsToLower kv.1 == "expires") = false ∧
    (Cavage.createSigningParameters cfgC7 0).any
      (fun kv => jsToLower kv.1 == "expires") = false := by
  refine ⟨rfl, rfl, ?_, ?_⟩ <;> rfl

/-- C7 (amended): in both dialects, an explicit `created: null` suppresses
the `created` parameter entirely, and an `expires` parameter is emitted
exactly when `expires` is among the requested parameter names, an explicit
`expires` override is supplied, and its computed integer value
`floor(ms / 1000)` is non-zero (a zero value is dropped by the `if (value)`
truthiness guard). -/
theorem claim_C7_created_null_suppresses (cfg : SignConfigM) (now : Int)
    (h : createdIsNull cfg = true) :
    (∀ kv ∈ Httpbis.createSigningParameters cfg now,
      jsToLower kv.1 ≠ "created") ∧
    (∀ kv ∈ Cavage.createSigningParameters cfg now,
      jsToLower kv.1 ≠ "created") ∧
    ((∃ kv ∈ Httpbis.createSigningParameters cfg now,
        jsToLower kv.1 = "expires") ↔
      ((∃ name ∈ cfg.params.getD defaultParams, jsToLower name = "expires") ∧
        ∃ e, cfg.paramValues.bind (·.expires) = some e ∧
          Int.fdiv e 1000 ≠ 0)) ∧
    ((∃ kv ∈ Cavage.createSigningParameters cfg now,
        jsToLower kv.1 = "expires") ↔
      ((∃ name ∈ cfg.params.getD defaultParams, jsToLower name = "expires") ∧
        ∃ e, cfg.paramValues.bind (·.expires) = some e ∧
          Int.fdiv e 1000 ≠ 0)) := by
  have hcreated : ∀ b : Bool, ∀ kv ∈ createSigningParametersWith b cfg now,
      jsToLower kv.1 ≠ "created" := by
    intro b kv hmem hlc
    have hex := (exists_key_createSigningParametersWith b cfg now
      (fun s => jsToLower s = "created")).mp ⟨kv, hmem, hlc⟩
    obtain ⟨m, _, hmt, hmc⟩ := hex
    rw [computeParamValue_created_null hmc h] at hmt
    simp [svTruthy] at hmt
  have hexpires : ∀ b : Bool,
      ((∃ kv ∈ createSigningParametersWith b cfg now,
        jsToLower kv.1 = "expires") ↔
      ((∃ name ∈ cfg.params.getD defaultParams, jsToLower name = "expires") ∧
        ∃ e, cfg.paramValues.bind (·.expires) = some e ∧
          Int.fdiv e 1000 ≠ 0)) := by
    intro b
    rw [exists_key_createSigningParametersWith b cfg now
      (fun s => jsToLower s = "expires")]
    constructor
    · rintro ⟨m, hm, hmt, hme⟩
      rw [computeParamValue_expires_of_created_null hme h] at hmt
      rcases he : cfg.paramValues.bind (·.expires) with _ | e
      · rw [he] at hmt; simp [svTruthy] at hmt
      · rw [he] at hmt
        simp only [svTruthy] at hmt
        exact ⟨⟨m, hm, hme⟩, e, rfl, by simpa using hmt⟩
    · rintro ⟨⟨m, hm, hme⟩, e, he, hfd⟩
      refine ⟨m, hm, ?_, hme⟩
      rw [computeParamValue_expires_of_created_null hme h, he]
      simpa [svTruthy] using hfd
  exact ⟨hcreated false, hcreated true, hexpires false, hexpires true⟩

/-- A `created: null` config with an `expires` whose computed value is the
non-zero integer `5000`. -/
def cfgC7W : SignConfigM :=
  { key := keyNoop
    paramValues := some { created := some none, expires := some 5000000 } }

theorem claim_C7_witness :
    createdIsNull cfgC7W = true ∧
    ((∀ kv ∈ Httpbis.createSigningParameters cfgC7W 0,
      jsToLower kv.1 ≠ "created") ∧
    (∀ kv ∈ Cavage.createSigningParameters cfgC7W 0,
      jsToLower kv.1 ≠ "created") ∧
    ((∃ kv ∈ Httpbis.createSigningParameters cfgC7W 0,
        jsToLower kv.1 = "expires") ↔
      ((∃ name ∈ cfgC7W.params.getD defaultParams, jsToLower name = "expires") ∧
        ∃ e, cfgC7W.paramValues.bind (·.expires) = some e ∧
          Int.fdiv e 1000 ≠ 0)) ∧
    ((∃ kv ∈ Cavage.createSigningParameters cfgC7W 0,
        jsToLower kv.1 = "expires") ↔
      ((∃ name ∈ cfgC7W.params.getD defaultParams, jsToLower name = "expires") ∧
        ∃ e, cfgC7W.paramValues.bind (·.expires) = some e ∧
          Int.fdiv e 1000 ≠ 0))) :=
  ⟨rfl, claim_C7_created_null_suppresses cfgC7W 0 rfl⟩

/-- C10: in both dialects, a requested parameter whose computed value is the
integer `0` or the empty string is never present in the emitted signature
parameters — the assembly loop's `if (value)` truthiness guard drops it. -/
theorem claim_C10_falsy_values_omitted (cfg : SignConfigM) (now : Int)
    (name : String) :
    ((computeParamValue false cfg now name = SV.int 0 ∨
      computeParamValue false cfg now name = SV.str "") →
      ∀ kv ∈ Httpbis.createSigningParameters cfg now, kv.1 ≠ name) ∧
    ((computeParamValue true cfg now name = SV.int 0 ∨
      computeParamValue true cfg now name = SV.str "") →
      ∀ kv ∈ Cavage.createSigningParameters cfg now, kv.1 ≠ name) := by
  have main : ∀ b : Bool,
      (computeParamValue b cfg now name = SV.int 0 ∨
        computeParamValue b cfg now name = SV.str "") →
      ∀ kv ∈ createSigningParametersWith b cfg now, kv.1 ≠ name := by
    intro b hv kv hmem heq
    have hex := (exists_key_createSigningParametersWith b cfg now
      (fun s => s = name)).mp ⟨kv, hmem, heq⟩
    obtain ⟨m, _, hmt, rfl⟩ := hex
    rcases hv with hv | hv <;> rw [hv] at hmt <;> simp [svTruthy] at hmt
  exact ⟨main false, main true⟩

/-- A config whose `keyid` override is the empty string: the computed
`keyid` value is the (falsy) empty string. -/
def cfgC10 : SignConfigM :=
  { key := keyNoop, paramValues := some { keyid := some "" } }

theorem claim_C10_witness :
    computeParamValue false cfgC10 0 "keyid" = SV.str "" ∧
    (∀ kv ∈ Httpbis.createSigningParameters cfgC10 0, kv.1 ≠ "keyid") ∧
    computeParamValue true cfgC10 0 "keyid" = SV.str "" ∧
    (∀ kv ∈ Cavage.createSigningParameters cfgC10 0, kv.1 ≠ "keyid") := by
  have h1 : computeParamValue false cfgC10 0 "keyid" = SV.str "" := by rfl
  have h2 : computeParamValue true cfgC10 0 "keyid" = SV.str "" := by rfl
  exact ⟨h1, (claim_C10_falsy_values_omitted cfgC10 0 "keyid").1 (Or.inr h1),
    h2, (claim_C10_falsy_values_omitted cfgC10 0 "keyid").2 (Or.inr h2)⟩

/-! ## Structured-field values (model of the `structured-headers` npm
package, RFC 8941)

The library stores byte sequences as their base64 text, exactly as the npm
`ByteSequence` class does.  Decimals are not modelled: this library never
produces them. -/

inductive BareItem where
  | int (n : Int)
  | str (s : String)
  | tok (s : String)
  | bytes (b : String)
  | bool (b : Bool)
  deriving DecidableEq, Repr

abbrev SFParams := List (String × BareItem)

abbrev SFItem := BareItem × SFParams

structure SFInner where
  items : List SFItem
  params : SFParams
  deriving DecidableEq, Repr

/-- A list/dictionary member: `Item | InnerList`. -/
inductive SFMember where
  | item (i : SFItem)
  | inner (l : SFInner)
  deriving DecidableEq, Repr

abbrev SFList := List SFMember

abbrev SFDict := List (String × SFMember)

/-! ## Unique signature label choice
(`augmentHeaders`, `src/httpbis/index.ts` lines 293-306) -/

theorem jsHas_iff_mem_keys {α : Type} {m : List (String × α)} {k : String} :
    jsHas m k = true ↔ k ∈ m.map Prod.fst := by
  unfold jsHas
  rw [List.any_eq_true]
  constructor
  · rintro ⟨p, hp, hpe⟩
    exact List.mem_map.mpr ⟨p, hp, (by simpa using hpe :  p.1 = k)⟩
  · intro h
    obtain ⟨p, hp, hpe⟩ := List.mem_map.mp h
    exact ⟨p, hp, by simp [hpe]⟩

theorem append_natToString_injective (base : String) :
    Function.Injective (fun k : ℕ => base ++ natToString k) := by
  intro a b h
  apply natToString_injective
  have hd := congrArg String.data h
  simp only [String.data_append] at hd
  exact congrArg String.mk (List.append_cancel_left hd)

theorem exists_name_not_mem (L : List String) (base : String) :
    ∃ k : ℕ, (base ++ natToString k) ∉ L := by
  by_contra h
  push_neg at h
  have hinf : (↑L.toFinset : Set String).Infinite :=
    Set.infinite_of_injective_forall_mem (append_natToString_injective base)
      (fun k => List.mem_toFinset.mpr (h k))
  exact hinf L.toFinset.finite_toSet

theorem exists_free_label (sigDict inputDict : SFDict) (base : String) :
    ∃ k : ℕ, ¬((jsHas sigDict (base ++ natToString k) ||
      jsHas inputDict (base ++ natToString k)) = true) := by
  obtain ⟨k, hk⟩ := exists_name_not_mem
    (sigDict.map Prod.fst ++ inputDict.map Prod.fst) base
  refine ⟨k, ?_⟩
  rw [Bool.or_eq_true]
  rintro (h | h)
  · exact hk (List.mem_append.mpr (Or.inl (jsHas_iff_mem_keys.mp h)))
  · exact hk (List.mem_append.mpr (Or.inr (jsHas_iff_mem_keys.mp h)))

/-- The label-choice logic of `augmentHeaders`: start from the requested
name (default `sig`); on a collision, run `count` from `0` upwards until
`name + count` is free in both parsed dictionaries (`Nat.find` is exactly
the first loop exit). -/
def chooseSignatureName (sigDict inputDict : SFDict) (name : Option String) :
    String :=
  let base := name.getD "sig"
  if jsHas sigDict base || jsHas inputDict base then
    base ++ natToString (Nat.find (exists_free_label sigDict inputDict base))
  else base

/-- C6: the signing path's label is absent from both pre-existing
dictionaries; when the requested label collides, the chosen label is the
requested name with the smallest non-negative integer appended that yields
a free name; otherwise it is the requested name itself. -/
theorem claim_C6_label_uniqueness (sigDict inputDict : SFDict)
    (name : Option String) :
    (jsHas sigDict (chooseSignatureName sigDict inputDict name) = false ∧
      jsHas inputDict (chooseSignatureName sigDict inputDict name) = false) ∧
    ((jsHas sigDict (name.getD "sig") || jsHas inputDict (name.getD "sig"))
        = false →
      chooseSignatureName sigDict inputDict name = name.getD "sig") ∧
    ((jsHas sigDict (name.getD "sig") || jsHas inputDict (name.getD "sig"))
        = true →
      ∃ k : ℕ,
        chooseSignatureName sigDict inputDict name =
          name.getD "sig" ++ natToString k ∧
        ∀ j < k,
          (jsHas sigDict (name.getD "sig" ++ natToString j) ||
            jsHas inputDict (name.getD "sig" ++ natToString j)) = true) := by
  by_cases h : (jsHas sigDict (name.getD "sig") ||
      jsHas inputDict (name.getD "sig")) = true
  · have hch : chooseSignatureName sigDict inputDict name =
        name.getD "sig" ++ natToString
          (Nat.find (exists_free_label sigDict inputDict (name.getD "sig"))) := by
      simp only [chooseSignatureName, h, if_true]
    have hfree := Nat.find_spec (exists_free_label sigDict inputDict
      (name.getD "sig"))
    have hor : (jsHas sigDict (name.getD "sig" ++ natToString
        (Nat.find (exists_free_label sigDict inputDict (name.getD "sig")))) ||
        jsHas inputDict (name.getD "sig" ++ natToString
        (Nat.find (exists_free_label sigDict inputDict (name.getD "sig")))))
        = false := by
      simpa using hfree
    obtain ⟨h1, h2⟩ := Bool.or_eq_false_iff.mp hor
    refine ⟨⟨by rw [hch]; exact h1, by rw [hch]; exact h2⟩, ?_, ?_⟩
    · intro hc
      rw [h] at hc
      exact absurd hc (by simp)
    · intro _
      refine ⟨Nat.find (exists_free_label sigDict inputDict (name.getD "sig")),
        hch, ?_⟩
      intro j hj
      have hmin := Nat.find_min (exists_free_label sigDict inputDict
        (name.getD "sig")) hj
      exact not_not.mp hmin
  · have hfalse : (jsHas sigDict (name.getD "sig") ||
        jsHas inputDict (name.getD "sig")) = false := by
      simpa using h
    have hch : chooseSignatureName sigDict inputDict name = name.getD "sig" := by
      simp only [chooseSignatureName, hfalse, Bool.false_eq_true, if_false]
    obtain ⟨h1, h2⟩ := Bool.or_eq_false_iff.mp hfalse
    refine ⟨⟨by rw [hch]; exact h1, by rw [hch]; exact h2⟩,
      fun _ => hch, ?_⟩
    intro hc
    rw [hfalse] at hc
    exact absurd hc (by simp)

/-- Concrete dictionaries for the C6 witness: the default label `sig` and
`sig0` are taken, so the chosen label is `sig1`. -/
def sigDictC6 : SFDict :=
  [("sig", SFMember.item (BareItem.bytes "QQ==", [])),
   ("sig0", SFMember.item (BareItem.bytes "QQ==", []))]

theorem claim_C6_witness :
    ((jsHas sigDictC6 (chooseSignatureName sigDictC6 [] none) = false ∧
      jsHas ([] : SFDict) (chooseSignatureName sigDictC6 [] none) = false) ∧
    ((jsHas sigDictC6 "sig" || jsHas ([] : SFDict) "sig") = false →
      chooseSignatureName sigDictC6 [] none = "sig") ∧
    ((jsHas sigDictC6 "sig" || jsHas ([] : SFDict) "sig") = true →
      ∃ k : ℕ,
        chooseSignatureName sigDictC6 [] none = "sig" ++ natToString k ∧
        ∀ j < k,
          (jsHas sigDictC6 ("sig" ++ natToString j) ||
            jsHas ([] : SFDict) ("sig" ++ natToString j)) = true)) ∧
    (jsHas sigDictC6 "sig" || jsHas ([] : SFDict) "sig") = true :=
  ⟨claim_C6_label_uniqueness sigDictC6 [] none, by rfl⟩

/-! ## Structured-field codec: character classes and leaf parsers -/

def isTokenStart (c : Char) : Bool := c.isAlpha || c == '*'

def isTokenChar (c : Char) : Bool :=
  c.isAlpha || c.isDigit || c == '!' || c == '#' || c == '$' || c == '%' ||
  c == '&' || c == Char.ofNat 39 || c == '*' || c == '+' || c == '-' ||
  c == '.' || c == '^' || c == '_' || c == Char.ofNat 96 || c == '|' ||
  c == '~' || c == ':' || c == '/'

def isKeyStart (c : Char) : Bool := c.isLower || c == '*'

def isKeyChar (c : Char) : Bool :=
  c.isLower || c.isDigit || c == '_' || c == '-' || c == '.' || c == '*'

def isB64Char (c : Char) : Bool :=
  c.isAlpha || c.isDigit || c == '+' || c == '/' || c == '='

/-- Printable ASCII (%x20-7E), the characters allowed in sf-strings. -/
def isPrintable (c : Char) : Bool := 32 ≤ c.toNat && c.toNat ≤ 126

/-- Discard leading SP characters (RFC 8941 top-level / inner-list). -/
def dropSP (cs : List Char) : List Char := cs.dropWhile (· == ' ')

/-- Discard leading OWS (SP / HTAB). -/
def dropOWS (cs : List Char) : List Char :=
  cs.dropWhile (fun c => c == ' ' || c == '\t')

/-- Parse a dictionary/parameter key. -/
def parseKey (cs : List Char) : Option (String × List Char) :=
  match cs with
  | [] => none
  | c :: rest =>
    if isKeyStart c then
      some (⟨c :: rest.takeWhile isKeyChar⟩, rest.dropWhile isKeyChar)
    else none

/-- Parse a run of 1-15 decimal digits not followed by a `.` (decimals are
rejected: this library never emits them, so the model's grammar omits
them). -/
def parseDigits (cs : List Char) : Option (Nat × List Char) :=
  if (cs.takeWhile Char.isDigit).length = 0 ∨
      15 < (cs.takeWhile Char.isDigit).length then none
  else
    match cs.dropWhile Char.isDigit with
    | '.' :: _ => none
    | rest => some (digitsToNat (cs.takeWhile Char.isDigit), rest)

/-- Parse an sf-integer: optional `-` sign, then digits. -/
def parseIntPart (cs : List Char) : Option (Int × List Char) :=
  match cs with
  | '-' :: cs1 => (parseDigits cs1).map (fun p => (-(p.1 : Int), p.2))
  | _ => (parseDigits cs).map (fun p => ((p.1 : Int), p.2))

/-- Parse the characters of an sf-string after the opening quote, undoing
the two escapes. -/
def parseStringChars (cs : List Char) : Option (List Char × List Char) :=
  match cs with
  | [] => none
  | '"' :: rest => some ([], rest)
  | '\\' :: [] => none
  | '\\' :: c :: rest =>
    if c == '"' || c == '\\' then
      (parseStringChars rest).map (fun p => (c :: p.1, p.2))
    else none
  | c :: rest =>
    if isPrintable c then
      (parseStringChars rest).map (fun p => (c :: p.1, p.2))
    else none

def parseStringBare (cs : List Char) : Option (BareItem × List Char) :=
  match cs with
  | '"' :: rest => (parseStringChars rest).map (fun p => (.str ⟨p.1⟩, p.2))
  | _ => none

def parseTokenBare (cs : List Char) : Option (BareItem × List Char) :=
  match cs with
  | [] => none
  | c :: rest =>
    if isTokenStart c then
      some (.tok ⟨c :: rest.takeWhile isTokenChar⟩, rest.dropWhile isTokenChar)
    else none

def parseBytesBare (cs : List Char) : Option (BareItem × List Char) :=
  match cs with
  | ':' :: rest =>
    match rest.dropWhile isB64Char with
    | ':' :: r => some (.bytes ⟨rest.takeWhile isB64Char⟩, r)
    | _ => none
  | _ => none

def parseBoolBare (cs : List Char) : Option (BareItem × List Char) :=
  match cs with
  | '?' :: '1' :: r => some (.bool true, r)
  | '?' :: '0' :: r => some (.bool false, r)
  | _ => none

def parseBareItem (cs : List Char) : Option (BareItem × List Char) :=
  match cs with
  | [] => none
  | c :: _ =>
    if c == '"' then parseStringBare cs
    else if c == ':' then parseBytesBare cs
    else if c == '?' then parseBoolBare cs
    else if c == '-' || c.isDigit then
      (parseIntPart cs).map (fun p => (.int p.1, p.2))
    else if isTokenStart c then parseTokenBare cs
    else none

/-! ### Consumption bounds (for termination of the loop parsers) -/

theorem length_takeWhile_add_dropWhile (p : Char → Bool) (l : List Char) :
    (l.takeWhile p).length + (l.dropWhile p).length = l.length := by
  conv_rhs => rw [← @List.takeWhile_append_dropWhile _ p l]
  rw [List.length_append]

theorem length_dropWhile_le (p : Char → Bool) (l : List Char) :
    (l.dropWhile p).length ≤ l.length := by
  have := length_takeWhile_add_dropWhile p l
  omega

theorem parseKey_lt {cs : List Char} {k : String} {r : List Char}
    (h : parseKey cs = some (k, r)) : r.length < cs.length := by
  match cs with
  | [] => simp [parseKey] at h
  | c :: rest =>
    rw [show parseKey (c :: rest) =
      (if isKeyStart c then
        some (⟨c :: rest.takeWhile isKeyChar⟩, rest.dropWhile isKeyChar)
      else none) from rfl] at h
    by_cases hs : isKeyStart c
    · rw [if_pos hs] at h
      obtain ⟨-, hr⟩ : _ ∧ rest.dropWhile isKeyChar = r := by
        simpa using h
      subst hr
      have := length_dropWhile_le isKeyChar rest
      simp only [List.length_cons]
      omega
    · rw [if_neg hs] at h
      cases h

theorem parseDigits_lt {cs : List Char} {n : Nat} {r : List Char}
    (h : parseDigits cs = some (n, r)) : r.length < cs.length := by
  unfold parseDigits at h
  split at h
  · cases h
  · rename_i hlen
    have h1 := length_takeWhile_add_dropWhile Char.isDigit cs
    split at h
    · cases h
    · rename_i heq
      obtain ⟨-, hr⟩ : _ ∧ List.dropWhile Char.isDigit cs = r := by
        simpa using h
      subst hr
      omega

theorem parseIntPart_lt {cs : List Char} {n : Int} {r : List Char}
    (h : parseIntPart cs = some (n, r)) : r.length < cs.length := by
  unfold parseIntPart at h
  split at h
  · rename_i cs1
    obtain ⟨p, hp, -, hr⟩ :
        ∃ p, parseDigits cs1 = some p ∧ -(p.1 : Int) = n ∧ p.2 = r := by
      match hd : parseDigits cs1 with
      | none => rw [hd] at h; cases h
      | some p =>
        rw [hd] at h
        obtain ⟨h1, h2⟩ : -(p.1 : Int) = n ∧ p.2 = r := by simpa using h
        exact ⟨p, rfl, h1, h2⟩
    subst hr
    have := parseDigits_lt hp
    simp only [List.length_cons]
    omega
  · obtain ⟨p, hp, -, hr⟩ :
        ∃ p, parseDigits cs = some p ∧ ((p.1 : Int)) = n ∧ p.2 = r := by
      match hd : parseDigits cs with
      | none => rw [hd] at h; cases h
      | some p =>
        rw [hd] at h
        obtain ⟨h1, h2⟩ : ((p.1 : Int)) = n ∧ p.2 = r := by simpa using h
        exact ⟨p, rfl, h1, h2⟩
    subst hr
    exact parseDigits_lt hp

theorem parseStringChars_lt_aux :
    ∀ (n : Nat) (cs : List Char), cs.length = n → ∀ {s r : List Char},
      parseStringChars cs = some (s, r) → r.length < cs.length := by
  intro n
  induction n using Nat.strong_induction_on with
  | _ n ih =>
    intro cs hlen s r h
    unfold parseStringChars at h
    split at h
    · cases h
    · obtain ⟨-, hr⟩ : [] = s ∧ _ = r := by simpa using h
      subst hr
      simp
    · cases h
    · rename_i c rest
      split at h
      · match hp : parseStringChars rest with
        | none => rw [hp] at h; cases h
        | some q =>
          rw [hp] at h
          obtain ⟨-, hr⟩ : _ ∧ q.2 = r := by simpa using h
          subst hr
          have hq := ih rest.length (by subst hlen; simp; omega) rest rfl
            (show parseStringChars rest = some (q.1, q.2) from hp)
          simp only [List.length_cons]
          omega
      · cases h
    · rename_i c rest hn1 hn2 hn3
      split at h
      · match hp : parseStringChars rest with
        | none => rw [hp] at h; cases h
        | some q =>
          rw [hp] at h
          obtain ⟨-, hr⟩ : _ ∧ q.2 = r := by simpa using h
          subst hr
          have hq := ih rest.length (by subst hlen; simp) rest rfl
            (show parseStringChars rest = some (q.1, q.2) from hp)
          simp only [List.length_cons]
          omega
      · cases h

theorem parseStringChars_lt {cs s r : List Char}
    (h : parseStringChars cs = some (s, r)) : r.length < cs.length :=
  parseStringChars_lt_aux cs.length cs rfl h

theorem parseStringBare_lt {cs : List Char} {b : BareItem} {r : List Char}
    (h : parseStringBare cs = some (b, r)) : r.length < cs.length := by
  unfold parseStringBare at h
  split at h
  · rename_i rest
    match hp : parseStringChars rest with
    | none => rw [hp] at h; cases h
    | some q =>
      rw [hp] at h
      obtain ⟨-, hr⟩ : _ ∧ q.2 = r := by simpa using h
      subst hr
      have := @parseStringChars_lt rest q.1 q.2 hp
      simp only [List.length_cons]
      omega
  · cases h

theorem parseTokenBare_lt {cs : List Char} {b : BareItem} {r : List Char}
    (h : parseTokenBare cs = some (b, r)) : r.length < cs.length := by
  unfold parseTokenBare at h
  split at h
  · cases h
  · rename_i c rest
    split at h
    · obtain ⟨-, hr⟩ : _ ∧ rest.dropWhile isTokenChar = r := by simpa using h
      subst hr
      have := length_dropWhile_le isTokenChar rest
      simp only [List.length_cons]
      omega
    · cases h

theorem map_cons_snd_eq {α β : Type} {p : Option (α × List Char)}
    {f : α → β} {b : β} {r : List Char}
    (h : (p.map (fun q => (f q.1, q.2))) = some (b, r)) :
    ∃ q, p = some q ∧ q.2 = r := by
  match p with
  | none => cases h
  | some q =>
    obtain ⟨-, hr⟩ : _ ∧ q.2 = r := by simpa using h
    exact ⟨q, rfl, hr⟩

theorem parseBytesBare_lt {cs : List Char} {b : BareItem} {rr : List Char}
    (h : parseBytesBare cs = some (b, rr)) : rr.length < cs.length := by
  unfold parseBytesBare at h
  split at h
  · rename_i rest
    split at h
    · rename_i r2 heq
      obtain ⟨-, hr⟩ : _ ∧ r2 = rr := by simpa using h
      rw [← hr]
      have h1 := length_dropWhile_le isB64Char rest
      have h2 : (rest.dropWhile isB64Char).length = r2.length + 1 := by
        rw [heq]
        simp
      simp only [List.length_cons]
      omega
    · cases h
  · cases h

theorem parseBoolBare_lt {cs : List Char} {b : BareItem} {rr : List Char}
    (h : parseBoolBare cs = some (b, rr)) : rr.length < cs.length := by
  unfold parseBoolBare at h
  split at h
  · rename_i r2
    obtain ⟨-, hr⟩ : _ ∧ r2 = rr := by simpa using h
    rw [← hr]
    simp only [List.length_cons]
    omega
  · rename_i r2
    obtain ⟨-, hr⟩ : _ ∧ r2 = rr := by simpa using h
    rw [← hr]
    simp only [List.length_cons]
    omega
  · cases h

theorem parseBareItem_lt {cs : List Char} {b : BareItem} {rr : List Char}
    (h : parseBareItem cs = some (b, rr)) : rr.length < cs.length := by
  unfold parseBareItem at h
  split at h
  · cases h
  · split at h
    · exact parseStringBare_lt h
    · split at h
      · exact parseBytesBare_lt h
      · split at h
        · exact parseBoolBare_lt h
        · split at h
          · obtain ⟨q, hp, hr⟩ := map_cons_snd_eq h
            rw [← hr]
            exact parseIntPart_lt
              (show parseIntPart _ = some (q.1, q.2) from hp)
          · split at h
            · exact parseTokenBare_lt h
            · cases h

theorem dropSP_length_le (cs : List Char) : (dropSP cs).length ≤ cs.length :=
  length_dropWhile_le _ cs

theorem dropOWS_length_le (cs : List Char) :
    (dropOWS cs).length ≤ cs.length :=
  length_dropWhile_le _ cs

/-! ### Loop parsers (parameters, items, inner lists, lists, dictionaries) -/

/-- Fuel-driven worker for `parseParamsAux` (structural recursion on the
fuel, so the kernel can evaluate it); every recursive step consumes at
least one character, so fuel `cs.length + 1` always suffices. -/
def parseParamsF : Nat → List Char → SFParams → Option (SFParams × List Char)
  | 0, _, _ => none
  | fuel + 1, cs, acc =>
    match cs with
    | ';' :: rest =>
      match parseKey (dropSP rest) with
      | none => none
      | some (k, rest2) =>
        match rest2 with
        | '=' :: rest3 =>
          match parseBareItem rest3 with
          | none => none
          | some (v, rest4) => parseParamsF fuel rest4 (jsSet acc k v)
        | _ => parseParamsF fuel rest2 (jsSet acc k (.bool true))
    | _ => some (acc, cs)

/-- Parse `*(";" *SP key ["=" bare-item])`; a key without `=` gets the
boolean `true` value (RFC 8941 §4.2.3.2); a re-used parameter key
overwrites in place. -/
def parseParamsAux (cs : List Char) (acc : SFParams) :
    Option (SFParams × List Char) :=
  parseParamsF (cs.length + 1) cs acc

theorem parseParamsF_le :
    ∀ {fuel : Nat} {cs : List Char} {acc ps : SFParams} {r : List Char},
      parseParamsF fuel cs acc = some (ps, r) → r.length ≤ cs.length := by
  intro fuel
  induction fuel with
  | zero =>
    intro cs acc ps r h
    exact Option.noConfusion h
  | succ fuel ih =>
    intro cs acc ps r h
    simp only [parseParamsF] at h
    split at h
    · rename_i rest
      split at h
      · cases h
      · rename_i k rest2 h1
        split at h
        · rename_i rest3
          split at h
          · cases h
          · rename_i v rest4 h2
            have hkl := parseKey_lt h1
            have hbl := parseBareItem_lt h2
            have hd := dropSP_length_le rest
            have hrec := ih h
            simp only [List.length_cons] at *
            omega
        · rename_i hdup hdup2
          have hkl := parseKey_lt h1
          have hd := dropSP_length_le rest
          have hrec := ih h
          simp only [List.length_cons] at *
          omega
    · obtain ⟨-, hr⟩ : acc = ps ∧ cs = r := by simpa using h
      subst hr
      exact Nat.le_refl _

theorem parseParamsAux_le {cs : List Char} {acc ps : SFParams}
    {r : List Char} (h : parseParamsAux cs acc = some (ps, r)) :
    r.length ≤ cs.length := by
  unfold parseParamsAux at h
  exact parseParamsF_le h

/-- Parse an item: bare item followed by parameters. -/
def parseItem (cs : List Char) : Option (SFItem × List Char) :=
  match parseBareItem cs with
  | none => none
  | some (b, rest) =>
    (parseParamsAux rest []).map (fun p => ((b, p.1), p.2))

theorem parseItem_lt {cs : List Char} {it : SFItem} {r : List Char}
    (h : parseItem cs = some (it, r)) : r.length < cs.length := by
  unfold parseItem at h
  split at h
  · cases h
  · rename_i b rest hb
    match hp : parseParamsAux rest [] with
    | none => rw [hp] at h; cases h
    | some q =>
      rw [hp] at h
      obtain ⟨-, hr⟩ : _ ∧ q.2 = r := by simpa using h
      rw [← hr]
      have h1 := parseBareItem_lt hb
      have h2 := parseParamsAux_le
        (show parseParamsAux rest [] = some (q.1, q.2) from hp)
      omega

/-- Fuel-driven worker for `parseInnerAux`; every recursive step consumes
at least one character, so fuel `cs.length + 1` always suffices. -/
def parseInnerF : Nat → List Char → List SFItem → Option (SFInner × List Char)
  | 0, _, _ => none
  | fuel + 1, cs, acc =>
    match dropSP cs with
    | ')' :: rest =>
      match parseParamsAux rest [] with
      | none => none
      | some (ps, r) => some ({ items := acc, params := ps }, r)
    | cs1 =>
      match parseItem cs1 with
      | none => none
      | some (it, rest) =>
        match rest with
        | ' ' :: t => parseInnerF fuel (' ' :: t) (acc ++ [it])
        | ')' :: t => parseInnerF fuel (')' :: t) (acc ++ [it])
        | _ => none

/-- Parse the body of an inner list after the opening `(`: space-separated
items, a closing `)`, then the list's parameters; after an item the next
character must be SP or `)` (RFC 8941 §4.2.1.2). -/
def parseInnerAux (cs : List Char) (acc : List SFItem) :
    Option (SFInner × List Char) :=
  parseInnerF (cs.length + 1) cs acc

theorem parseInnerF_lt :
    ∀ {fuel : Nat} {cs : List Char} {acc : List SFItem} {l : SFInner}
      {r : List Char},
      parseInnerF fuel cs acc = some (l, r) → r.length < cs.length := by
  intro fuel
  induction fuel with
  | zero =>
    intro cs acc l r h
    exact Option.noConfusion h
  | succ fuel ih =>
    intro cs acc l r h
    simp only [parseInnerF] at h
    split at h
    · rename_i rest h0
      split at h
      · cases h
      · rename_i ps r2 hp
        obtain ⟨-, hr⟩ : _ ∧ r2 = r := by simpa using h
        rw [← hr]
        have h1 := parseParamsAux_le hp
        have hd := dropSP_length_le cs
        rw [h0] at hd
        simp only [List.length_cons] at hd
        omega
    · rename_i hne
      split at h
      · cases h
      · rename_i it rest h1
        have hi := parseItem_lt h1
        have hd := dropSP_length_le cs
        split at h
        · rename_i t h5
          have := ih h
          simp only [List.length_cons] at *
          omega
        · rename_i t h5
          have := ih h
          simp only [List.length_cons] at *
          omega
        · cases h

theorem parseInnerAux_lt {cs : List Char} {acc : List SFItem} {l : SFInner}
    {r : List Char} (h : parseInnerAux cs acc = some (l, r)) :
    r.length < cs.length := by
  unfold parseInnerAux at h
  exact parseInnerF_lt h

/-- Parse a list member: an inner list when the next character is `(`,
otherwise an item. -/
def parseMember (cs : List Char) : Option (SFMember × List Char) :=
  match cs with
  | '(' :: rest => (parseInnerAux rest []).map (fun p => (.inner p.1, p.2))
  | _ => (parseItem cs).map (fun p => (.item p.1, p.2))

theorem parseMember_lt {cs : List Char} {m : SFMember} {r : List Char}
    (h : parseMember cs = some (m, r)) : r.length < cs.length := by
  unfold parseMember at h
  split at h
  · rename_i rest
    obtain ⟨q, hp, hr⟩ := map_cons_snd_eq h
    rw [← hr]
    have := parseInnerAux_lt
      (show parseInnerAux rest [] = some (q.1, q.2) from hp)
    simp only [List.length_cons]
    omega
  · obtain ⟨q, hp, hr⟩ := map_cons_snd_eq h
    rw [← hr]
    exact parseItem_lt (show parseItem _ = some (q.1, q.2) from hp)

/-- Fuel-driven worker for `parseListAux`; every recursive step consumes
at least one character, so fuel `cs.length + 1` always suffices. -/
def parseListF : Nat → List Char → SFList → Option SFList
  | 0, _, _ => none
  | fuel + 1, cs, acc =>
    match parseMember cs with
    | none => none
    | some (m, rest) =>
      match dropOWS rest with
      | [] => some (acc ++ [m])
      | ',' :: rest2 =>
        match dropOWS rest2 with
        | [] => none
        | rest3 => parseListF fuel rest3 (acc ++ [m])
      | _ => none

/-- Parse the members of a non-empty list: members separated by OWS-comma-
OWS; a trailing comma fails (RFC 8941 §4.2.1). -/
def parseListAux (cs : List Char) (acc : SFList) : Option SFList :=
  parseListF (cs.length + 1) cs acc

/-- Parse the entries of a non-empty dictionary: `key [ "=" member |
parameters ]` separated by OWS-comma-OWS; a key without `=` denotes a
`true` item carrying the parsed parameters; a duplicate key overwrites in
place (RFC 8941 §4.2.2). -/
def parseDictF : Nat → List Char → SFDict → Option SFDict
  | 0, _, _ => none
  | fuel + 1, cs, acc =>
    match parseKey cs with
    | none => none
    | some (k, rest) =>
      match rest with
      | '=' :: rest2 =>
        match parseMember rest2 with
        | none => none
        | some (m, rest3) =>
          match dropOWS rest3 with
          | [] => some (jsSet acc k m)
          | ',' :: rest4 =>
            match dropOWS rest4 with
            | [] => none
            | rest5 => parseDictF fuel rest5 (jsSet acc k m)
          | _ => none
      | restx =>
        match parseParamsAux restx [] with
        | none => none
        | some (ps, rest3) =>
          match dropOWS rest3 with
          | [] => some (jsSet acc k (.item (.bool true, ps)))
          | ',' :: rest4 =>
            match dropOWS rest4 with
            | [] => none
            | rest5 => parseDictF fuel rest5 (jsSet acc k (.item (.bool true, ps)))
          | _ => none

def parseDictAux (cs : List Char) (acc : SFDict) : Option SFDict :=
  parseDictF (cs.length + 1) cs acc

/-! ### Top-level parse entry points (npm `parseItem`, `parseList`,
`parseDictionary`): discard leading/trailing SP, then require the whole
input to be consumed; the empty string is an empty list / dictionary. -/

def parseItemTop (s : String) : Except ErrM SFItem :=
  match parseItem (dropSP s.data) with
  | none => .error (.parseError "failed to parse item")
  | some (it, rest) =>
    if dropSP rest = [] then .ok it
    else .error (.parseError "trailing characters after item")

def parseListTop (s : String) : Except ErrM SFList :=
  match dropSP s.data with
  | [] => .ok []
  | cs =>
    match parseListAux cs [] with
    | some l => .ok l
    | none => .error (.parseError "failed to parse list")

def parseDictTop (s : String) : Except ErrM SFDict :=
  match dropSP s.data with
  | [] => .ok []
  | cs =>
    match parseDictAux cs [] with
    | some d => .ok d
    | none => .error (.parseError "failed to parse dictionary")

/-! ### Serialisers (npm `serializeItem` / `serializeList` /
`serializeDictionary`): `none` models the `SerializeError` the npm library
throws on ill-formed keys, tokens, strings, byte content or out-of-range
integers. -/

def serializeKey (k : String) : Option String :=
  match k.data with
  | [] => none
  | c :: rest => if isKeyStart c && rest.all isKeyChar then some k else none

/-- Escape `"` and `\` in an sf-string body. -/
def escapeChars (cs : List Char) : List Char :=
  match cs with
  | [] => []
  | c :: rest =>
    if c == '"' || c == '\\' then '\\' :: c :: escapeChars rest
    else c :: escapeChars rest

def serializeBareItem (b : BareItem) : Option String :=
  match b with
  | .int n =>
    if -999999999999999 ≤ n ∧ n ≤ 999999999999999 then some (intToString n)
    else none
  | .str s =>
    if s.data.all isPrintable then some ("\"" ++ ⟨escapeChars s.data⟩ ++ "\"")
    else none
  | .tok s =>
    match s.data with
    | [] => none
    | c :: rest => if isTokenStart c && rest.all isTokenChar then some s
      else none
  | .bytes b =>
    if b.data.all isB64Char then some (":" ++ b ++ ":") else none
  | .bool b => some (if b then "?1" else "?0")

def serializeParams (ps : SFParams) : Option String :=
  match ps with
  | [] => some ""
  | (k, v) :: rest => do
    let ks ← serializeKey k
    let tail ← serializeParams rest
    match v with
    | .bool true => pure (";" ++ ks ++ tail)
    | _ => do
      let vs ← serializeBareItem v
      pure (";" ++ ks ++ "=" ++ vs ++ tail)

def serializeItem (it : SFItem) : Option String := do
  let bs ← serializeBareItem it.1
  let ps ← serializeParams it.2
  pure (bs ++ ps)

def serializeItemsSp (items : List SFItem) : Option String :=
  match items with
  | [] => some ""
  | [i] => serializeItem i
  | i :: rest => do
    let is ← serializeItem i
    let tail ← serializeItemsSp rest
    pure (is ++ " " ++ tail)

def serializeInnerList (l : SFInner) : Option String := do
  let items ← serializeItemsSp l.items
  let ps ← serializeParams l.params
  pure ("(" ++ items ++ ")" ++ ps)

def serializeMember (m : SFMember) : Option String :=
  match m with
  | .item i => serializeItem i
  | .inner l => serializeInnerList l

def serializeListBody (l : SFList) : Option String :=
  match l with
  | [] => some ""
  | [m] => serializeMember m
  | m :: rest => do
    let ms ← serializeMember m
    let tail ← serializeListBody rest
    pure (ms ++ ", " ++ tail)

def serializeListTop (l : SFList) : Option String := serializeListBody l

/-- A dictionary member whose bare item is boolean `true` serialises as the
bare key followed by the member's parameters (RFC 8941 §4.1.2). -/
def serializeDictEntry (k : String) (m : SFMember) : Option String := do
  let ks ← serializeKey k
  match m with
  | .item (.bool true, ps) => do
    let pss ← serializeParams ps
    pure (ks ++ pss)
  | _ => do
    let ms ← serializeMember m
    pure (ks ++ "=" ++ ms)

def serializeDictBody (d : SFDict) : Option String :=
  match d with
  | [] => some ""
  | [(k, m)] => serializeDictEntry k m
  | (k, m) :: rest => do
    let es ← serializeDictEntry k m
    let tail ← serializeDictBody rest
    pure (es ++ ", " ++ tail)

def serializeDictTop (d : SFDict) : Option String := serializeDictBody d

/-! ## Platform text codecs

`Buffer.toString('base64')` / `Buffer.from(_, 'base64')` and
`encodeURIComponent` / `decodeURIComponent` are Node/WHATWG platform
functions, not part of this library; the embedding takes them as explicit
parameters, and theorems that rely on their round-trip behaviour state it
as a hypothesis. -/

structure Platform where
  b64encode : String → String
  b64decode : String → String
  encodeURIComponent : String → String
  decodeURIComponent : String → String

/-- JavaScript `String.prototype.toUpperCase` (ASCII). -/
def jsToUpper (s : String) : String := ⟨s.data.map Char.toUpper⟩

/-- Fuel-driven worker for `foldWsChars`; each step consumes at least one
character, so fuel `cs.length` always suffices. -/
def foldWsF : Nat → List Char → List Char
  | 0, _ => []
  | _, [] => []
  | fuel + 1, '\n' :: rest => ' ' :: foldWsF fuel (rest.dropWhile Char.isWhitespace)
  | fuel + 1, c :: rest => c :: foldWsF fuel rest

/-- `val.replace(/\n\s*/gm, ' ')`: every newline together with following
whitespace collapses to a single space (obs-fold unfolding). -/
def foldWsChars (cs : List Char) : List Char := foldWsF cs.length cs

/-- `val.trim().replace(/\n\s*/gm, ' ')` applied to one raw header value. -/
def canonValue (v : String) : String := ⟨foldWsChars (jsTrim v).data⟩

/-- One raw header value or the `", "`-join of a list of them
(`Array.isArray(value) ? value.join(', ') : value`). -/
def headerValJoin : HeaderVal → String
  | .one s => s
  | .many vs => String.intercalate ", " vs

/-- Modelled from the spec: the `quoteString` helper of
`src/structured-header.ts` is referenced by both dialects but its body is
not among the provided sources.  Spec §4.1: a "quote if bare" transform
that wraps the bare name of a consumer-supplied identifier like
`example-dict;key="a"` in double quotes when the quotes are missing,
preserving the parameter part. -/
def quoteString (input : String) : String :=
  if jsStartsWith input "\"" then input
  else
    "\"" ++ (⟨input.data.takeWhile (· != ';')⟩ : String) ++ "\"" ++
      (⟨input.data.dropWhile (· != ';')⟩ : String)

/-- The result of `parseHeader` in `src/structured-header.ts`: a `List`, a
`Dictionary` or an `Item` wrapper, tried in that order. -/
inductive ParsedHeader where
  | list (l : SFList)
  | dict (d : SFDict)
  | item (i : SFItem)
  deriving Repr

/-- `parseHeader` tries the `List`, `Dictionary` and `Item` constructors in
order, returning the first that parses. -/
def parseHeader (s : String) : Except ErrM ParsedHeader :=
  match parseListTop s with
  | .ok l => .ok (.list l)
  | .error _ =>
    match parseDictTop s with
    | .ok d => .ok (.dict d)
    | .error _ =>
      match parseItemTop s with
      | .ok i => .ok (.item i)
      | .error _ =>
        .error (.err "Unable to parse header as structured field")

/-- `Dictionary.prototype.get`: serialise the member (inner lists via
`serializeInnerList`, items via `serializeItem`). -/
def dictGet (d : SFDict) (key : String) : Option (Option String) :=
  (jsGet d key).map (fun m =>
    match m with
    | .inner l => serializeInnerList l
    | .item i => serializeItem i)

/-- `toString()` of a `parseHeader` result (canonical re-serialisation). -/
def parsedHeaderToString : ParsedHeader → Option String
  | .list l => serializeListTop l
  | .dict d => serializeDictTop d
  | .item i => serializeItem i

/-! ## httpbis component resolution (`src/httpbis/index.ts` lines 36-174) -/

namespace Httpbis

/-- `deriveComponent`: derived (`@`-prefixed) components.  The message's
URL is the pre-parsed structure (`typeof url === 'string' ? new URL(url) :
url` is platform URL parsing). -/
def deriveComponent (P : Platform) (component : String)
    (params : List (String × PrimVal)) (message : MessageM)
    (req : Option RequestM) : Except ErrM (List String) :=
  match (if jsHas params "req" then req.map MessageM.req else some message) with
  | none => .error (.err "Missing request in request-response bound component")
  | some context =>
    if component == "@method" then
      match context with
      | .req r => .ok [jsToUpper r.method]
      | .res _ => .error (.err "Cannot derive @method from response")
    else if component == "@target-uri" then
      match context with
      | .req r => .ok [r.url.href]
      | .res _ => .error (.err "Cannot derive @target-uri on response")
    else if component == "@authority" then
      match context with
      | .req r =>
        let authority := jsToLower r.url.hostname
        let authority :=
          if r.url.port != "" &&
              (r.url.protocol == "http:" && r.url.port != "80" ||
                r.url.protocol == "https:" && r.url.port != "443") then
            authority ++ ":" ++ r.url.port
          else authority
        .ok [authority]
      | .res _ => .error (.err "Cannot derive @authority on response")
    else if component == "@scheme" then
      match context with
      | .req r => .ok [⟨r.url.protocol.data.dropLast⟩]
      | .res _ => .error (.err "Cannot derive @scheme on response")
    else if component == "@request-target" then
      match context with
      | .req r => .ok [r.url.pathname ++ r.url.search]
      | .res _ => .error (.err "Cannot derive @request-target on response")
    else if component == "@path" then
      match context with
      | .req r => .ok [if r.url.pathname == "" then "/" else r.url.pathname]
      | .res _ => .error (.err "Cannot derive @scheme on response")
    else if component == "@query" then
      match context with
      | .req r => .ok [if r.url.search == "" then "?" else r.url.search]
      | .res _ => .error (.err "Cannot derive @scheme on response")
    else if component == "@query-param" then
      match context with
      | .req r =>
        match jsGet params "name" with
        | none => .error (.err "@query-param must have a named parameter")
        | some nameVal =>
          let name := P.decodeURIComponent nameVal.display
          if r.url.searchParams.any (fun q => q.1 == name) then
            .ok ((r.url.searchParams.filter (fun q => q.1 == name)).map
              (fun q => P.encodeURIComponent q.2))
          else .error (.err "Expected query parameter not found")
      | .res _ => .error (.err "Cannot derive @scheme on response")
    else if component == "@status" then
      match context with
      | .req _ => .error (.err "Cannot obtain @status component for requests")
      | .res r => .ok [intToString r.status]
    else .error (.err "Unsupported component")

/-- `extractHeader`: named HTTP field extraction with the `sf`, `key` and
`bs` parameter modes. -/
def extractHeader (P : Platform) (header : String)
    (params : List (String × PrimVal)) (headers : Headers)
    (reqHeaders : Option Headers) : Except ErrM (List String) :=
  match (if jsHas params "req" then reqHeaders else some headers) with
  | none => .error (.err "Missing request in request-response bound component")
  | some context =>
    match context.find? (fun p => jsToLower p.1 == header) with
    | none => .error (.err "No header found in headers")
    | some (_, value) =>
      let values := match value with | .one s => [s] | .many vs => vs
      if jsHas params "bs" && (jsHas params "sf" || jsHas params "key") then
        .error (.err "Cannot have both bs and (implicit) sf parameters")
      else if jsHas params "sf" || jsHas params "key" then do
        let parsed ← parseHeader (String.intercalate ", " values)
        if jsHas params "key" then
          match parsed with
          | .dict d =>
            match jsGet params "key" with
            | none => .error (.err "unreachable: key parameter vanished")
            | some keyVal =>
              match dictGet d keyVal.display with
              | none => .error (.err "Unable to find key in structured field")
              | some none =>
                .error (.serializeError "failed to serialise dictionary member")
              | some (some s) => .ok [s]
          | _ => .error (.err "Unable to parse header as dictionary")
        else
          match parsedHeaderToString parsed with
          | none => .error (.serializeError "failed to serialise header")
          | some s => .ok [s]
      else if jsHas params "bs" then
        .ok [String.intercalate ", "
          (values.map (fun v => ":" ++ P.b64encode (canonValue v) ++ ":"))]
      else
        .ok [String.intercalate ", " (values.map canonValue)]

/-- `normaliseParams` (`src/httpbis/index.ts` lines 176-188): byte
sequences become their base64 text, tokens their string form. -/
def normaliseParams (ps : SFParams) : List (String × PrimVal) :=
  ps.foldl (fun m kv =>
    jsSet m kv.1
      (match kv.2 with
       | .bytes b => .str b
       | .tok s => .str s
       | .int n => .int n
       | .str s => .str s
       | .bool b => .bool b)) []

/-- `createSignatureBase` (`src/httpbis/index.ts` lines 190-210): resolve
each requested component identifier; `@signature-params` is skipped; a
consumer component parser may override; the emitted key is the canonical
re-serialisation of the parsed identifier. -/
def signatureBaseStep (P : Platform) (cp : Option ComponentParserM)
    (message : MessageM) (req : Option RequestM)
    (base : List (String × List String)) (fieldName : String) :
    Except ErrM (List (String × List String)) := do
  let it ← parseItemTop (quoteString fieldName)
  match it with
  | (.str field, ps) =>
    let fieldParams := normaliseParams ps
    let lcFieldName := jsToLower field
    if lcFieldName == "@signature-params" then pure base
    else do
      let builtin : Except ErrM (List String) :=
        if jsStartsWith field "@" then
          deriveComponent P lcFieldName fieldParams message req
        else
          extractHeader P lcFieldName fieldParams message.headers
            (req.map (·.headers))
      let value ←
        match cp with
        | some f =>
          match f lcFieldName fieldParams message req with
          | some v => pure v
          | none => builtin
        | none => builtin
      match serializeItem (.str field, ps) with
      | none => .error (.serializeError "failed to serialise identifier")
      | some key => pure (base ++ [(key, value)])
  | _ => .error (.err "quoted component identifier is not a string")

def createSignatureBase (P : Platform) (cp : Option ComponentParserM)
    (fields : List String) (message : MessageM) (req : Option RequestM) :
    Except ErrM (List (String × List String)) :=
  fields.foldlM (signatureBaseStep P cp message req) []

/-- `formatSignatureBase` (`src/httpbis/index.ts` lines 212-217). -/
def formatSignatureBase (base : List (String × List String)) :
    Except ErrM String := do
  let lines ← base.mapM (fun kv => do
    let it ← parseItemTop (quoteString kv.1)
    match serializeItem it with
    | none => .error (.serializeError "failed to serialise identifier")
    | some quotedKey =>
      pure (String.intercalate "\n"
        (kv.2.map (fun v => quotedKey ++ ": " ++ v))))
  pure (String.intercalate "\n" lines)

/-- The signing-parameter values as structured-field bare items. -/
def svToBare : SV → BareItem
  | .str s => .str s
  | .int n => .int n

/-- One step of the `reduce` in `augmentHeaders` collecting the existing
signature headers together with their original casing
(`src/httpbis/index.ts` lines 295-308). -/
def augmentCollectStep (st : (String × SFDict) × (String × SFDict))
    (kv : String × HeaderVal) :
    Except ErrM ((String × SFDict) × (String × SFDict)) := do
  if jsToLower kv.1 == "signature" then do
    let d ← parseDictTop (headerValJoin kv.2)
    pure ((kv.1, d), st.2)
  else if jsToLower kv.1 == "signature-input" then do
    let d ← parseDictTop (headerValJoin kv.2)
    pure (st.1, (kv.1, d))
  else pure st

/-- The new `Signature-Input` entry: the first member of the serialised
input list, re-parsed (`new Dictionary(...)` / `parseList` in the source).
-/
def firstListMember (signatureInput : String) : Except ErrM SFMember :=
  match parseListTop signatureInput with
  | .ok (m :: _) => pure m
  | .ok [] => .error (.malformed "empty signature input")
  | .error e => .error e

/-- Re-serialise the augmented `Signature` / `Signature-Input`
dictionaries and store them under the collected header names
(`src/httpbis/index.ts` lines 309-311). -/
def serializeSigHeaders (headers : Headers) (n1 n2 : String)
    (sigDict inputDict : SFDict) : Except ErrM Headers :=
  match serializeDictTop sigDict, serializeDictTop inputDict with
  | some sigStr, some inputStr =>
    pure (jsSet (jsSet headers n1 (.one sigStr)) n2 (.one inputStr))
  | _, _ => .error (.serializeError "failed to serialise signature headers")

/-- `augmentHeaders` (`src/httpbis/index.ts` lines 272-312): scan for
existing `Signature` / `Signature-Input` headers (last case-variant wins,
keeping its exact name), parse them, add the new entry under a fresh
label, and re-serialise. -/
def augmentHeaders (P : Platform) (headers : Headers) (signature : String)
    (signatureInput : String) (name : Option String) :
    Except ErrM Headers := do
  let st ← headers.foldlM augmentCollectStep
    (("Signature", ([] : SFDict)), ("Signature-Input", ([] : SFDict)))
  let signatureName := chooseSignatureName st.1.2 st.2.2 name
  let sigDict := jsSet st.1.2 signatureName
    (.item (.bytes (P.b64encode signature), []))
  let entry ← firstListMember signatureInput
  let inputDict := jsSet st.2.2 signatureName entry
  serializeSigHeaders headers st.1.1 st.2.1 sigDict inputDict

/-- Replace a message's headers (the `{ ...message, headers }` spread). -/
def withHeaders : MessageM → Headers → MessageM
  | .req r, h => .req { r with headers := h }
  | .res r, h => .res { r with headers := h }

/-- Serialise the signature-input inner list (`serializeList` in the
source; the npm serializer throwing is the `error` case). -/
def serializeInputList (items : List SFItem) (sfParams : SFParams) :
    Except ErrM String :=
  match serializeListTop [.inner ⟨items, sfParams⟩] with
  | some s => pure s
  | none => .error (.serializeError "failed to serialise signature input")

/-- `signMessage` (`src/httpbis/index.ts` lines 317-337). -/
def signMessage (P : Platform) (config : SignConfigM) (message : MessageM)
    (req : Option RequestM) (nowMs : Int) : Except ErrM MessageM := do
  let signingParams := createSigningParameters config nowMs
  let signatureBase ← createSignatureBase P config.componentParser
    (config.fields.getD []) message req
  let items ← signatureBase.mapM (fun kv => parseItemTop kv.1)
  let sfParams : SFParams := signingParams.map (fun kv => (kv.1, svToBare kv.2))
  let signatureInput ← serializeInputList items sfParams
  let base ← formatSignatureBase
    (signatureBase ++ [("\"@signature-params\"", [signatureInput])])
  let signature ← config.key.sign base
  let newHeaders ← augmentHeaders P message.headers signature signatureInput
    config.name
  pure (withHeaders message newHeaders)

end Httpbis

/-! ## httpbis verification (`src/httpbis/index.ts` lines 339-451) -/

/-- A value of the parameter map handed to `keyLookup` and `verify`. -/
inductive SigVal where
  | str (s : String)
  | int (n : Int)
  | bool (b : Bool)
  | date (ms : Option Int)  -- `new Date(value * 1000)`; `none` = invalid date
  deriving DecidableEq, Repr

/-- `src/httpbis/index.ts` lines 372-391, one entry: byte sequences and
tokens become strings; for the keys `created` and `expired` (sic — the
source misspells `expires`) a numeric value becomes a `Date`; everything
else passes through.  A non-numeric value under those keys makes
`new Date(value * 1000)` an invalid date (JS string-to-number coercion is
not modelled beyond that); a boolean coerces to 0/1. -/
def lookupParamValue (key : String) (v : BareItem) : SigVal :=
  match v with
  | .bytes b => .str b
  | .tok s => .str s
  | .int n =>
    if key == "created" || key == "expired" then .date (some (n * 1000))
    else .int n
  | .str s =>
    if key == "created" || key == "expired" then .date none else .str s
  | .bool b =>
    if key == "created" || key == "expired" then
      .date (some (if b then 1000 else 0))
    else .bool b

/-- The parameter map handed to the key-lookup callable. -/
def paramsForLookup (ps : SFParams) : List (String × SigVal) :=
  ps.foldl (fun m kv => jsSet m kv.1 (lookupParamValue kv.1 kv.2)) []

/-- A verifying key (`VerifyingKey` in `src/types/index.ts`). -/
structure VKeyM where
  id : Option String := none
  algs : Option (List String) := none
  verify : String → String → List (String × SigVal) → Option Bool

/-- `notAfter?: Date | number`. -/
inductive NotAfterM where
  | date (ms : Int)
  | num (n : Int)
  deriving DecidableEq, Repr

structure VerifyConfigM where
  keyLookup : List (String × SigVal) → Option VKeyM
  notAfter : Option NotAfterM := none
  maxAge : Option Int := none
  tolerance : Option Int := none
  requiredParams : List String := []
  requiredFields : List String := []
  all : Bool := false
  componentParser : Option ComponentParserM := none

namespace Httpbis

/-- The parameters of a dictionary member (`input[1]` in the source: the
parameters both of an item and of an inner list). -/
def memberParams : SFMember → SFParams
  | .item i => i.2
  | .inner l => l.params

/-- One step of the verification `reduce` over `Signature-Input` entries
(`src/httpbis/index.ts` lines 371-450).  `prev` is the previous step's
outcome with its rejection captured (`prev.catch((e) => e)`); when the key
lookup finds a key, `prev` is discarded entirely. -/
def verifyEntryStep (P : Platform) (config : VerifyConfigM)
    (message : MessageM) (req : Option RequestM) (now tolerance notAfter : Int)
    (signatures : SFDict) (prev : Except ErrM (Option Bool))
    (entry : String × SFMember) : Except ErrM (Option Bool) :=
  let name := entry.1
  let input := entry.2
  let signatureParams := paramsForLookup (memberParams input)
  match config.keyLookup signatureParams with
  | none =>
    if config.all then .error (.unknownKey "Unknown key")
    else prev
  | some key =>
    let ps := memberParams input
    let algBad := jsHas ps "alg" &&
      (match key.algs with
       | none => false
       | some algs =>
         !(match jsGet ps "alg" with
           | some (.str s) => algs.contains s
           | _ => false))
    if algBad then .error (.unsupportedAlg "Unsupported key algorithm")
    else
      match input with
      | .item _ => .error (.malformed "Malformed signature input")
      | .inner inner =>
        if !(config.requiredParams.all (fun p => jsHas ps p)) then
          .error (.unacceptable "Missing required signature parameters")
        else if !(config.requiredFields.all (fun f =>
            inner.items.any (fun item => item.1 == BareItem.str f))) then
          .error (.unacceptable "Missing required signed fields")
        else
          let createdBad :=
            match jsGet ps "created" with
            | some (.int c) =>
              let created := c - tolerance
              (match config.maxAge with
               | some ma => ma != 0 && decide (now - created > ma)
               | none => false) || decide (created > notAfter)
            | _ => false
          if createdBad then .error (.expired "Signature is too old")
          else
            let expiresBad :=
              match jsGet ps "expires" with
              | some (.int e) => decide (now > e + tolerance)
              | _ => false
            if expiresBad then .error (.expired "Signature has expired")
            else do
              let fields ← inner.items.mapM (fun item =>
                match serializeItem item with
                | some s => Except.ok s
                | none =>
                  Except.error (ErrM.serializeError "failed to serialise item"))
              let signingBase ← createSignatureBase P config.componentParser
                fields message req
              let listSer : String ←
                (match serializeListTop [input] with
                | some s => Except.ok s
                | none => Except.error
                    (ErrM.serializeError "failed to serialise signature input"))
              let base ← formatSignatureBase
                (signingBase ++ [("\"@signature-params\"", [listSer])])
              match jsGet signatures name with
              | none => .error (.malformed "No corresponding signature for input")
              | some (.item (.bytes b, _)) =>
                pure (key.verify base (P.b64decode b) signatureParams)
              | some _ => .error (.malformed "Malformed signature")

/-- The `reduce` collecting the parsed `Signature` / `Signature-Input`
dictionaries from the headers (`src/httpbis/index.ts` lines 343-357); a
header absent from the message leaves its slot `none`. -/
def collectStep (st : Option SFDict × Option SFDict)
    (kv : String × HeaderVal) :
    Except ErrM (Option SFDict × Option SFDict) := do
  if jsToLower kv.1 == "signature" then do
    let d ← parseDictTop (headerValJoin kv.2)
    pure (some d, st.2)
  else if jsToLower kv.1 == "signature-input" then do
    let d ← parseDictTop (headerValJoin kv.2)
    pure (st.1, some d)
  else pure st

def collectDicts (headers : Headers) :
    Except ErrM (Option SFDict × Option SFDict) :=
  headers.foldlM collectStep (none, none)

/-- The body of `verifyMessage` after the header dictionaries have been
collected (`src/httpbis/index.ts` lines 358-450). -/
def verifyCollected (P : Platform) (config : VerifyConfigM)
    (message : MessageM) (req : Option RequestM) (nowMs : Int)
    (collected : Option SFDict × Option SFDict) :
    Except ErrM (Option Bool) :=
  let sigSize := (collected.1.getD []).length
  let inputSize := (collected.2.getD []).length
  if sigSize == 0 && inputSize == 0 then pure none
  else if sigSize == 0 || inputSize == 0 then
    .error (.err "Incomplete signature headers")
  else
    let signatures := collected.1.getD []
    let signatureInputs := collected.2.getD []
    let now := Int.fdiv nowMs 1000
    let tolerance := config.tolerance.getD 0
    let notAfter :=
      match config.notAfter with
      | some (.date ms) => Int.fdiv ms 1000
      | some (.num n) => n
      | none => now
    signatureInputs.foldl
      (verifyEntryStep P config message req now tolerance notAfter signatures)
      (Except.ok none)

/-- `verifyMessage` (`src/httpbis/index.ts` lines 342-451). -/
def verifyMessage (P : Platform) (config : VerifyConfigM)
    (message : MessageM) (req : Option RequestM) (nowMs : Int) :
    Except ErrM (Option Bool) := do
  let collected ← collectDicts message.headers
  verifyCollected P config message req nowMs collected

end Httpbis

/-- C4: in httpbis `verifyMessage`, the parameter map handed to the
key-lookup callable converts an integer `created` into a `Date`, but an
integer `expires` stays a raw integer: the conversion tests the key
`'expired'` (a misspelling that no RFC 8941 signature parameter uses), so
`expires` is never converted, contradicting the claim.  Evaluated at the
concrete entry `created=1618884473;expires=1618884773`. -/
theorem claim_C4_expires_left_unconverted :
    paramsForLookup
        [("created", BareItem.int 1618884473),
         ("expires", BareItem.int 1618884773)] =
      [("created", SigVal.date (some 1618884473000)),
       ("expires", SigVal.int 1618884773)] ∧
    lookupParamValue "expires" (BareItem.int 7) = SigVal.int 7 ∧
    lookupParamValue "expired" (BareItem.int 7) = SigVal.date (some 7000) := by
  refine ⟨?_, ?_, ?_⟩ <;> rfl

/-! ## cavage dialect (`src/cavage/index.ts`) -/

namespace Cavage

def mapCavageAlgorithm (alg : String) : String :=
  if jsToLower alg == "hs2019" then "rsa-pss-sha512"
  else if jsToLower alg == "rsa-sha1" then "rsa-v1_5-sha1"
  else if jsToLower alg == "rsa-sha256" then "rsa-v1_5-sha256"
  else if jsToLower alg == "ecdsa-sha256" then "ecdsa-p256-sha256"
  else alg

def mapHttpbisAlgorithm (alg : String) : String :=
  if jsToLower alg == "rsa-pss-sha512" then "hs2019"
  else if jsToLower alg == "rsa-v1_5-sha1" then "rsa-sha1"
  else if jsToLower alg == "rsa-v1_5-sha256" then "rsa-sha256"
  else if jsToLower alg == "ecdsa-p256-sha256" then "ecdsa-sha256"
  else alg

/-- A value of the parsed cavage `Signature` header / the cavage signing
parameters: a string, a number, or `NaN` (from `parseInt` on a non-numeric
`created` / `expires`). -/
inductive CavVal where
  | str (s : String)
  | int (n : Int)
  | nan
  deriving DecidableEq, Repr

/-- JavaScript value-to-string coercion of a `CavVal` (template literal /
`Array.prototype.join`). -/
def CavVal.display : CavVal → String
  | .str s => s
  | .int n => intToString n
  | .nan => "NaN"

/-- `extractHeader` (`src/cavage/index.ts` lines 62-73). -/
def extractHeader (header : String) (headers : Headers) :
    Except ErrM (List String) := do
  let it ← parseItemTop (quoteString header)
  match it with
  | (.str headerName, ps) =>
    if ps.length != 0 then
      .error (.err "Field parameters are not supported in cavage")
    else
      let lcHeaderName := jsToLower headerName
      match headers.find? (fun p => jsToLower p.1 == lcHeaderName) with
      | none => .error (.err "No header found in headers")
      | some (_, value) =>
        let values := match value with | .one s => [s] | .many vs => vs
        .ok [String.intercalate ", " (values.map canonValue)]
  | _ => .error (.err "quoted header name is not a string")

/-- `formatSignatureBase` (`src/cavage/index.ts` lines 75-86): derived
identifiers `@name` print as `(name)`, other keys print lowercased. -/
def formatSignatureBase (base : List (String × List String)) :
    Except ErrM String := do
  let lines ← base.foldlM (fun accum kv => do
    let it ← parseItemTop (quoteString kv.1)
    match it with
    | (.str keyName, _) =>
      let lcKey := jsToLower keyName
      if jsStartsWith lcKey "@" then
        pure (accum ++
          ["(" ++ (⟨lcKey.data.drop 1⟩ : String) ++ "): " ++
            String.intercalate ", " kv.2])
      else
        pure (accum ++
          [jsToLower kv.1 ++ ": " ++ String.intercalate ", " kv.2])
    | _ => .error (.err "quoted key is not a string")) []
  pure (String.intercalate "\n" lines)

/-- `createSignatureBase` (`src/cavage/index.ts` lines 138-169):
`@created` / `@expires` read the signing parameters, `@request-target` is
derived, anything else is a header. -/
def createSignatureBase (fields : List String) (message : MessageM)
    (signingParameters : List (String × CavVal)) :
    Except ErrM (List (String × List String)) :=
  fields.foldlM (fun base fieldName => do
    let it ← parseItemTop (quoteString fieldName)
    match it with
    | (.str field, ps) =>
      if ps.length != 0 then
        .error (.err "Field parameters are not supported")
      else
        let lcFieldName := jsToLower field
        if lcFieldName == "@created" then
          match jsGet signingParameters "created" with
          | some v => pure (base ++ [("(created)", [v.display])])
          | none => pure base
        else if lcFieldName == "@expires" then
          match jsGet signingParameters "expires" with
          | some v => pure (base ++ [("(expires)", [v.display])])
          | none => pure base
        else if lcFieldName == "@request-target" then
          match message with
          | .req r =>
            pure (base ++ [("(request-target)",
              [jsToLower r.method ++ " " ++ r.url.pathname ++ r.url.search])])
          | .res _ => .error (.err "Cannot read target of response")
        else do
          let v ← extractHeader lcFieldName message.headers
          pure (base ++ [(lcFieldName, v)])
    | _ => .error (.err "quoted component identifier is not a string")) []

/-- `signMessage` (`src/cavage/index.ts` lines 171-201): build the base,
sign it, then emit the single comma-separated `Signature` header
(`alg` renders as `algorithm` with the legacy name, `keyid` as `keyId`,
numbers bare, strings quoted). -/
def signMessage (config : SignConfigM) (message : MessageM)
    (b64encode : String → String) (nowMs : Int) : Except ErrM MessageM := do
  let signingParameters := createSigningParameters config nowMs
  let cavParams : List (String × CavVal) :=
    signingParameters.map (fun kv =>
      (kv.1, match kv.2 with | .str s => CavVal.str s | .int n => CavVal.int n))
  let signatureBase ← createSignatureBase (config.fields.getD []) message
    cavParams
  let base ← formatSignatureBase signatureBase
  let signature ← config.key.sign base
  let headerNames := signatureBase.map Prod.fst
  let header := String.intercalate ", "
    ((cavParams.map (fun kv =>
      if kv.1 == "alg" then
        "algorithm=\"" ++ mapHttpbisAlgorithm kv.2.display ++ "\""
      else if kv.1 == "keyid" then
        "keyId=\"" ++ kv.2.display ++ "\""
      else
        match kv.2 with
        | .int n => kv.1 ++ "=" ++ intToString n
        | v => kv.1 ++ "=\"" ++ v.display ++ "\"")) ++
      ["headers=\"" ++ String.intercalate " " headerNames ++ "\"",
       "signature=\"" ++ b64encode signature ++ "\""])
  pure (withHeaders' message (jsSet message.headers "Signature" (.one header)))
where
  withHeaders' : MessageM → Headers → MessageM
  | .req r, h => .req { r with headers := h }
  | .res r, h => .res { r with headers := h }

/-- `parseInt(val, 10)`: leading whitespace, optional sign, leading
digits; `NaN` when no digits. -/
def jsParseInt (s : String) : CavVal :=
  let cs := s.data.dropWhile Char.isWhitespace
  let p : Bool × List Char :=
    match cs with
    | '-' :: r => (true, r)
    | '+' :: r => (false, r)
    | _ => (false, cs)
  let ds := p.2.takeWhile Char.isDigit
  if ds.length = 0 then .nan
  else .int (if p.1 then -(digitsToNat ds : Int) else (digitsToNat ds : Int))

/-- `val.replace(/^"(.*)"$/, '$1')`: strip one surrounding pair of double
quotes when both are present. -/
def stripQuotes (s : String) : String :=
  if 2 ≤ s.length && jsStartsWith s "\"" && jsEndsWith s "\"" then
    ⟨(s.data.drop 1).dropLast⟩
  else s

/-- Parse the comma-separated cavage `Signature` header value
(`src/cavage/index.ts` lines 208-223): each `name=value` part is trimmed
and unquoted; `created` / `expires` go through `parseInt`; a repeated
parameter throws. -/
def parseSignatureHeader (raw : String) :
    Except ErrM (List (String × CavVal)) :=
  (jsSplitChar ',' raw).foldlM (fun parts value => do
    let kvs := jsSplitChar '=' (jsTrim value)
    let key := kvs.headD ""
    if jsHas parts key then
      .error (.err "Same parameter defined repeatedly")
    else
      let val := stripQuotes (String.intercalate "=" kvs.tail)
      if jsToLower key == "created" || jsToLower key == "expires" then
        pure (jsSet parts key (jsParseInt val))
      else
        pure (jsSet parts key (.str val))) []

/-- The `headers` parameter split into covered component identifiers
(`(xxx)` maps back to `@xxx`). -/
def coveredComponents (headersParam : String) : List String :=
  (jsSplitChar ' ' headersParam).map (fun c =>
    let lc := jsToLower c
    if 2 ≤ lc.length && jsStartsWith lc "(" && jsEndsWith lc ")" then
      "@" ++ (⟨(lc.data.drop 1).dropLast⟩ : String)
    else lc)

/-- The parameter map handed to `keyLookup`
(`src/cavage/index.ts` lines 268-298). -/
def paramsForLookup (parsedHeader : List (String × CavVal)) :
    List (String × SigVal) :=
  parsedHeader.foldl (fun params kv =>
    let key := kv.1
    if jsToLower key == "created" || jsToLower key == "expires" then
      jsSet params key
        (match kv.2 with
         | .int n => SigVal.date (some (n * 1000))
         | _ => SigVal.date none)
    else if jsToLower key == "signature" || jsToLower key == "headers" then
      params
    else if jsToLower key == "algorithm" then
      jsSet params "alg" (SigVal.str (mapCavageAlgorithm kv.2.display))
    else if jsToLower key == "keyid" then
      jsSet params "keyid"
        (match kv.2 with
         | .str s => SigVal.str s
         | .int n => SigVal.int n
         | .nan => SigVal.str "NaN")
    else
      jsSet params key
        (match kv.2 with
         | .str s => SigVal.str s
         | .int n => SigVal.int n
         | .nan => SigVal.str "NaN")) []

/-- `verifyMessage` (`src/cavage/index.ts` lines 203-301). -/
def verifyMessage (config : VerifyConfigM) (message : MessageM)
    (b64decode : String → String) (nowMs : Int) :
    Except ErrM (Option Bool) := do
  match message.headers.find? (fun p => jsToLower p.1 == "signature") with
  | none => pure none
  | some (_, value) => do
    let parsedHeader ← parseSignatureHeader (headerValJoin value)
    if !(jsHas parsedHeader "signature") then
      .error (.err "Missing signature from header")
    else do
      let headersParam :=
        match jsGet parsedHeader "headers" with
        | some v => v.display
        | none => ""
      let baseList ← createSignatureBase (coveredComponents headersParam)
        message parsedHeader
      let baseParts := baseList.foldl
        (fun m kv => jsSet m kv.1 kv.2) ([] : List (String × List String))
      let base ← formatSignatureBase baseParts
      let now := Int.fdiv nowMs 1000
      let tolerance := config.tolerance.getD 0
      let notAfter :=
        match config.notAfter with
        | some (.date ms) => Int.fdiv ms 1000
        | some (.num n) => n
        | none => now
      if !(config.requiredParams.all (fun p => jsHas baseParts p)) then
        pure (some false)
      else if !(config.requiredFields.all (fun f =>
          jsHas parsedHeader
            (if jsStartsWith f "@" then
              "(" ++ (⟨(jsToLower f).data.drop 1⟩ : String) ++ ")"
            else jsToLower f))) then
        pure (some false)
      else
        let createdBad :=
          match jsGet parsedHeader "created" with
          | some (.int c) =>
            let created := c - tolerance
            (match config.maxAge with
             | some ma => ma != 0 && decide (created - now > ma)
             | none => false) || decide (created > notAfter)
          | _ => false
        if createdBad then pure (some false)
        else
          let expiresBad :=
            match jsGet parsedHeader "expires" with
            | some (.int e) => decide (e + tolerance > now)
            | _ => false
          if expiresBad then pure (some false)
          else
            let params := paramsForLookup parsedHeader
            match config.keyLookup params with
            | none => pure none
            | some key =>
              let sigVal :=
                match jsGet parsedHeader "signature" with
                | some v => v.display
                | none => ""
              pure (key.verify base (b64decode sigVal) params)

end Cavage

/-! ## Claims C3 and C5: cavage verification policy -/

/-- A verifying key that accepts any signature (isolates the policy
checks). -/
def vKeyTrue : VKeyM := { verify := fun _ _ _ => some true }

def urlSimple : URLM :=
  { protocol := "https:", hostname := "example.com", port := ""
    pathname := "/p", search := "", href := "https://example.com/p"
    searchParams := [] }

/-- A request carrying a cavage signature with `created=1000`,
`expires=2000`, covering `(created)` and `date`. -/
def msgC3 : MessageM :=
  .req
    { method := "get", url := urlSimple
      headers :=
        [("Date", .one "today"),
         ("Signature", .one
           "keyId=\"k\",created=1000,expires=2000,headers=\"(created) date\",signature=\"QQ==\"")] }

def vcfgC3 : VerifyConfigM := { keyLookup := fun _ => some vKeyTrue }

/-- C3: cavage `verifyMessage` has the expiry comparison inverted.  The
claim says verification fails as expired exactly when
`now > expires + tolerance` (tolerance defaulting to 0).  At `now = 1500`
(before `expires = 2000`) the code rejects with `false`; at `now = 2500`
(after expiry) the code accepts and returns the verifier's `true`. -/
theorem claim_C3_cavage_expiry_inverted :
    Cavage.verifyMessage vcfgC3 msgC3 (fun s => s) 1500000 =
      .ok (some false) ∧
    Cavage.verifyMessage vcfgC3 msgC3 (fun s => s) 2500000 =
      .ok (some true) :=
  ⟨by rfl, by rfl⟩

/-- A request whose cavage signature covers exactly `(request-target)`. -/
def msgC5a : MessageM :=
  .req
    { method := "get", url := urlSimple
      headers :=
        [("Signature", .one
          "keyId=\"k\",headers=\"(request-target)\",signature=\"QQ==\"")] }

def vcfgC5a : VerifyConfigM :=
  { keyLookup := fun _ => some vKeyTrue
    requiredFields := ["@request-target"] }

/-- A request whose cavage signature covers only `date` but carries a
`created` parameter. -/
def msgC5b : MessageM :=
  .req
    { method := "get", url := urlSimple
      headers :=
        [("Date", .one "today"),
         ("Signature", .one
           "keyId=\"k\",created=1000,headers=\"date\",signature=\"QQ==\"")] }

def vcfgC5b : VerifyConfigM :=
  { keyLookup := fun _ => some vKeyTrue
    requiredFields := ["created"] }

/-- C5: cavage `verifyMessage` tests `required_fields` membership against
the parsed `Signature`-header parameter map instead of the covered
components list.  With `required_fields = ["@request-target"]` and the
signature covering exactly `(request-target)`, the code still fails
(`false`); with `required_fields = ["created"]` and a covered list of just
`date`, the code passes (the `created` parameter exists in the parameter
map) and returns `true`. -/
theorem claim_C5_cavage_required_fields_wrong_map :
    Cavage.coveredComponents "(request-target)" = ["@request-target"] ∧
    Cavage.verifyMessage vcfgC5a msgC5a (fun s => s) 0 = .ok (some false) ∧
    Cavage.verifyMessage vcfgC5b msgC5b (fun s => s) 1000000 =
      .ok (some true) :=
  ⟨by rfl, by rfl, by rfl⟩

/-! ## Claim C2: combination of multiple httpbis signatures -/

/-- A platform whose text codecs are the identity (the signature bytes are
never inspected by the keys used here). -/
def platId : Platform :=
  { b64encode := fun s => s, b64decode := fun s => s
    encodeURIComponent := fun s => s, decodeURIComponent := fun s => s }

/-- A key that accepts exactly the signatures whose parameters carry
`keyid="a"`. -/
def vKeyKeyidA : VKeyM :=
  { verify := fun _ _ ps => some (decide (jsGet ps "keyid" = some (SigVal.str "a"))) }

def vcfgC2 : VerifyConfigM := { keyLookup := fun _ => some vKeyKeyidA }

/-- Two httpbis signatures; the first (`sig1`, keyid `a`) verifies `true`,
the second (`sig2`, keyid `b`) verifies `false`. -/
def msgC2b : MessageM :=
  .req
    { method := "GET", url := urlSimple
      headers :=
        [("Date", .one "today"),
         ("Signature", .one "sig1=:QQ==:, sig2=:QQ==:"),
         ("Signature-Input", .one
           "sig1=(\"date\");keyid=\"a\", sig2=(\"date\");keyid=\"b\"")] }

/-- Two httpbis signatures; the first (`sig1`) verifies `true`, the second
(`sig2`) is expired (`expires=2` checked at `now=100`). -/
def msgC2a : MessageM :=
  .req
    { method := "GET", url := urlSimple
      headers :=
        [("Date", .one "today"),
         ("Signature", .one "sig1=:QQ==:, sig2=:QQ==:"),
         ("Signature-Input", .one
           "sig1=(\"date\");keyid=\"a\", sig2=(\"date\");keyid=\"a\";expires=2")] }

/-- C2: no short-circuit on the first `true`.  The `reduce` in httpbis
`verifyMessage` discards the accumulated outcome whenever the key lookup
finds a key for the current label, so a later label's outcome replaces an
earlier `true`: with `sig1` verifying `true` and `sig2` verifying `false`
the overall result is `false` (the claim says `true`), and with `sig2`
expired the overall result is the `ExpiredError` (the claim says the error
is hidden by the earlier `true`). -/
theorem claim_C2_later_label_overrides_earlier_true :
    Httpbis.verifyMessage platId vcfgC2 msgC2b none 100000 =
      .ok (some false) ∧
    Httpbis.verifyMessage platId vcfgC2 msgC2a none 100000 =
      .error (.expired "Signature has expired") :=
  ⟨by rfl, by rfl⟩

/-! ## Claim C8: presence of the two signature headers -/

/-- A message carrying exactly one of the two signature headers
(`Signature` with an empty value, which parses to an empty dictionary). -/
def msgC8empty : MessageM :=
  .req
    { method := "GET", url := urlSimple
      headers := [("Date", .one "today"), ("Signature", .one "")] }

/-- A message carrying only a `Signature-Input` header. -/
def msgC8input : MessageM :=
  .req
    { method := "GET", url := urlSimple
      headers := [("Signature-Input", .one "sig1=(\"date\")")] }

/-- The claim says a message carrying exactly one of the two signature
headers is rejected as malformed; but a `Signature` header whose value
parses to an empty dictionary is indistinguishable from an absent header
(the code tests `.size`, not presence), so this message yields `null`. -/
theorem claim_C8_counterexample :
    Httpbis.verifyMessage platId vcfgC2 msgC8empty none 0 = .ok none :=
  by rfl

/-- C8 (amended): the null/error split is decided by the sizes of the two
parsed dictionaries, not by header presence: when header collection
succeeds, the result is `null` when both dictionaries are absent or empty,
and the incomplete-headers error when exactly one of them is non-empty. -/
theorem claim_C8_presence_by_dictionary_size
    (P : Platform) (config : VerifyConfigM) (message : MessageM)
    (req : Option RequestM) (nowMs : Int) (s i : Option SFDict)
    (h : Httpbis.collectDicts message.headers = .ok (s, i)) :
    ((s.getD []).length = 0 ∧ (i.getD []).length = 0 →
      Httpbis.verifyMessage P config message req nowMs = .ok none) ∧
    (Xor' ((s.getD []).length = 0) ((i.getD []).length = 0) →
      Httpbis.verifyMessage P config message req nowMs =
        .error (.err "Incomplete signature headers")) := by
  have hmain : Httpbis.verifyMessage P config message req nowMs =
      Httpbis.verifyCollected P config message req nowMs (s, i) := by
    unfold Httpbis.verifyMessage
    rw [h]
    rfl
  constructor
  · intro hsi
    have hs : ((s.getD []).length == 0) = true := by simpa using hsi.1
    have hi : ((i.getD []).length == 0) = true := by simpa using hsi.2
    rw [hmain]
    unfold Httpbis.verifyCollected
    simp only [hs, hi, Bool.and_self, if_true]
    rfl
  · intro hxor
    rw [hmain]
    unfold Httpbis.verifyCollected
    rcases hxor with ⟨hs0, hi0⟩ | ⟨hi0, hs0⟩
    · have hs : ((s.getD []).length == 0) = true := by simpa using hs0
      have hi : ((i.getD []).length == 0) = false := by simpa using hi0
      simp only [hs, hi, Bool.and_false, Bool.true_or, Bool.false_eq_true,
        if_false, if_true]
    · have hs : ((s.getD []).length == 0) = false := by simpa using hs0
      have hi : ((i.getD []).length == 0) = true := by simpa using hi0
      simp only [hs, hi, Bool.false_and, Bool.or_true, Bool.false_eq_true,
        if_false, if_true]

/-- Applying the amended C8 theorem to a message carrying only a
`Signature-Input` header (one non-empty dictionary): the incomplete-headers
error is thrown. -/
theorem claim_C8_witness :
    Httpbis.verifyMessage platId vcfgC2 msgC8input none 0 =
      .error (.err "Incomplete signature headers") :=
  (claim_C8_presence_by_dictionary_size platId vcfgC2 msgC8input none 0
    none
    (some [("sig1", .inner { items := [(.str "date", [])], params := [] })])
    (by rfl)).2
    (by decide)

/-! ## Claim C9: the signing frame -/

theorem except_bind_ok {α β : Type} {a : Except ErrM α}
    {f : α → Except ErrM β} {v : β} (h : a >>= f = .ok v) :
    ∃ x, a = .ok x ∧ f x = .ok v := by
  cases a with
  | ok x => exact ⟨x, rfl, h⟩
  | error e => exact Except.noConfusion h

theorem except_pure_ok {α : Type} {x y : α}
    (h : (pure x : Except ErrM α) = .ok y) : x = y :=
  Except.ok.inj h

theorem mem_jsSet_of_ne {α : Type} {m : List (String × α)} {k : String}
    {v : α} {kv : String × α} (hm : kv ∈ m) (hk : kv.1 ≠ k) :
    kv ∈ jsSet m k v := by
  unfold jsSet
  by_cases h : jsHas m k
  · rw [if_pos h]
    refine List.mem_map.mpr ⟨kv, hm, ?_⟩
    rw [if_neg (by simpa using hk)]
  · rw [if_neg h]
    exact List.mem_append_left _ hm

theorem withHeaders_headers (m : MessageM) (h : Headers) :
    (Httpbis.withHeaders m h).headers = h := by
  cases m <;> rfl

theorem cavage_withHeaders_eq (m : MessageM) (h : Headers) :
    Cavage.signMessage.withHeaders' m h = Httpbis.withHeaders m h := by
  cases m <;> rfl

/-- One `augmentCollectStep` keeps the collected header names spelling the
two signature headers (case-insensitively). -/
theorem augmentCollectStep_names
    {st0 st1 : (String × SFDict) × (String × SFDict)}
    {kv : String × HeaderVal}
    (h : Httpbis.augmentCollectStep st0 kv = .ok st1)
    (h1 : jsToLower st0.1.1 = "signature")
    (h2 : jsToLower st0.2.1 = "signature-input") :
    jsToLower st1.1.1 = "signature" ∧ jsToLower st1.2.1 = "signature-input" := by
  unfold Httpbis.augmentCollectStep at h
  split at h
  · rename_i hs
    obtain ⟨d, hd, h⟩ := except_bind_ok h
    obtain rfl := except_pure_ok h
    exact ⟨by simpa using hs, h2⟩
  · rename_i hs
    split at h
    · rename_i hi
      obtain ⟨d, hd, h⟩ := except_bind_ok h
      obtain rfl := except_pure_ok h
      exact ⟨h1, by simpa using hi⟩
    · obtain rfl := except_pure_ok h
      exact ⟨h1, h2⟩

theorem serializeSigHeaders_ok {headers : Headers} {n1 n2 : String}
    {sigD inputD : SFDict} {nh : Headers}
    (h : Httpbis.serializeSigHeaders headers n1 n2 sigD inputD = .ok nh) :
    ∃ s1 s2, nh = jsSet (jsSet headers n1 (.one s1)) n2 (.one s2) := by
  unfold Httpbis.serializeSigHeaders at h
  split at h
  · exact ⟨_, _, (except_pure_ok h).symm⟩
  · exact Except.noConfusion h

theorem augmentCollect_names :
    ∀ (hs : Headers) (st0 st : (String × SFDict) × (String × SFDict)),
      hs.foldlM Httpbis.augmentCollectStep st0 = .ok st →
      jsToLower st0.1.1 = "signature" →
      jsToLower st0.2.1 = "signature-input" →
      jsToLower st.1.1 = "signature" ∧
        jsToLower st.2.1 = "signature-input" := by
  intro hs
  induction hs with
  | nil =>
    intro st0 st h h1 h2
    obtain rfl := except_pure_ok h
    exact ⟨h1, h2⟩
  | cons kv tl ih =>
    intro st0 st h h1 h2
    rw [List.foldlM_cons] at h
    obtain ⟨st1, hst1, h⟩ := except_bind_ok h
    obtain ⟨g1, g2⟩ := augmentCollectStep_names hst1 h1 h2
    exact ih st1 st h g1 g2

/-- C9: in either dialect a successful `signMessage` returns the input
message with only its headers replaced, the new headers being the input's
with the signature header(s) set (`jsSet`: replaced in place when a header
of that exact name exists, appended otherwise); entries whose name is not
a signature header name are kept.  A failing step produces an `error`, so
no augmented message (the `Except` result carries none). -/
theorem claim_C9_sign_frame :
    (∀ (P : Platform) (config : SignConfigM) (message : MessageM)
       (req : Option RequestM) (nowMs : Int) (msg : MessageM),
       Httpbis.signMessage P config message req nowMs = .ok msg →
       ∃ sigName inputName sigStr inputStr,
         jsToLower sigName = "signature" ∧
         jsToLower inputName = "signature-input" ∧
         msg = Httpbis.withHeaders message
           (jsSet (jsSet message.headers sigName (.one sigStr))
             inputName (.one inputStr)) ∧
         ∀ kv ∈ message.headers,
           jsToLower kv.1 ≠ "signature" →
           jsToLower kv.1 ≠ "signature-input" → kv ∈ msg.headers) ∧
    (∀ (config : SignConfigM) (message : MessageM) (enc : String → String)
       (nowMs : Int) (msg : MessageM),
       Cavage.signMessage config message enc nowMs = .ok msg →
       ∃ header,
         msg = Httpbis.withHeaders message
           (jsSet message.headers "Signature" (.one header)) ∧
         ∀ kv ∈ message.headers, kv.1 ≠ "Signature" → kv ∈ msg.headers) := by
  constructor
  · intro P config message req nowMs msg h
    unfold Httpbis.signMessage at h
    obtain ⟨sb, hsb, h⟩ := except_bind_ok h
    obtain ⟨items, hitems, h⟩ := except_bind_ok h
    obtain ⟨si, hsi, h⟩ := except_bind_ok h
    obtain ⟨base, hbase, h⟩ := except_bind_ok h
    obtain ⟨sig, hsig, h⟩ := except_bind_ok h
    obtain ⟨nh, hnh, h⟩ := except_bind_ok h
    obtain rfl := except_pure_ok h
    unfold Httpbis.augmentHeaders at hnh
    obtain ⟨st, hst, hnh⟩ := except_bind_ok hnh
    obtain ⟨entry, hentry, hnh⟩ := except_bind_ok hnh
    obtain ⟨hn1, hn2⟩ := augmentCollect_names message.headers _ st hst rfl rfl
    obtain ⟨s1, s2, rfl⟩ := serializeSigHeaders_ok hnh
    refine ⟨st.1.1, st.2.1, s1, s2, hn1, hn2, rfl, ?_⟩
    intro kv hkv hks hki
    rw [withHeaders_headers]
    refine mem_jsSet_of_ne (mem_jsSet_of_ne hkv ?_) ?_
    · intro he
      exact hks (he ▸ hn1)
    · intro he
      exact hki (he ▸ hn2)
  · intro config message enc nowMs msg h
    unfold Cavage.signMessage at h
    obtain ⟨sb, hsb, h⟩ := except_bind_ok h
    obtain ⟨base, hbase, h⟩ := except_bind_ok h
    obtain ⟨sig, hsig, h⟩ := except_bind_ok h
    obtain rfl := except_pure_ok h
    refine ⟨_, cavage_withHeaders_eq _ _, ?_⟩
    intro kv hkv hks
    rw [cavage_withHeaders_eq, withHeaders_headers]
    exact mem_jsSet_of_ne hkv hks

/-- A signing key producing the fixed signature string `FAKE`. -/
def keyW : SigningKeyM := { sign := fun _ => .ok "FAKE" }

def cfgW : SignConfigM := { key := keyW }

def msgW : MessageM :=
  .req { method := "GET", url := urlSimple, headers := [("Date", .one "today")] }

/-- What httpbis `signMessage` produces on `msgW` at time 0. -/
def msgW1 : MessageM :=
  .req
    { method := "GET", url := urlSimple
      headers :=
        [("Date", .one "today"),
         ("Signature", .one "sig=:FAKE:"),
         ("Signature-Input", .one "sig=();expires=300")] }

/-- What cavage `signMessage` produces on `msgW` at time 0. -/
def msgW2 : MessageM :=
  .req
    { method := "GET", url := urlSimple
      headers :=
        [("Date", .one "today"),
         ("Signature", .one "expires=300, headers=\"\", signature=\"FAKE\"")] }

/-- The C9 frame theorem applied to a concrete message signed by both
dialects. -/
theorem claim_C9_witness :
    (∃ sigName inputName sigStr inputStr,
      jsToLower sigName = "signature" ∧
      jsToLower inputName = "signature-input" ∧
      msgW1 = Httpbis.withHeaders msgW
        (jsSet (jsSet msgW.headers sigName (.one sigStr))
          inputName (.one inputStr)) ∧
      ∀ kv ∈ msgW.headers,
        jsToLower kv.1 ≠ "signature" →
        jsToLower kv.1 ≠ "signature-input" → kv ∈ msgW1.headers) ∧
    (∃ header,
      msgW2 = Httpbis.withHeaders msgW
        (jsSet msgW.headers "Signature" (.one header)) ∧
      ∀ kv ∈ msgW.headers, kv.1 ≠ "Signature" → kv ∈ msgW2.headers) :=
  ⟨claim_C9_sign_frame.1 platId cfgW msgW none 0 msgW1 (by rfl),
   claim_C9_sign_frame.2 cfgW msgW (fun s => s) 0 msgW2 (by rfl)⟩


/-! ## Round-trip of the structured-field codec

Parsing a successfully serialised value consumes exactly its serialisation
and returns the value, provided the remaining input starts with a
separator (so greedy character runs stop at the right place). -/

theorem data_append (a b : String) : (a ++ b).data = a.data ++ b.data := by
  cases a
  cases b
  rfl

/-- The head of `rest` (if any) fails `p`. -/
def headStops (p : Char → Bool) : List Char → Bool
  | [] => true
  | c :: _ => !(p c)

theorem takeWhile_append_all {p : Char → Bool} {l r : List Char}
    (hl : l.all p = true) (hr : headStops p r = true) :
    (l ++ r).takeWhile p = l ∧ (l ++ r).dropWhile p = r := by
  induction l with
  | nil =>
    simp only [List.nil_append]
    cases r with
    | nil => exact ⟨rfl, rfl⟩
    | cons c t =>
      simp only [headStops, Bool.not_eq_true'] at hr
      exact ⟨by simp [List.takeWhile_cons, hr], by simp [List.dropWhile_cons, hr]⟩
  | cons c t ih =>
    simp only [List.all_cons, Bool.and_eq_true] at hl
    obtain ⟨ih1, ih2⟩ := ih hl.2
    constructor
    · simp [List.takeWhile_cons, hl.1, ih1]
    · simp [List.dropWhile_cons, hl.1, ih2]

theorem natToChars_ne_nil (n : Nat) : natToChars n ≠ [] := by
  by_cases h : n < 10
  · rw [natToChars_eq_small h]
    simp
  · rw [natToChars_eq_big h]
    simp

theorem parseKey_roundtrip {k s : String} (h : serializeKey k = some s)
    {rest : List Char} (hr : headStops isKeyChar rest = true) :
    parseKey (s.data ++ rest) = some (k, rest) := by
  unfold serializeKey at h
  split at h
  · cases h
  · rename_i c cs hk
    split at h
    · rename_i hcs
      obtain rfl := Option.some.inj h
      simp only [Bool.and_eq_true] at hcs
      obtain ⟨htake, hdrop⟩ := takeWhile_append_all hcs.2 hr
      rw [hk]
      show parseKey (c :: (cs ++ rest)) = some (k, rest)
      unfold parseKey
      show (if isKeyStart c = true then
          some ((⟨c :: List.takeWhile isKeyChar (cs ++ rest)⟩ : String),
            List.dropWhile isKeyChar (cs ++ rest))
        else none) = some (k, rest)
      rw [if_pos hcs.1, htake, hdrop]
      cases k with
      | mk d =>
        have hd : d = c :: cs := hk
        subst hd
        rfl
    · cases h

/-- Heads that stop both a digit run and the decimal check. -/
def stopsNum : List Char → Bool
  | [] => true
  | c :: _ => !c.isDigit && c != Char.ofNat 46

theorem parseDigits_roundtrip {n : Nat} (hlt : n < 10 ^ 15)
    {rest : List Char} (hr : stopsNum rest = true) :
    parseDigits (natToChars n ++ rest) = some (n, rest) := by
  have hall : (natToChars n).all Char.isDigit = true :=
    List.all_eq_true.mpr (fun c hc => natToChars_digits n c hc)
  have hstop : headStops Char.isDigit rest = true := by
    cases rest with
    | nil => rfl
    | cons c t =>
      simp only [stopsNum, Bool.and_eq_true] at hr
      simpa [headStops] using hr.1
  obtain ⟨htake, hdrop⟩ := takeWhile_append_all hall hstop
  have hlen1 : 1 ≤ (natToChars n).length :=
    List.length_pos.mpr (natToChars_ne_nil n)
  have hlen15 : (natToChars n).length ≤ 15 :=
    natToChars_length_le (by omega) hlt
  unfold parseDigits
  rw [htake, hdrop]
  rw [if_neg (by omega)]
  split
  · rename_i t
    simp [stopsNum] at hr
  · rw [digitsToNat_natToChars]

theorem intToString_abs_le {n : Int}
    (h : -999999999999999 ≤ n ∧ n ≤ 999999999999999) :
    n.natAbs < 10 ^ 15 := by
  omega

theorem parseIntPart_roundtrip {n : Int}
    (hn : -999999999999999 ≤ n ∧ n ≤ 999999999999999)
    {rest : List Char} (hr : stopsNum rest = true) :
    parseIntPart ((intToString n).data ++ rest) = some (n, rest) := by
  have habs := intToString_abs_le hn
  unfold intToString
  by_cases hneg : n < 0
  · rw [if_pos hneg, data_append]
    show parseIntPart (Char.ofNat 45 :: (natToChars n.natAbs ++ rest)) =
      some (n, rest)
    unfold parseIntPart
    show Option.map (fun p => (-(p.1 : Int), p.2))
        (parseDigits (natToChars n.natAbs ++ rest)) = some (n, rest)
    rw [parseDigits_roundtrip habs hr]
    show some (-((n.natAbs : Nat) : Int), rest) = some (n, rest)
    rw [show -((n.natAbs : Nat) : Int) = n from by omega]
  · rw [if_neg hneg]
    show parseIntPart (natToChars n.natAbs ++ rest) = some (n, rest)
    have hne := natToChars_ne_nil n.natAbs
    unfold parseIntPart
    split
    · rename_i cs1 heq
      exfalso
      cases hcs : natToChars n.natAbs with
      | nil => exact hne hcs
      | cons c t =>
        rw [hcs] at heq
        obtain ⟨hc, -⟩ : c = Char.ofNat 45 ∧ t ++ rest = cs1 := by
          simpa using heq
        have hd := natToChars_digits n.natAbs c (by rw [hcs]; simp)
        rw [hc] at hd
        exact absurd hd (by decide)
    · rw [parseDigits_roundtrip habs hr]
      show some (((n.natAbs : Nat) : Int), rest) = some (n, rest)
      rw [show ((n.natAbs : Nat) : Int) = n from by omega]


theorem isAlpha_not_digit {c : Char} (h : c.isAlpha = true) :
    c.isDigit = false := by
  unfold Char.isAlpha Char.isUpper Char.isLower Char.isDigit at *
  simp only [Bool.or_eq_true, Bool.and_eq_true, decide_eq_true_eq] at h
  simp only [Bool.and_eq_false_iff, decide_eq_false_iff_not, not_le]
  rcases h with ⟨h1, h2⟩ | ⟨h1, h2⟩
  · have h1n : 65 ≤ c.toNat := h1
    right
    show ¬(c.val ≤ 57)
    intro hc
    have : c.toNat ≤ 57 := hc
    omega
  · have h1n : 97 ≤ c.toNat := h1
    right
    show ¬(c.val ≤ 57)
    intro hc
    have : c.toNat ≤ 57 := hc
    omega

theorem tokenStart_not_digit {c : Char} (h : isTokenStart c = true) :
    c.isDigit = false := by
  unfold isTokenStart at h
  simp only [Bool.or_eq_true] at h
  rcases h with h | h
  · exact isAlpha_not_digit h
  · obtain rfl : c = Char.ofNat 42 := by simpa using h
    decide

theorem parseStringChars_roundtrip :
    ∀ {cs : List Char}, cs.all isPrintable = true → ∀ (rest : List Char),
      parseStringChars (escapeChars cs ++ (Char.ofNat 34 :: rest)) =
        some (cs, rest) := by
  intro cs
  induction cs with
  | nil =>
    intro h rest
    rfl
  | cons c t ih =>
    intro h rest
    simp only [List.all_cons, Bool.and_eq_true] at h
    unfold escapeChars
    by_cases hc : (c == Char.ofNat 34 || c == Char.ofNat 92) = true
    · rw [if_pos hc]
      show parseStringChars
          (Char.ofNat 92 :: c :: (escapeChars t ++ (Char.ofNat 34 :: rest))) =
        some (c :: t, rest)
      unfold parseStringChars
      show (if (c == Char.ofNat 34 || c == Char.ofNat 92) = true then
          Option.map (fun p => (c :: p.1, p.2))
            (parseStringChars (escapeChars t ++ (Char.ofNat 34 :: rest)))
        else none) = some (c :: t, rest)
      rw [if_pos hc, ih h.2 rest]
      rfl
    · rw [if_neg hc]
      simp only [Bool.or_eq_true, not_or, Bool.not_eq_true] at hc
      show parseStringChars (c :: (escapeChars t ++ (Char.ofNat 34 :: rest))) =
        some (c :: t, rest)
      unfold parseStringChars
      split
      · rename_i heq
        exact absurd heq (by simp)
      · rename_i r heq
        obtain ⟨he, -⟩ : c = Char.ofNat 34 ∧ escapeChars t ++ (Char.ofNat 34 :: rest) = r := by
          simpa using heq
        rw [← beq_iff_eq (a := c)] at he
        rw [hc.1] at he
        cases he
      · rename_i heq
        obtain ⟨he, -⟩ : c = Char.ofNat 92 ∧ escapeChars t ++ (Char.ofNat 34 :: rest) = [] := by
          simpa using heq
        rw [← beq_iff_eq (a := c)] at he
        rw [hc.2] at he
        cases he
      · rename_i c2 r heq
        obtain ⟨he, -⟩ : c = Char.ofNat 92 ∧ escapeChars t ++ (Char.ofNat 34 :: rest) = c2 :: r := by
          simpa using heq
        rw [← beq_iff_eq (a := c)] at he
        rw [hc.2] at he
        cases he
      · rename_i cs0 c2 r h1 h2 h3 heq
        obtain ⟨he1, he2⟩ : c = c2 ∧ escapeChars t ++ (Char.ofNat 34 :: rest) = r := by
          simpa using heq
        subst he1
        subst he2
        rw [if_pos h.1, ih h.2 rest]
        rfl


theorem parseTokenBare_roundtrip {tk out : String}
    (h : serializeBareItem (.tok tk) = some out)
    {rest : List Char} (hr : headStops isTokenChar rest = true) :
    parseTokenBare (out.data ++ rest) = some (.tok tk, rest) := by
  simp only [serializeBareItem] at h
  split at h
  · cases h
  · rename_i c cs hk
    split at h
    · rename_i hcs
      obtain rfl := Option.some.inj h
      simp only [Bool.and_eq_true] at hcs
      obtain ⟨htake, hdrop⟩ := takeWhile_append_all hcs.2 hr
      rw [hk]
      show parseTokenBare (c :: (cs ++ rest)) = some (.tok tk, rest)
      unfold parseTokenBare
      show (if isTokenStart c = true then
          some (BareItem.tok ⟨c :: List.takeWhile isTokenChar (cs ++ rest)⟩,
            List.dropWhile isTokenChar (cs ++ rest))
        else none) = some (.tok tk, rest)
      rw [if_pos hcs.1, htake, hdrop]
      cases tk with
      | mk d =>
        have hd : d = c :: cs := hk
        subst hd
        rfl
    · cases h

theorem parseBytesBare_roundtrip {b out : String}
    (h : serializeBareItem (.bytes b) = some out) (rest : List Char) :
    parseBytesBare (out.data ++ rest) = some (.bytes b, rest) := by
  simp only [serializeBareItem] at h
  split at h
  · rename_i hall
    obtain rfl := Option.some.inj h
    have hdata : ((":" ++ b ++ ":" : String).data ++ rest) =
        Char.ofNat 58 :: (b.data ++ (Char.ofNat 58 :: rest)) := by
      rw [data_append, data_append]
      simp
    rw [hdata]
    unfold parseBytesBare
    show (match (b.data ++ (Char.ofNat 58 :: rest)).dropWhile isB64Char with
      | Char.ofNat 58 :: r =>
        some (BareItem.bytes
          ⟨(b.data ++ (Char.ofNat 58 :: rest)).takeWhile isB64Char⟩, r)
      | _ => none) = some (.bytes b, rest)
    obtain ⟨htake, hdrop⟩ :=
      @takeWhile_append_all isB64Char b.data (Char.ofNat 58 :: rest) hall rfl
    rw [htake, hdrop]
    cases b with
    | mk d => rfl
  · cases h

theorem parseBoolBare_roundtrip {b : Bool} {out : String}
    (h : serializeBareItem (.bool b) = some out) (rest : List Char) :
    parseBoolBare (out.data ++ rest) = some (.bool b, rest) := by
  cases b
  · obtain rfl : ("?0" : String) = out := Option.some.inj h
    rfl
  · obtain rfl : ("?1" : String) = out := Option.some.inj h
    rfl

/-- Heads on which a bare item, a key run and a parameter list all stop:
the separators the serialisers emit after them. -/
def stopsBare : List Char → Bool
  | [] => true
  | c :: _ => c == Char.ofNat 32 || c == Char.ofNat 41 ||
      c == Char.ofNat 44 || c == Char.ofNat 59

theorem stopsBare_cases {rest : List Char} (h : stopsBare rest = true) :
    rest = [] ∨ ∃ t, rest = Char.ofNat 32 :: t ∨ rest = Char.ofNat 41 :: t ∨
      rest = Char.ofNat 44 :: t ∨ rest = Char.ofNat 59 :: t := by
  cases rest with
  | nil => exact Or.inl rfl
  | cons c t =>
    simp only [stopsBare, Bool.or_eq_true, beq_iff_eq] at h
    rcases h with ((h | h) | h) | h <;> subst h
    · exact Or.inr ⟨t, Or.inl rfl⟩
    · exact Or.inr ⟨t, Or.inr (Or.inl rfl)⟩
    · exact Or.inr ⟨t, Or.inr (Or.inr (Or.inl rfl))⟩
    · exact Or.inr ⟨t, Or.inr (Or.inr (Or.inr rfl))⟩

theorem stopsBare_num {rest : List Char} (h : stopsBare rest = true) :
    stopsNum rest = true := by
  rcases stopsBare_cases h with rfl | ⟨t, rfl | rfl | rfl | rfl⟩ <;> rfl

theorem stopsBare_key {rest : List Char} (h : stopsBare rest = true) :
    headStops isKeyChar rest = true := by
  rcases stopsBare_cases h with rfl | ⟨t, rfl | rfl | rfl | rfl⟩ <;> rfl

theorem stopsBare_token {rest : List Char} (h : stopsBare rest = true) :
    headStops isTokenChar rest = true := by
  rcases stopsBare_cases h with rfl | ⟨t, rfl | rfl | rfl | rfl⟩ <;> rfl

theorem stopsBare_semi (rest : List Char) :
    stopsBare (Char.ofNat 59 :: rest) = true := by
  rfl

theorem parseBareItem_roundtrip {b : BareItem} {out : String}
    (h : serializeBareItem b = some out)
    {rest : List Char} (hr : stopsBare rest = true) :
    parseBareItem (out.data ++ rest) = some (b, rest) := by
  cases b with
  | int n =>
    have hcopy := h
    simp only [serializeBareItem] at hcopy
    split at hcopy
    · rename_i hn
      obtain rfl := Option.some.inj hcopy
      by_cases hneg : n < 0
      · have hdata : (intToString n).data ++ rest =
            Char.ofNat 45 :: (natToChars n.natAbs ++ rest) := by
          unfold intToString
          rw [if_pos hneg, data_append]
          rfl
        rw [hdata]
        unfold parseBareItem
        show Option.map (fun p => (BareItem.int p.1, p.2))
            (parseIntPart (Char.ofNat 45 :: (natToChars n.natAbs ++ rest))) =
          some (.int n, rest)
        rw [← hdata, parseIntPart_roundtrip hn (stopsBare_num hr)]
        rfl
      · have hdata : (intToString n).data = natToChars n.natAbs := by
          unfold intToString
          rw [if_neg hneg]
          rfl
        obtain ⟨c, t, hct⟩ : ∃ c t, natToChars n.natAbs = c :: t := by
          cases hcs : natToChars n.natAbs with
          | nil => exact absurd hcs (natToChars_ne_nil _)
          | cons c t => exact ⟨c, t, rfl⟩
        have hcd : c.isDigit = true := natToChars_digits _ c (by rw [hct]; simp)
        have h34 : (c == Char.ofNat 34) = false := by
          by_cases e : c = Char.ofNat 34
          · subst e
            exact absurd hcd (by decide)
          · exact beq_eq_false_iff_ne.mpr e
        have h58 : (c == Char.ofNat 58) = false := by
          by_cases e : c = Char.ofNat 58
          · subst e
            exact absurd hcd (by decide)
          · exact beq_eq_false_iff_ne.mpr e
        have h63 : (c == Char.ofNat 63) = false := by
          by_cases e : c = Char.ofNat 63
          · subst e
            exact absurd hcd (by decide)
          · exact beq_eq_false_iff_ne.mpr e
        rw [hdata, hct]
        show parseBareItem (c :: (t ++ rest)) = some (.int n, rest)
        simp only [parseBareItem]
        rw [h34, h58, h63]
        simp only [Bool.false_eq_true, if_false]
        rw [if_pos (by simp [hcd])]
        rw [show c :: (t ++ rest) = (intToString n).data ++ rest from by
          rw [hdata, hct]
          rfl]
        rw [parseIntPart_roundtrip hn (stopsBare_num hr)]
        rfl
    · cases hcopy
  | str str =>
    have hcopy := h
    simp only [serializeBareItem] at hcopy
    split at hcopy
    · rename_i hprint
      obtain rfl := Option.some.inj hcopy
      have hdata : (("\"" ++ (⟨escapeChars str.data⟩ : String) ++
            "\"" : String).data ++ rest) =
          Char.ofNat 34 :: (escapeChars str.data ++ (Char.ofNat 34 :: rest)) := by
        rw [data_append, data_append]
        simp
      rw [hdata]
      unfold parseBareItem
      show parseStringBare
          (Char.ofNat 34 :: (escapeChars str.data ++ (Char.ofNat 34 :: rest))) =
        some (.str str, rest)
      unfold parseStringBare
      show Option.map (fun p => (BareItem.str ⟨p.1⟩, p.2))
          (parseStringChars (escapeChars str.data ++ (Char.ofNat 34 :: rest))) =
        some (.str str, rest)
      rw [parseStringChars_roundtrip hprint rest]
      cases str with
      | mk d => rfl
    · cases hcopy
  | tok tk =>
    have hcopy := h
    simp only [serializeBareItem] at hcopy
    split at hcopy
    · cases hcopy
    · rename_i c cs hk
      split at hcopy
      · rename_i hcs
        obtain rfl := Option.some.inj hcopy
        simp only [Bool.and_eq_true] at hcs
        have hstart := hcs.1
        have hnd := tokenStart_not_digit hstart
        have h34 : (c == Char.ofNat 34) = false := by
          by_cases e : c = Char.ofNat 34
          · subst e
            exact absurd hstart (by decide)
          · exact beq_eq_false_iff_ne.mpr e
        have h58 : (c == Char.ofNat 58) = false := by
          by_cases e : c = Char.ofNat 58
          · subst e
            exact absurd hstart (by decide)
          · exact beq_eq_false_iff_ne.mpr e
        have h63 : (c == Char.ofNat 63) = false := by
          by_cases e : c = Char.ofNat 63
          · subst e
            exact absurd hstart (by decide)
          · exact beq_eq_false_iff_ne.mpr e
        have h45 : (c == Char.ofNat 45) = false := by
          by_cases e : c = Char.ofNat 45
          · subst e
            exact absurd hstart (by decide)
          · exact beq_eq_false_iff_ne.mpr e
        rw [hk]
        show parseBareItem (c :: (cs ++ rest)) = some (.tok tk, rest)
        simp only [parseBareItem]
        rw [h34, h58, h63, h45, hnd]
        simp only [Bool.false_eq_true, Bool.or_self, if_false]
        rw [if_pos hstart]
        rw [show c :: (cs ++ rest) = tk.data ++ rest from by rw [hk]; rfl]
        exact parseTokenBare_roundtrip h (stopsBare_token hr)
      · cases hcopy
  | bytes bs =>
    have hcopy := h
    simp only [serializeBareItem] at hcopy
    split at hcopy
    · rename_i hall
      obtain rfl := Option.some.inj hcopy
      have hdata : ((":" ++ bs ++ ":" : String).data ++ rest) =
          Char.ofNat 58 :: (bs.data ++ (Char.ofNat 58 :: rest)) := by
        rw [data_append, data_append]
        simp
      rw [hdata]
      unfold parseBareItem
      show parseBytesBare
          (Char.ofNat 58 :: (bs.data ++ (Char.ofNat 58 :: rest))) =
        some (.bytes bs, rest)
      rw [← hdata]
      exact parseBytesBare_roundtrip h rest
    · cases hcopy
  | bool bv =>
    cases bv
    · obtain rfl : ("?0" : String) = out := Option.some.inj h
      exact parseBoolBare_roundtrip h rest
    · obtain rfl : ("?1" : String) = out := Option.some.inj h
      exact parseBoolBare_roundtrip h rest


theorem jsSet_not_has {α : Type} {m : List (String × α)} {k : String}
    {v : α} (h : jsHas m k = false) : jsSet m k v = m ++ [(k, v)] := by
  unfold jsSet
  rw [if_neg (by simp [h])]

theorem jsHas_append {α : Type} (m1 m2 : List (String × α)) (k : String) :
    jsHas (m1 ++ m2) k = (jsHas m1 k || jsHas m2 k) := by
  simp [jsHas, List.any_append]

/-- Heads after a whole parameter list: the separators of the item, inner
list and list grammars (not `;`, which would continue the parameters). -/
def stopsParams : List Char → Bool
  | [] => true
  | c :: _ => c == Char.ofNat 32 || c == Char.ofNat 41 || c == Char.ofNat 44

theorem stopsParams_bare {rest : List Char} (h : stopsParams rest = true) :
    stopsBare rest = true := by
  cases rest with
  | nil => rfl
  | cons c t =>
    simp only [stopsParams, Bool.or_eq_true] at h
    simp only [stopsBare, Bool.or_eq_true]
    rcases h with (h | h) | h
    · exact Or.inl (Or.inl (Or.inl h))
    · exact Or.inl (Or.inl (Or.inr h))
    · exact Or.inl (Or.inr h)

theorem serializeKey_eq {k out : String} (h : serializeKey k = some out) :
    out = k ∧ ∃ c t, k.data = c :: t ∧ isKeyStart c = true ∧
      t.all isKeyChar = true := by
  unfold serializeKey at h
  split at h
  · cases h
  · rename_i c t hk
    split at h
    · rename_i hc
      simp only [Bool.and_eq_true] at hc
      exact ⟨(Option.some.inj h).symm, c, t, hk, hc.1, hc.2⟩
    · cases h

theorem serializeParams_semi {x : String × BareItem} {xs : SFParams}
    {out : String} (h : serializeParams (x :: xs) = some out) :
    ∃ t, out.data = Char.ofNat 59 :: t := by
  unfold serializeParams at h
  obtain ⟨k, v⟩ := x
  simp only [Option.bind_eq_bind, Option.bind_eq_some] at h
  obtain ⟨ks, hks, h⟩ := h
  obtain ⟨tail, htail, h⟩ := h
  split at h
  · obtain rfl := Option.some.inj h
    exact ⟨(ks ++ tail).data, by rw [data_append, data_append]; rfl⟩
  · simp only [Option.bind_eq_some] at h
    obtain ⟨vs, hvs, h⟩ := h
    obtain rfl := Option.some.inj h
    refine ⟨(ks ++ "=" ++ vs ++ tail).data, ?_⟩
    rw [data_append, data_append]
    rfl

theorem dropSP_keyStart {c : Char} (hc : isKeyStart c = true)
    (t : List Char) : dropSP (c :: t) = c :: t := by
  unfold dropSP
  rw [List.dropWhile_cons]
  rw [if_neg ?_]
  intro he
  rw [show c = Char.ofNat 32 from by simpa using he] at hc
  exact absurd hc (by decide)

theorem stopsParams_ne_eq {rest : List Char} (h : stopsParams rest = true) :
    headStops (fun c => c == Char.ofNat 61) rest = true := by
  cases rest with
  | nil => rfl
  | cons c t =>
    simp only [stopsParams, Bool.or_eq_true, beq_iff_eq] at h
    rcases h with (rfl | rfl) | rfl <;> rfl

theorem parseParamsF_roundtrip :
    ∀ (ps : SFParams) {out : String}, serializeParams ps = some out →
      ∀ (acc : SFParams), (∀ p ∈ ps, jsHas acc p.1 = false) →
        (ps.map Prod.fst).Nodup →
        ∀ {rest : List Char}, stopsParams rest = true →
        ∀ {fuel : Nat}, (out.data ++ rest).length < fuel →
        parseParamsF fuel (out.data ++ rest) acc = some (acc ++ ps, rest) := by
  intro ps
  induction ps with
  | nil =>
    intro out h acc hdisj hnodup rest hrest fuel hfuel
    obtain rfl : ("" : String) = out := Option.some.inj h
    obtain ⟨g, rfl⟩ : ∃ g, fuel = g + 1 := ⟨fuel - 1, by omega⟩
    show parseParamsF (g + 1) rest acc = some (acc ++ [], rest)
    rw [List.append_nil]
    cases rest with
    | nil => rfl
    | cons c t =>
      simp only [stopsParams, Bool.or_eq_true, beq_iff_eq] at hrest
      rcases hrest with (rfl | rfl) | rfl <;> rfl
  | cons x xs ih =>
    intro out h acc hdisj hnodup rest hrest fuel hfuel
    obtain ⟨k, v⟩ := x
    have hsem := h
    unfold serializeParams at hsem
    simp only [Option.bind_eq_bind, Option.bind_eq_some] at hsem
    obtain ⟨ks, hks, hsem⟩ := hsem
    obtain ⟨tail, htail, hsem⟩ := hsem
    obtain ⟨hkeq, c0, t0, hk0, hc0, hall0⟩ := serializeKey_eq hks
    subst hkeq
    simp only [List.map_cons, List.nodup_cons] at hnodup
    have hdisjk : jsHas acc ks = false := hdisj (ks, v) (List.mem_cons_self _ _)
    have hdisj2 : ∀ p ∈ xs, jsHas (acc ++ [(ks, v)]) p.1 = false := by
      intro p hp
      rw [jsHas_append]
      have h1 : jsHas acc p.1 = false := hdisj p (List.mem_cons_of_mem _ hp)
      have h2 : jsHas [(ks, v)] p.1 = false := by
        simp only [jsHas, List.any_cons, List.any_nil, Bool.or_false]
        have hne : p.1 ≠ ks := by
          intro he
          exact hnodup.1 (he ▸ List.mem_map_of_mem Prod.fst hp)
        simpa using fun hke => hne hke.symm
      rw [h1, h2]
      rfl
    have htail_head : stopsBare (tail.data ++ rest) = true := by
      cases xs with
      | nil =>
        obtain rfl : ("" : String) = tail := Option.some.inj htail
        exact stopsParams_bare hrest
      | cons y ys =>
        obtain ⟨t2, ht2⟩ := serializeParams_semi htail
        rw [ht2]
        rfl
    have hdsp : dropSP (ks.data ++ (tail.data ++ rest)) =
        ks.data ++ (tail.data ++ rest) := by
      rw [hk0, List.cons_append, dropSP_keyStart hc0, ← List.cons_append]
    have hdspv : ∀ (X : List Char), dropSP (ks.data ++ X) = ks.data ++ X := by
      intro X
      rw [hk0, List.cons_append, dropSP_keyStart hc0, ← List.cons_append]
    obtain ⟨g, rfl⟩ : ∃ g, fuel = g + 1 := ⟨fuel - 1, by omega⟩
    split at hsem
    · obtain rfl := Option.some.inj hsem
      have hout : ((";" : String) ++ ks ++ tail).data ++ rest =
          Char.ofNat 59 :: (ks.data ++ (tail.data ++ rest)) := by
        rw [data_append, data_append]
        simp
      have hlen : ((((";" : String) ++ ks ++ tail).data ++ rest)).length =
          1 + (ks.data.length + ((tail.data ++ rest)).length) := by
        rw [hout]
        simp
        omega
      have hpk : parseKey (ks.data ++ (tail.data ++ rest)) =
          some (ks, tail.data ++ rest) :=
        parseKey_roundtrip hks (stopsBare_key htail_head)
      have hrec := ih htail (acc ++ [(ks, BareItem.bool true)]) hdisj2
        hnodup.2 hrest (show (tail.data ++ rest).length < g from by
          rw [hlen] at hfuel
          omega)
      rw [hout]
      rcases stopsBare_cases htail_head with htr | ⟨t3, htr | htr | htr | htr⟩ <;>
        (rw [htr] at hpk hrec ⊢
         simp only [parseParamsF, hdspv, hpk]
         rw [jsSet_not_has hdisjk, hrec, List.append_assoc]
         rfl)
    · simp only [Option.bind_eq_bind, Option.bind_eq_some] at hsem
      obtain ⟨vs, hvs, hsem⟩ := hsem
      obtain rfl := Option.some.inj hsem
      have hout : ((";" : String) ++ ks ++ "=" ++ vs ++ tail).data ++ rest =
          Char.ofNat 59 ::
            (ks.data ++ (Char.ofNat 61 :: (vs.data ++ (tail.data ++ rest)))) := by
        rw [data_append, data_append, data_append, data_append]
        simp
      have hlen : ((((";" : String) ++ ks ++ "=" ++ vs ++ tail).data ++
          rest)).length =
          1 + (ks.data.length + (1 + (vs.data.length +
            ((tail.data ++ rest)).length))) := by
        rw [hout]
        simp
        omega
      have hpk : parseKey (ks.data ++
          (Char.ofNat 61 :: (vs.data ++ (tail.data ++ rest)))) =
          some (ks, Char.ofNat 61 :: (vs.data ++ (tail.data ++ rest))) :=
        parseKey_roundtrip hks rfl
      have hpb : parseBareItem (vs.data ++ (tail.data ++ rest)) =
          some (v, tail.data ++ rest) :=
        parseBareItem_roundtrip hvs htail_head
      rw [hout]
      simp only [parseParamsF, hdspv, hpk, hpb]
      rw [jsSet_not_has hdisjk]
      have hrec := ih htail (acc ++ [(ks, v)]) hdisj2 hnodup.2 hrest
        (show (tail.data ++ rest).length < g from by
          rw [hlen] at hfuel
          omega)
      rw [hrec]
      rw [List.append_assoc]
      rfl


theorem not_eq_beq_of_pred_false {c L : Char} {p : Char → Bool}
    (hc : p c = true) (hL : p L = false) : (c == L) = false := by
  by_cases e : c = L
  · subst e
    rw [hc] at hL
    cases hL
  · exact beq_eq_false_iff_ne.mpr e

theorem serializeBareItem_head {b : BareItem} {out : String}
    (h : serializeBareItem b = some out) :
    ∃ c t, out.data = c :: t ∧ (c == Char.ofNat 32) = false ∧
      (c == Char.ofNat 41) = false ∧ (c == Char.ofNat 40) = false := by
  cases b with
  | int n =>
    simp only [serializeBareItem] at h
    split at h
    · rename_i hn
      obtain rfl := Option.some.inj h
      unfold intToString
      by_cases hneg : n < 0
      · rw [if_pos hneg, data_append]
        exact ⟨Char.ofNat 45, _, rfl, by decide, by decide, by decide⟩
      · rw [if_neg hneg]
        obtain ⟨c, t, hct⟩ : ∃ c t, natToChars n.natAbs = c :: t := by
          cases hcs : natToChars n.natAbs with
          | nil => exact absurd hcs (natToChars_ne_nil _)
          | cons c t => exact ⟨c, t, rfl⟩
        have hcd : c.isDigit = true := natToChars_digits _ c (by rw [hct]; simp)
        exact ⟨c, t, hct, not_eq_beq_of_pred_false hcd (by decide),
          not_eq_beq_of_pred_false hcd (by decide),
          not_eq_beq_of_pred_false hcd (by decide)⟩
    · cases h
  | str str =>
    simp only [serializeBareItem] at h
    split at h
    · obtain rfl := Option.some.inj h
      rw [data_append, data_append]
      exact ⟨Char.ofNat 34, _, rfl, by decide, by decide, by decide⟩
    · cases h
  | tok tk =>
    simp only [serializeBareItem] at h
    split at h
    · cases h
    · rename_i c cs hk
      split at h
      · rename_i hcs
        obtain rfl := Option.some.inj h
        simp only [Bool.and_eq_true] at hcs
        exact ⟨c, cs, hk, not_eq_beq_of_pred_false hcs.1 (by decide),
          not_eq_beq_of_pred_false hcs.1 (by decide),
          not_eq_beq_of_pred_false hcs.1 (by decide)⟩
      · cases h
  | bytes bs =>
    simp only [serializeBareItem] at h
    split at h
    · obtain rfl := Option.some.inj h
      rw [data_append, data_append]
      exact ⟨Char.ofNat 58, _, rfl, by decide, by decide, by decide⟩
    · cases h
  | bool bv =>
    cases bv
    · obtain rfl : ("?0" : String) = out := Option.some.inj h
      exact ⟨Char.ofNat 63, _, rfl, by decide, by decide, by decide⟩
    · obtain rfl : ("?1" : String) = out := Option.some.inj h
      exact ⟨Char.ofNat 63, _, rfl, by decide, by decide, by decide⟩

theorem serializeItem_head {it : SFItem} {out : String}
    (h : serializeItem it = some out) :
    ∃ c t, out.data = c :: t ∧ (c == Char.ofNat 32) = false ∧
      (c == Char.ofNat 41) = false ∧ (c == Char.ofNat 40) = false := by
  unfold serializeItem at h
  simp only [Option.bind_eq_bind, Option.bind_eq_some] at h
  obtain ⟨bs, hbs, h⟩ := h
  obtain ⟨ps, hps, h⟩ := h
  obtain rfl := Option.some.inj h
  obtain ⟨c, t, hct, h1, h2, h3⟩ := serializeBareItem_head hbs
  exact ⟨c, t ++ ps.data, by rw [data_append, hct]; rfl, h1, h2, h3⟩

theorem keys_jsSet_nodup {α : Type} {m : List (String × α)} {k : String}
    {v : α} (h : (m.map Prod.fst).Nodup) :
    ((jsSet m k v).map Prod.fst).Nodup := by
  unfold jsSet
  by_cases hk : jsHas m k
  · rw [if_pos hk]
    have heq : (m.map (fun p => if p.1 == k then (k, v) else p)).map Prod.fst =
        m.map Prod.fst := by
      rw [List.map_map]
      refine List.map_congr_left ?_
      intro p hp
      by_cases hpk : p.1 == k
      · simp only [Function.comp_apply, if_pos hpk]
        exact (by simpa using hpk : p.1 = k).symm
      · simp only [Function.comp_apply, if_neg hpk]
    rw [heq]
    exact h
  · rw [if_neg hk]
    rw [List.map_append]
    simp only [List.map_cons, List.map_nil]
    rw [List.nodup_append]
    refine ⟨h, List.nodup_singleton _, ?_⟩
    intro a ha hb
    simp only [List.mem_singleton] at hb
    subst hb
    have hjk : jsHas m a = true := by
      unfold jsHas
      rw [List.any_eq_true]
      obtain ⟨p, hp, hpk⟩ := List.mem_map.mp ha
      exact ⟨p, hp, by simp [hpk]⟩
    exact hk hjk

theorem parseParamsF_nodup :
    ∀ {fuel : Nat} {cs : List Char} {acc ps : SFParams} {r : List Char},
      parseParamsF fuel cs acc = some (ps, r) →
      (acc.map Prod.fst).Nodup → (ps.map Prod.fst).Nodup := by
  intro fuel
  induction fuel with
  | zero =>
    intro cs acc ps r h
    exact absurd h (by simp [parseParamsF])
  | succ fuel ih =>
    intro cs acc ps r h hacc
    simp only [parseParamsF] at h
    split at h
    · split at h
      · cases h
      · rename_i k rest2 h1
        split at h
        · split at h
          · cases h
          · exact ih h (keys_jsSet_nodup hacc)
        · exact ih h (keys_jsSet_nodup hacc)
    · obtain ⟨he, -⟩ : acc = ps ∧ cs = r := by simpa using h
      exact he ▸ hacc

theorem parseItemTop_nodup {s : String} {it : SFItem}
    (h : parseItemTop s = .ok it) : (it.2.map Prod.fst).Nodup := by
  unfold parseItemTop at h
  split at h
  · cases h
  · rename_i it2 rest hp
    split at h
    · obtain rfl := Except.ok.inj h
      unfold parseItem at hp
      split at hp
      · cases hp
      · rename_i b rest0 hb
        match hq : parseParamsAux rest0 [] with
        | none => rw [hq] at hp; cases hp
        | some q =>
          rw [hq] at hp
          obtain ⟨hq1, -⟩ : (b, q.1) = it2 ∧ q.2 = rest := by simpa using hp
          have := parseParamsF_nodup
            (show parseParamsF (rest0.length + 1) rest0 [] = some (q.1, q.2)
              from hq) (by simp)
          rw [← hq1]
          exact this
    · cases h

theorem parseItem_roundtrip {it : SFItem} {out : String}
    (h : serializeItem it = some out)
    (hnodup : (it.2.map Prod.fst).Nodup)
    {rest : List Char} (hrest : stopsParams rest = true) :
    parseItem (out.data ++ rest) = some (it, rest) := by
  unfold serializeItem at h
  simp only [Option.bind_eq_bind, Option.bind_eq_some] at h
  obtain ⟨bs, hbs, h⟩ := h
  obtain ⟨ps, hps, h⟩ := h
  obtain rfl := Option.some.inj h
  have hdata : (bs ++ ps).data ++ rest = bs.data ++ (ps.data ++ rest) := by
    rw [data_append, List.append_assoc]
  have hpsrest : stopsBare (ps.data ++ rest) = true := by
    cases hit : it.2 with
    | nil =>
      rw [hit] at hps
      obtain rfl : ("" : String) = ps := Option.some.inj hps
      exact stopsParams_bare hrest
    | cons y ys =>
      rw [hit] at hps
      obtain ⟨t2, ht2⟩ := serializeParams_semi hps
      rw [ht2]
      rfl
  have hpb : parseBareItem (bs.data ++ (ps.data ++ rest)) =
      some (it.1, ps.data ++ rest) :=
    parseBareItem_roundtrip hbs hpsrest
  have hpp : parseParamsAux (ps.data ++ rest) [] = some ([] ++ it.2, rest) := by
    unfold parseParamsAux
    exact parseParamsF_roundtrip it.2 hps [] (by simp [jsHas]) hnodup hrest
      (by omega)
  rw [hdata]
  simp only [parseItem, hpb, hpp]
  rfl


theorem dropSP_cons_of_ne {c : Char} (h : (c == Char.ofNat 32) = false)
    (Y : List Char) : dropSP (c :: Y) = c :: Y := by
  unfold dropSP
  rw [List.dropWhile_cons, if_neg (by simp [h])]

theorem serializeItemsSp_cons_head {i : SFItem} {xs : List SFItem}
    {out : String} (h : serializeItemsSp (i :: xs) = some out) :
    ∃ c t, out.data = c :: t ∧ (c == Char.ofNat 32) = false ∧
      (c == Char.ofNat 41) = false ∧ (c == Char.ofNat 40) = false := by
  cases xs with
  | nil => exact serializeItem_head h
  | cons y ys =>
    have h2 : (do
        let is ← serializeItem i
        let tail ← serializeItemsSp (y :: ys)
        pure (is ++ " " ++ tail) : Option String) = some out := h
    simp only [Option.bind_eq_bind, Option.bind_eq_some] at h2
    obtain ⟨is, his, h2⟩ := h2
    obtain ⟨tail, htail, h2⟩ := h2
    obtain rfl := Option.some.inj h2
    obtain ⟨c, t, hct, h1, h2', h3⟩ := serializeItem_head his
    refine ⟨c, t ++ (Char.ofNat 32 :: tail.data), ?_, h1, h2', h3⟩
    rw [data_append, data_append, hct]
    simp

/-- Parsing the closing `)` and the inner list parameters. -/
theorem parseInnerF_close {ps : SFParams} {pss : String}
    (hps : serializeParams ps = some pss)
    (hnps : (ps.map Prod.fst).Nodup)
    {rest : List Char} (hrest : stopsParams rest = true)
    (acc : List SFItem) (fuel : Nat) :
    parseInnerF (fuel + 1) (Char.ofNat 41 :: (pss.data ++ rest)) acc =
      some (⟨acc, ps⟩, rest) := by
  have hpp : parseParamsAux (pss.data ++ rest) [] = some ([] ++ ps, rest) := by
    unfold parseParamsAux
    exact parseParamsF_roundtrip ps hps [] (by simp [jsHas]) hnps hrest
      (by omega)
  have hd : dropSP (Char.ofNat 41 :: (pss.data ++ rest)) =
      Char.ofNat 41 :: (pss.data ++ rest) := dropSP_cons_of_ne (by decide) _
  simp only [parseInnerF, hd, hpp]
  rfl

/-- A leading SP is skipped by the inner-list loop. -/
theorem parseInnerF_space (fuel : Nat) (X : List Char) (acc : List SFItem) :
    parseInnerF (fuel + 1) (Char.ofNat 32 :: X) acc =
      parseInnerF (fuel + 1) X acc := by
  have hd : dropSP (Char.ofNat 32 :: X) = dropSP X := by
    unfold dropSP
    rw [List.dropWhile_cons, if_pos (by simp)]
  simp only [parseInnerF, hd]

theorem parseInnerF_roundtrip :
    ∀ (items : List SFItem) {s : String}, serializeItemsSp items = some s →
      (∀ it ∈ items, (it.2.map Prod.fst).Nodup) →
      ∀ {ps : SFParams} {pss : String}, serializeParams ps = some pss →
        (ps.map Prod.fst).Nodup →
      ∀ (acc : List SFItem) {rest : List Char}, stopsParams rest = true →
      ∀ {fuel : Nat},
        (s.data ++ (Char.ofNat 41 :: (pss.data ++ rest))).length < fuel →
        parseInnerF fuel (s.data ++ (Char.ofNat 41 :: (pss.data ++ rest)))
          acc = some (⟨acc ++ items, ps⟩, rest) := by
  intro items
  induction items with
  | nil =>
    intro s h hits ps pss hps hnps acc rest hrest fuel hfuel
    obtain rfl : ("" : String) = s := Option.some.inj h
    obtain ⟨g, rfl⟩ : ∃ g, fuel = g + 1 := ⟨fuel - 1, by omega⟩
    show parseInnerF (g + 1) (Char.ofNat 41 :: (pss.data ++ rest)) acc =
      some (⟨acc ++ [], ps⟩, rest)
    rw [List.append_nil]
    exact parseInnerF_close hps hnps hrest acc g
  | cons i xs ih =>
    intro s h hits ps pss hps hnps acc rest hrest fuel hfuel
    obtain ⟨g, rfl⟩ : ∃ g, fuel = g + 1 := ⟨fuel - 1, by omega⟩
    cases xs with
    | nil =>
      have hi : serializeItem i = some s := h
      obtain ⟨c, t, hct, hc32, hc41, hc40⟩ := serializeItem_head hi
      have hitem : parseItem (s.data ++
          (Char.ofNat 41 :: (pss.data ++ rest))) =
          some (i, Char.ofNat 41 :: (pss.data ++ rest)) :=
        parseItem_roundtrip hi (hits i (List.mem_cons_self _ _)) rfl
      have hshape : s.data ++ (Char.ofNat 41 :: (pss.data ++ rest)) =
          c :: (t ++ (Char.ofNat 41 :: (pss.data ++ rest))) := by
        rw [hct]
        rfl
      have hlen : (s.data ++ (Char.ofNat 41 :: (pss.data ++ rest))).length =
          s.data.length + (1 + (pss.data.length + rest.length)) := by
        simp
        omega
      obtain ⟨g2, rfl⟩ : ∃ g2, g = g2 + 1 := by
        refine ⟨g - 1, ?_⟩
        rw [hlen] at hfuel
        have hs1 : 1 ≤ s.data.length := by
          rw [hct]
          simp
        omega
      simp only [parseInnerF]
      rw [hshape, dropSP_cons_of_ne hc32, ← hshape]
      split
      · rename_i r heq
        rw [hshape] at heq
        obtain ⟨he, -⟩ : c = Char.ofNat 41 ∧
            t ++ (Char.ofNat 41 :: (pss.data ++ rest)) = r := by simpa using heq
        rw [← beq_iff_eq (a := c)] at he
        rw [hc41] at he
        cases he
      · rw [hitem]
        show parseInnerF (g2 + 1)
            (Char.ofNat 41 :: (pss.data ++ rest)) (acc ++ [i]) =
          some (⟨acc ++ [i], ps⟩, rest)
        exact parseInnerF_close hps hnps hrest (acc ++ [i]) g2
    | cons y ys =>
      have h2 : (do
          let is ← serializeItem i
          let tail ← serializeItemsSp (y :: ys)
          pure (is ++ " " ++ tail) : Option String) = some s := h
      simp only [Option.bind_eq_bind, Option.bind_eq_some] at h2
      obtain ⟨is, his, h2⟩ := h2
      obtain ⟨tail, htail, h2⟩ := h2
      obtain rfl := Option.some.inj h2
      obtain ⟨c, t, hct, hc32, hc41, hc40⟩ := serializeItem_head his
      have hdata : (is ++ " " ++ tail).data ++
          (Char.ofNat 41 :: (pss.data ++ rest)) =
          is.data ++ (Char.ofNat 32 ::
            (tail.data ++ (Char.ofNat 41 :: (pss.data ++ rest)))) := by
        rw [data_append, data_append]
        simp
      have hitem : parseItem (is.data ++ (Char.ofNat 32 ::
          (tail.data ++ (Char.ofNat 41 :: (pss.data ++ rest))))) =
          some (i, Char.ofNat 32 ::
            (tail.data ++ (Char.ofNat 41 :: (pss.data ++ rest)))) :=
        parseItem_roundtrip his (hits i (List.mem_cons_self _ _)) rfl
      have hshape : is.data ++ (Char.ofNat 32 ::
          (tail.data ++ (Char.ofNat 41 :: (pss.data ++ rest)))) =
          c :: (t ++ (Char.ofNat 32 ::
            (tail.data ++ (Char.ofNat 41 :: (pss.data ++ rest))))) := by
        rw [hct]
        rfl
      have hlen : ((is ++ " " ++ tail).data ++
          (Char.ofNat 41 :: (pss.data ++ rest))).length =
          is.data.length + 1 + tail.data.length +
            (1 + (pss.data.length + rest.length)) := by
        rw [hdata]
        simp
        omega
      obtain ⟨g2, rfl⟩ : ∃ g2, g = g2 + 1 := by
        refine ⟨g - 1, ?_⟩
        rw [hlen] at hfuel
        omega
      rw [hdata]
      simp only [parseInnerF]
      rw [hshape, dropSP_cons_of_ne hc32, ← hshape]
      split
      · rename_i r heq
        rw [hshape] at heq
        obtain ⟨he, -⟩ : c = Char.ofNat 41 ∧ t ++ (Char.ofNat 32 ::
            (tail.data ++ (Char.ofNat 41 :: (pss.data ++ rest)))) = r := by
          simpa using heq
        rw [← beq_iff_eq (a := c)] at he
        rw [hc41] at he
        cases he
      · rw [hitem]
        show parseInnerF (g2 + 1) (Char.ofNat 32 ::
            (tail.data ++ (Char.ofNat 41 :: (pss.data ++ rest))))
            (acc ++ [i]) = some (⟨acc ++ i :: y :: ys, ps⟩, rest)
        rw [parseInnerF_space]
        have hrec := ih htail (fun it hmem => hits it (List.mem_cons_of_mem _ hmem))
          hps hnps (acc ++ [i]) hrest
          (show (tail.data ++ (Char.ofNat 41 :: (pss.data ++ rest))).length <
              g2 + 1 from by
            rw [hlen] at hfuel
            simp only [List.length_append, List.length_cons]
            omega)
        rw [hrec]
        rw [List.append_assoc]
        rfl

/-- The key-uniqueness facts a member needs for its serialisation to parse
back to itself. -/
def memberNodup : SFMember → Prop
  | .item i => (i.2.map Prod.fst).Nodup
  | .inner l => (l.params.map Prod.fst).Nodup ∧
      ∀ it ∈ l.items, (it.2.map Prod.fst).Nodup

theorem serializeMember_head {m : SFMember} {out : String}
    (h : serializeMember m = some out) :
    ∃ c t, out.data = c :: t ∧ (c == Char.ofNat 32) = false := by
  cases m with
  | item i =>
    obtain ⟨c, t, hct, h1, -, -⟩ := serializeItem_head h
    exact ⟨c, t, hct, h1⟩
  | inner l =>
    have h2 : (do
        let items ← serializeItemsSp l.items
        let ps ← serializeParams l.params
        pure ("(" ++ items ++ ")" ++ ps) : Option String) = some out := h
    simp only [Option.bind_eq_bind, Option.bind_eq_some] at h2
    obtain ⟨its, hits, h2⟩ := h2
    obtain ⟨pss, hpss, h2⟩ := h2
    obtain rfl := Option.some.inj h2
    refine ⟨Char.ofNat 40, (its ++ ")" ++ pss).data, ?_, by decide⟩
    rw [data_append, data_append, data_append, data_append]
    rfl

theorem parseMember_roundtrip {m : SFMember} {out : String}
    (h : serializeMember m = some out) (hn : memberNodup m)
    {rest : List Char} (hrest : stopsParams rest = true) :
    parseMember (out.data ++ rest) = some (m, rest) := by
  cases m with
  | inner l =>
    have h2 : (do
        let items ← serializeItemsSp l.items
        let ps ← serializeParams l.params
        pure ("(" ++ items ++ ")" ++ ps) : Option String) = some out := h
    simp only [Option.bind_eq_bind, Option.bind_eq_some] at h2
    obtain ⟨its, hits, h2⟩ := h2
    obtain ⟨pss, hpss, h2⟩ := h2
    obtain rfl := Option.some.inj h2
    have hdata : ("(" ++ its ++ ")" ++ pss).data ++ rest =
        Char.ofNat 40 ::
          (its.data ++ (Char.ofNat 41 :: (pss.data ++ rest))) := by
      rw [data_append, data_append, data_append]
      simp
    rw [hdata]
    show (parseInnerAux
        (its.data ++ (Char.ofNat 41 :: (pss.data ++ rest))) []).map
        (fun p => (SFMember.inner p.1, p.2)) = some (.inner l, rest)
    unfold parseInnerAux
    rw [parseInnerF_roundtrip l.items hits hn.2 hpss hn.1 [] hrest (by omega)]
    rfl
  | item i =>
    obtain ⟨c, t, hct, hc32, hc41, hc40⟩ := serializeItem_head h
    have hitem : parseItem (out.data ++ rest) = some (i, rest) :=
      parseItem_roundtrip h hn hrest
    have hshape : out.data ++ rest = c :: (t ++ rest) := by
      rw [hct]
      rfl
    unfold parseMember
    split
    · rename_i r heq
      rw [hshape] at heq
      obtain ⟨he, -⟩ : c = Char.ofNat 40 ∧ t ++ rest = r := by simpa using heq
      rw [← beq_iff_eq (a := c)] at he
      rw [hc40] at he
      cases he
    · rw [hitem]
      rfl


theorem parseItemTop_roundtrip {it : SFItem} {out : String}
    (h : serializeItem it = some out)
    (hnodup : (it.2.map Prod.fst).Nodup) :
    parseItemTop out = .ok it := by
  obtain ⟨c, t, hct, hc32, -, -⟩ := serializeItem_head h
  have hitem : parseItem out.data = some (it, []) := by
    have h0 : parseItem (out.data ++ []) = some (it, []) :=
      parseItem_roundtrip h hnodup rfl
    simpa using h0
  have hdsp : dropSP out.data = out.data := by
    rw [hct]
    exact dropSP_cons_of_ne hc32 _
  unfold parseItemTop
  rw [hdsp, hitem]
  rfl

theorem parseListTop_singleton {m : SFMember} {out : String}
    (h : serializeListTop [m] = some out) (hn : memberNodup m) :
    parseListTop out = .ok [m] := by
  have hm : serializeMember m = some out := h
  obtain ⟨c, t, hct, hc32⟩ := serializeMember_head hm
  have hmem : parseMember out.data = some (m, []) := by
    have h0 : parseMember (out.data ++ []) = some (m, []) :=
      parseMember_roundtrip hm hn rfl
    simpa using h0
  have hdsp : dropSP out.data = out.data := by
    rw [hct]
    exact dropSP_cons_of_ne hc32 _
  unfold parseListTop
  rw [hdsp, hct]
  show (match parseListAux (c :: t) [] with
    | some l => Except.ok l
    | none => Except.error (ErrM.parseError "failed to parse list")) =
    .ok [m]
  rw [← hct]
  unfold parseListAux
  obtain ⟨g, hg⟩ : ∃ g, out.data.length + 1 = g + 1 := ⟨out.data.length, rfl⟩
  rw [hg]
  simp only [parseListF, hmem]
  rfl

theorem serializeDictEntry_ne_bool {k : String} {m : SFMember}
    {out : String} (h : serializeDictEntry k m = some out)
    (hne : ∀ i, m ≠ .item (.bool true, i)) :
    ∃ ks ms, serializeKey k = some ks ∧ serializeMember m = some ms ∧
      out = ks ++ "=" ++ ms := by
  unfold serializeDictEntry at h
  simp only [Option.bind_eq_bind, Option.bind_eq_some] at h
  obtain ⟨ks, hks, h⟩ := h
  cases m with
  | inner l =>
    obtain ⟨ms, hms, h2⟩ := h
    exact ⟨ks, ms, hks, hms, (Option.some.inj h2).symm⟩
  | item i =>
    obtain ⟨b, ps⟩ := i
    cases b with
    | bool bv =>
      cases bv
      · obtain ⟨ms, hms, h2⟩ := h
        exact ⟨ks, ms, hks, hms, (Option.some.inj h2).symm⟩
      · exact absurd rfl (hne ps)
    | int n =>
      obtain ⟨ms, hms, h2⟩ := h
      exact ⟨ks, ms, hks, hms, (Option.some.inj h2).symm⟩
    | str str =>
      obtain ⟨ms, hms, h2⟩ := h
      exact ⟨ks, ms, hks, hms, (Option.some.inj h2).symm⟩
    | tok tk =>
      obtain ⟨ms, hms, h2⟩ := h
      exact ⟨ks, ms, hks, hms, (Option.some.inj h2).symm⟩
    | bytes bs =>
      obtain ⟨ms, hms, h2⟩ := h
      exact ⟨ks, ms, hks, hms, (Option.some.inj h2).symm⟩

theorem parseDictTop_singleton {k : String} {m : SFMember} {out : String}
    (h : serializeDictTop [(k, m)] = some out) (hn : memberNodup m)
    (hne : ∀ i, m ≠ .item (.bool true, i)) :
    parseDictTop out = .ok [(k, m)] := by
  have hent : serializeDictEntry k m = some out := h
  obtain ⟨ks, ms, hks, hms, rfl⟩ := serializeDictEntry_ne_bool hent hne
  obtain ⟨hkeq, c0, t0, hk0, hc0, hall0⟩ := serializeKey_eq hks
  subst hkeq
  have hdata : (ks ++ "=" ++ ms).data =
      ks.data ++ (Char.ofNat 61 :: ms.data) := by
    rw [data_append, data_append]
    simp
  have hpk : parseKey (ks.data ++ (Char.ofNat 61 :: ms.data)) =
      some (ks, Char.ofNat 61 :: ms.data) :=
    parseKey_roundtrip hks rfl
  have hmem : parseMember ms.data = some (m, []) := by
    have h0 : parseMember (ms.data ++ []) = some (m, []) :=
      parseMember_roundtrip hms hn rfl
    simpa using h0
  have hdsp : dropSP ((ks ++ "=" ++ ms).data) = (ks ++ "=" ++ ms).data := by
    rw [hdata, hk0, List.cons_append, dropSP_cons_of_ne
      (not_eq_beq_of_pred_false hc0 (by decide)) _, ← List.cons_append]
  unfold parseDictTop
  rw [hdsp, hdata, hk0]
  show (match parseDictAux ((c0 :: t0) ++ (Char.ofNat 61 :: ms.data)) [] with
    | some d => Except.ok d
    | none => Except.error (ErrM.parseError "failed to parse dictionary")) =
    .ok [(ks, m)]
  rw [← hk0]
  unfold parseDictAux
  obtain ⟨g, hg⟩ : ∃ g, (ks.data ++ (Char.ofNat 61 :: ms.data)).length + 1 =
      g + 1 := ⟨(ks.data ++ (Char.ofNat 61 :: ms.data)).length, rfl⟩
  rw [hg]
  simp only [parseDictF, hpk, hmem]
  rfl


/-! ## Sign-verify round trip (claim C1): supporting lemmas -/

theorem map_keys_snd {α β : Type} (g : α → β) (m : List (String × α)) :
    (m.map (fun kv => (kv.1, g kv.2))).map Prod.fst = m.map Prod.fst := by
  rw [List.map_map]
  rfl

theorem jsGet_map_snd {α β : Type} (g : α → β) (m : List (String × α))
    (k : String) :
    jsGet (m.map (fun kv => (kv.1, g kv.2))) k = (jsGet m k).map g := by
  induction m with
  | nil => rfl
  | cons kv tl ih =>
    unfold jsGet at ih ⊢
    by_cases hk : (kv.1 == k) = true
    · simp only [List.map_cons, List.find?_cons, hk]
      rfl
    · simp only [List.map_cons, List.find?_cons]
      rw [Bool.not_eq_true] at hk
      simp only [hk]
      exact ih

theorem createSigningParametersWith_nodup (b : Bool) (cfg : SignConfigM)
    (now : Int) :
    ((createSigningParametersWith b cfg now).map Prod.fst).Nodup := by
  unfold createSigningParametersWith
  have main : ∀ (names : List String) (acc : List (String × SV)),
      (acc.map Prod.fst).Nodup →
      ((names.foldl (spStep b cfg now) acc).map Prod.fst).Nodup := by
    intro names
    induction names with
    | nil => intro acc h; exact h
    | cons n ns ih =>
      intro acc h
      refine ih _ ?_
      by_cases ht : svTruthy (computeParamValue b cfg now n) = true
      · rw [spStep_pos ht]
        exact keys_jsSet_nodup h
      · rw [Bool.not_eq_true] at ht
        rw [spStep_neg ht]
        exact h
  exact main _ [] (by simp)

theorem jsHas_of_lower_skip {headers : Headers} {name : String}
    (hskip : ∀ kv ∈ headers, (jsToLower kv.1 == jsToLower name) = false) :
    jsHas headers name = false := by
  unfold jsHas
  rw [List.any_eq_false]
  intro kv hkv
  intro hbe
  have he : kv.1 = name := by simpa using hbe
  have := hskip kv hkv
  rw [he] at this
  simp at this

theorem augmentCollect_skip :
    ∀ (headers : Headers) (st : (String × SFDict) × (String × SFDict)),
      (∀ kv ∈ headers, (jsToLower kv.1 == "signature") = false ∧
        (jsToLower kv.1 == "signature-input") = false) →
      headers.foldlM Httpbis.augmentCollectStep st = .ok st := by
  intro headers
  induction headers with
  | nil => intro st h; rfl
  | cons kv tl ih =>
    intro st h
    rw [List.foldlM_cons]
    have hstep : Httpbis.augmentCollectStep st kv = .ok st := by
      unfold Httpbis.augmentCollectStep
      rw [if_neg (by simp [(h kv (List.mem_cons_self _ _)).1]),
        if_neg (by simp [(h kv (List.mem_cons_self _ _)).2])]
      rfl
    rw [hstep]
    exact ih st (fun p hp => h p (List.mem_cons_of_mem _ hp))

theorem collect_skip :
    ∀ (headers : Headers) (st : Option SFDict × Option SFDict),
      (∀ kv ∈ headers, (jsToLower kv.1 == "signature") = false ∧
        (jsToLower kv.1 == "signature-input") = false) →
      headers.foldlM Httpbis.collectStep st = .ok st := by
  intro headers
  induction headers with
  | nil => intro st h; rfl
  | cons kv tl ih =>
    intro st h
    rw [List.foldlM_cons]
    have hstep : Httpbis.collectStep st kv = .ok st := by
      unfold Httpbis.collectStep
      rw [if_neg (by simp [(h kv (List.mem_cons_self _ _)).1]),
        if_neg (by simp [(h kv (List.mem_cons_self _ _)).2])]
      rfl
    rw [hstep]
    exact ih st (fun p hp => h p (List.mem_cons_of_mem _ hp))

theorem collectDicts_append_sig {headers : Headers}
    (hskip : ∀ kv ∈ headers, (jsToLower kv.1 == "signature") = false ∧
      (jsToLower kv.1 == "signature-input") = false)
    {s1 s2 : String} {d1 d2 : SFDict}
    (hp1 : parseDictTop s1 = .ok d1) (hp2 : parseDictTop s2 = .ok d2) :
    Httpbis.collectDicts
        (headers ++ [("Signature", .one s1), ("Signature-Input", .one s2)]) =
      .ok (some d1, some d2) := by
  unfold Httpbis.collectDicts
  rw [List.foldlM_append]
  rw [collect_skip headers (none, none) hskip]
  show ([("Signature", HeaderVal.one s1),
      ("Signature-Input", HeaderVal.one s2)].foldlM Httpbis.collectStep
      ((none : Option SFDict), (none : Option SFDict))) = _
  rw [List.foldlM_cons]
  have hstep1 : Httpbis.collectStep (none, none) ("Signature", .one s1) =
      .ok (some d1, none) := by
    show (do
      let d ← parseDictTop s1
      pure (some d, (none : Option SFDict)) : Except ErrM _) = _
    rw [hp1]
    rfl
  rw [hstep1]
  show ([("Signature-Input", HeaderVal.one s2)].foldlM Httpbis.collectStep
      (some d1, none)) = _
  rw [List.foldlM_cons]
  have hstep2 : Httpbis.collectStep (some d1, none)
      ("Signature-Input", .one s2) = .ok (some d1, some d2) := by
    show (do
      let d ← parseDictTop s2
      pure ((some d1 : Option SFDict), some d) : Except ErrM _) = _
    rw [hp2]
    rfl
  rw [hstep2]
  rfl

theorem extractHeader_append (P : Platform) (f : String)
    (params : List (String × PrimVal)) (headers ext : Headers)
    (reqH : Option Headers) {v : List String}
    (h : Httpbis.extractHeader P f params headers reqH = .ok v) :
    Httpbis.extractHeader P f params (headers ++ ext) reqH = .ok v := by
  unfold Httpbis.extractHeader at h ⊢
  by_cases hreq : jsHas params "req" = true
  · rw [if_pos hreq] at h ⊢
    exact h
  · rw [Bool.not_eq_true] at hreq
    rw [hreq] at h ⊢
    simp only [Bool.false_eq_true, if_false] at h ⊢
    match hfind : headers.find? (fun p => jsToLower p.1 == f) with
    | none =>
      rw [hfind] at h
      cases h
    | some nv =>
      rw [hfind] at h
      have hfind2 : (headers ++ ext).find? (fun p => jsToLower p.1 == f) =
          some nv := by
        rw [List.find?_append, hfind]
        rfl
      rw [hfind2]
      exact h

theorem deriveComponent_withHeaders (P : Platform) (c : String)
    (params : List (String × PrimVal)) (m : MessageM) (hs : Headers)
    (req : Option RequestM) :
    Httpbis.deriveComponent P c params (Httpbis.withHeaders m hs) req =
      Httpbis.deriveComponent P c params m req := by
  unfold Httpbis.deriveComponent
  by_cases hreq : jsHas params "req" = true
  · rw [hreq]
    rfl
  · rw [Bool.not_eq_true] at hreq
    rw [hreq]
    cases m <;> rfl


theorem serializeItem_str_head {f : String} {ps : SFParams} {out : String}
    (h : serializeItem (.str f, ps) = some out) :
    ∃ t, out.data = Char.ofNat 34 :: t := by
  unfold serializeItem at h
  simp only [Option.bind_eq_bind, Option.bind_eq_some] at h
  obtain ⟨bs, hbs, h⟩ := h
  obtain ⟨pss, hpss, h⟩ := h
  obtain rfl := Option.some.inj h
  simp only [serializeBareItem] at hbs
  split at hbs
  · obtain rfl := Option.some.inj hbs
    refine ⟨((⟨escapeChars f.data⟩ : String) ++ "\"").data ++ pss.data, ?_⟩
    rw [data_append, data_append, data_append]
    rfl
  · cases hbs

theorem jsStartsWith_quote {s : String} {t : List Char}
    (h : s.data = Char.ofNat 34 :: t) : jsStartsWith s "\"" = true := by
  unfold jsStartsWith
  rw [h, show ("\"" : String).data = [Char.ofNat 34] from by decide]
  simp [List.isPrefixOf]

theorem quoteString_of_quote_head {s : String} {t : List Char}
    (h : s.data = Char.ofNat 34 :: t) : quoteString s = s := by
  unfold quoteString
  rw [if_pos (jsStartsWith_quote h)]

/-- What the sign-time base construction guarantees of each emitted row:
its key is the canonical serialisation of a parsed string item, and its
value is the builtin resolution of that component on the message being
signed. -/
def rowSpecOf (P : Platform) (message : MessageM) (req : Option RequestM)
    (row : String × List String) : Prop :=
  ∃ f ps, serializeItem (.str f, ps) = some row.1 ∧
    ((ps.map Prod.fst).Nodup) ∧
    (jsToLower f == "@signature-params") = false ∧
    (if jsStartsWith f "@" then
        Httpbis.deriveComponent P (jsToLower f) (Httpbis.normaliseParams ps)
          message req
      else
        Httpbis.extractHeader P (jsToLower f) (Httpbis.normaliseParams ps)
          message.headers (req.map (·.headers))) = .ok row.2

theorem signatureBaseStep_rows {P : Platform} {message : MessageM}
    {req : Option RequestM} {base0 b1 : List (String × List String)}
    {fname : String}
    (h : Httpbis.signatureBaseStep P none message req base0 fname = .ok b1)
    (hb : ∀ row ∈ base0, rowSpecOf P message req row) :
    ∀ row ∈ b1, rowSpecOf P message req row := by
  intro row hrow
  unfold Httpbis.signatureBaseStep at h
  obtain ⟨it, hit, h⟩ := except_bind_ok h
  split at h
  · rename_i field ps
    have h2 : (if (jsToLower field == "@signature-params") = true then
        (pure base0 : Except ErrM (List (String × List String)))
      else do
        let value ← (if jsStartsWith field "@" then
            Httpbis.deriveComponent P (jsToLower field)
              (Httpbis.normaliseParams ps) message req
          else
            Httpbis.extractHeader P (jsToLower field)
              (Httpbis.normaliseParams ps) message.headers
              (req.map (·.headers)))
        match serializeItem (.str field, ps) with
        | none =>
          Except.error (ErrM.serializeError "failed to serialise identifier")
        | some key => pure (base0 ++ [(key, value)])) = Except.ok b1 := h
    clear h
    split at h2
    · obtain rfl := except_pure_ok h2
      exact hb row hrow
    · rename_i hlc
      obtain ⟨value, hval, h2⟩ := except_bind_ok h2
      split at h2
      · exact Except.noConfusion h2
      · rename_i key hkey
        obtain rfl := except_pure_ok h2
        rcases List.mem_append.mp hrow with hmem | hmem
        · exact hb row hmem
        · obtain rfl := List.mem_singleton.mp hmem
          refine ⟨field, ps, hkey, ?_, ?_, hval⟩
          · exact parseItemTop_nodup hit
          · rw [Bool.not_eq_true] at hlc
            exact hlc
  · exact Except.noConfusion h

theorem signatureBase_rows {P : Platform} {message : MessageM}
    {req : Option RequestM} :
    ∀ (fields : List String) (base0 sb : List (String × List String)),
      fields.foldlM (Httpbis.signatureBaseStep P none message req) base0 =
        .ok sb →
      (∀ row ∈ base0, rowSpecOf P message req row) →
      ∀ row ∈ sb, rowSpecOf P message req row := by
  intro fields
  induction fields with
  | nil =>
    intro base0 sb h hb
    obtain rfl := except_pure_ok h
    exact hb
  | cons f fs ih =>
    intro base0 sb h hb
    rw [List.foldlM_cons] at h
    obtain ⟨b1, hb1, h⟩ := except_bind_ok h
    exact ih b1 sb h (signatureBaseStep_rows hb1 hb)

theorem rows_items {P : Platform} {message : MessageM}
    {req : Option RequestM} :
    ∀ (rows : List (String × List String)),
      (∀ row ∈ rows, rowSpecOf P message req row) →
      ∀ {items : List SFItem},
        rows.mapM (fun kv => parseItemTop kv.1) = .ok items →
        items.mapM (fun item =>
            (match serializeItem item with
             | some s => Except.ok s
             | none =>
               Except.error (ErrM.serializeError "failed to serialise item"))) =
          .ok (rows.map Prod.fst) ∧
          ∀ it ∈ items, (it.2.map Prod.fst).Nodup := by
  intro rows
  induction rows with
  | nil =>
    intro hspec items h
    obtain rfl := except_pure_ok h
    exact ⟨rfl, by simp⟩
  | cons row rows ih =>
    intro hspec items h
    rw [List.mapM_cons] at h
    obtain ⟨a, ha, h⟩ := except_bind_ok h
    obtain ⟨as, has, h⟩ := except_bind_ok h
    obtain rfl := except_pure_ok h
    obtain ⟨f, ps, hser, hnod, -, -⟩ := hspec row (List.mem_cons_self _ _)
    have hit : parseItemTop row.1 = .ok (.str f, ps) :=
      parseItemTop_roundtrip hser hnod
    have haeq : a = (.str f, ps) := Except.ok.inj (ha.symm.trans hit)
    subst haeq
    obtain ⟨htail, hnods⟩ :=
      ih (fun r hr => hspec r (List.mem_cons_of_mem _ hr)) has
    constructor
    · rw [List.mapM_cons, hser, htail]
      rfl
    · intro it hit2
      rcases List.mem_cons.mp hit2 with rfl | hmem
      · exact hnod
      · exact hnods it hmem


theorem signatureBase_rebuild (P : Platform) (message : MessageM)
    (ext : Headers) (req : Option RequestM) :
    ∀ (rows : List (String × List String))
      (base0 : List (String × List String)),
      (∀ row ∈ rows, rowSpecOf P message req row) →
      (rows.map Prod.fst).foldlM
          (Httpbis.signatureBaseStep P none
            (Httpbis.withHeaders message (message.headers ++ ext)) req)
          base0 =
        .ok (base0 ++ rows) := by
  intro rows
  induction rows with
  | nil =>
    intro base0 hspec
    rw [List.append_nil]
    rfl
  | cons row rows ih =>
    intro base0 hspec
    obtain ⟨f, ps, hser, hnod, hlc, hval⟩ := hspec row (List.mem_cons_self _ _)
    have hit : parseItemTop row.1 = .ok (.str f, ps) :=
      parseItemTop_roundtrip hser hnod
    obtain ⟨t, hqt⟩ := serializeItem_str_head hser
    have hq : quoteString row.1 = row.1 := quoteString_of_quote_head hqt
    have hbuiltin : (if jsStartsWith f "@" then
        Httpbis.deriveComponent P (jsToLower f) (Httpbis.normaliseParams ps)
          (Httpbis.withHeaders message (message.headers ++ ext)) req
      else
        Httpbis.extractHeader P (jsToLower f) (Httpbis.normaliseParams ps)
          (Httpbis.withHeaders message (message.headers ++ ext)).headers
          (req.map (·.headers))) = .ok row.2 := by
      by_cases hat : jsStartsWith f "@" = true
      · rw [if_pos hat] at hval ⊢
        rw [deriveComponent_withHeaders]
        exact hval
      · rw [Bool.not_eq_true] at hat
        rw [hat] at hval ⊢
        simp only [Bool.false_eq_true, if_false] at hval ⊢
        rw [withHeaders_headers]
        exact extractHeader_append P _ _ _ _ _ hval
    have hstep : Httpbis.signatureBaseStep P none
        (Httpbis.withHeaders message (message.headers ++ ext)) req base0
        row.1 = .ok (base0 ++ [row]) := by
      unfold Httpbis.signatureBaseStep
      rw [hq, hit]
      show (if (jsToLower f == "@signature-params") = true then
          (pure base0 : Except ErrM (List (String × List String)))
        else do
          let value ← (if jsStartsWith f "@" then
              Httpbis.deriveComponent P (jsToLower f)
                (Httpbis.normaliseParams ps)
                (Httpbis.withHeaders message (message.headers ++ ext)) req
            else
              Httpbis.extractHeader P (jsToLower f)
                (Httpbis.normaliseParams ps)
                (Httpbis.withHeaders message (message.headers ++ ext)).headers
                (req.map (·.headers)))
          match serializeItem (.str f, ps) with
          | none =>
            Except.error (ErrM.serializeError "failed to serialise identifier")
          | some key => pure (base0 ++ [(key, value)])) =
        Except.ok (base0 ++ [row])
      rw [hlc]
      simp only [Bool.false_eq_true, if_false]
      rw [hbuiltin]
      show (match serializeItem (.str f, ps) with
        | none =>
          Except.error (ErrM.serializeError "failed to serialise identifier")
        | some key =>
          (pure (base0 ++ [(key, row.2)]) :
            Except ErrM (List (String × List String)))) =
        Except.ok (base0 ++ [row])
      rw [hser]
      rfl
    rw [List.map_cons, List.foldlM_cons, hstep]
    show (rows.map Prod.fst).foldlM
        (Httpbis.signatureBaseStep P none
          (Httpbis.withHeaders message (message.headers ++ ext)) req)
        (base0 ++ [row]) = .ok (base0 ++ row :: rows)
    rw [ih (base0 ++ [row]) (fun r hr => hspec r (List.mem_cons_of_mem _ hr))]
    rw [List.append_assoc]
    rfl


theorem except_ok_bind {e : Type} {a b : Type} (x : a)
    (f : a → Except e b) : (Except.ok x >>= f) = f x := rfl

theorem serializeSigHeaders_ok2 {headers : Headers} {n1 n2 : String}
    {sigD inputD : SFDict} {nh : Headers}
    (h : Httpbis.serializeSigHeaders headers n1 n2 sigD inputD = .ok nh) :
    ∃ s1 s2, serializeDictTop sigD = some s1 ∧
      serializeDictTop inputD = some s2 ∧
      nh = jsSet (jsSet headers n1 (.one s1)) n2 (.one s2) := by
  unfold Httpbis.serializeSigHeaders at h
  split at h
  · rename_i s1 s2 h1 h2
    exact ⟨s1, s2, h1, h2, (except_pure_ok h).symm⟩
  · exact Except.noConfusion h

theorem jsGet_singleton_self {α : Type} (k : String) (v : α) :
    jsGet [(k, v)] k = some v := by
  unfold jsGet
  simp

/-- C1 (amended): httpbis `signMessage` followed by httpbis
`verifyMessage` on the signed output yields `true`, for a matching
verifying key, provided: no consumer component parser is configured; the
input message carries no signature headers of its own; the platform
base64 decoder inverts its encoder; the key accepts exactly what the
signing key signed (and constrains no algorithms); and the clock of the
verification lies at or after the emitted `created` and at or before the
emitted `expires` (the original claim omitted the timing conditions, and
fails without them). -/
theorem claim_C1_sign_verify_roundtrip
    (P : Platform) (config : SignConfigM) (message : MessageM)
    (req : Option RequestM) (nowMs verifyNowMs : Int) (msg1 : MessageM)
    (vkey : VKeyM)
    (hsig : Httpbis.signMessage P config message req nowMs = .ok msg1)
    (hcp : config.componentParser = none)
    (hskip : ∀ kv ∈ message.headers,
      (jsToLower kv.1 == "signature") = false ∧
      (jsToLower kv.1 == "signature-input") = false)
    (halgs : vkey.algs = none)
    (hdec : ∀ s, P.b64decode (P.b64encode s) = s)
    (hver : ∀ b s ps, config.key.sign b = .ok s →
      vkey.verify b s ps = some true)
    (hcr : ∀ c,
      jsGet (Httpbis.createSigningParameters config nowMs) "created" =
        some (SV.int c) → c ≤ Int.fdiv verifyNowMs 1000)
    (hex : ∀ e,
      jsGet (Httpbis.createSigningParameters config nowMs) "expires" =
        some (SV.int e) → Int.fdiv verifyNowMs 1000 ≤ e) :
    Httpbis.verifyMessage P { keyLookup := fun _ => some vkey } msg1 req
      verifyNowMs = .ok (some true) := by
  unfold Httpbis.signMessage at hsig
  obtain ⟨sb, hsb, hsig⟩ := except_bind_ok hsig
  obtain ⟨items, hitems, hsig⟩ := except_bind_ok hsig
  obtain ⟨si, hsi, hsig⟩ := except_bind_ok hsig
  obtain ⟨base, hbase, hsig⟩ := except_bind_ok hsig
  obtain ⟨sig, hsigk, hsig⟩ := except_bind_ok hsig
  obtain ⟨nh, hnh, hsig⟩ := except_bind_ok hsig
  obtain rfl := except_pure_ok hsig
  rw [hcp] at hsb
  unfold Httpbis.augmentHeaders at hnh
  obtain ⟨st, hst, hnh⟩ := except_bind_ok hnh
  obtain ⟨entry, hentry, hnh⟩ := except_bind_ok hnh
  have hst0 : (( ("Signature", ([] : SFDict)), ("Signature-Input", ([] : SFDict))) :
      (String × SFDict) × (String × SFDict)) = st :=
    Except.ok.inj ((augmentCollect_skip message.headers _ hskip).symm.trans hst)
  subst hst0
  obtain ⟨s1, s2, hd1, hd2, rfl⟩ := serializeSigHeaders_ok2 hnh
  -- the one fresh label
  have hrows : ∀ row ∈ sb, rowSpecOf P message req row :=
    signatureBase_rows (config.fields.getD []) [] sb hsb (by simp)
  obtain ⟨hfields, hnodups⟩ := rows_items sb hrows hitems
  have hnsfP : (((Httpbis.createSigningParameters config nowMs).map
      (fun kv => (kv.1, Httpbis.svToBare kv.2))).map Prod.fst).Nodup := by
    rw [map_keys_snd]
    exact createSigningParametersWith_nodup false config nowMs
  unfold Httpbis.serializeInputList at hsi
  split at hsi
  · rename_i s0 hs0
    obtain rfl := except_pure_ok hsi
    have hlparse : parseListTop s0 =
        .ok [SFMember.inner ⟨items, (Httpbis.createSigningParameters config
          nowMs).map (fun kv => (kv.1, Httpbis.svToBare kv.2))⟩] :=
      parseListTop_singleton hs0 ⟨hnsfP, hnodups⟩
    unfold Httpbis.firstListMember at hentry
    rw [hlparse] at hentry
    obtain rfl := except_pure_ok hentry
    -- parse the two serialized dictionaries back
    have hp1 : parseDictTop s1 =
        .ok [(chooseSignatureName [] [] config.name,
          SFMember.item (.bytes (P.b64encode sig), []))] := by
      refine parseDictTop_singleton hd1 ?_ ?_
      · show (([] : SFParams).map Prod.fst).Nodup
        simp
      · intro i hi
        simp at hi
    have hp2 : parseDictTop s2 =
        .ok [(chooseSignatureName [] [] config.name,
          SFMember.inner ⟨items, (Httpbis.createSigningParameters config
            nowMs).map (fun kv => (kv.1, Httpbis.svToBare kv.2))⟩)] := by
      refine parseDictTop_singleton hd2 ?_ ?_
      · exact ⟨hnsfP, hnodups⟩
      · intro i hi
        exact SFMember.noConfusion hi
    have hhas1 : jsHas message.headers "Signature" = false :=
      jsHas_of_lower_skip (fun kv hk => (hskip kv hk).1)
    have hhas2a : jsHas message.headers "Signature-Input" = false :=
      jsHas_of_lower_skip (fun kv hk => (hskip kv hk).2)
    have hhas2 : jsHas (message.headers ++ [("Signature", HeaderVal.one s1)])
        "Signature-Input" = false := by
      rw [jsHas_append, hhas2a]
      rfl
    have hnh2 : jsSet (jsSet message.headers "Signature" (.one s1))
        "Signature-Input" (.one s2) =
        message.headers ++ [("Signature", HeaderVal.one s1),
          ("Signature-Input", HeaderVal.one s2)] := by
      rw [jsSet_not_has hhas1, jsSet_not_has hhas2, List.append_assoc]
      rfl
    have hcol2 : Httpbis.collectDicts (Httpbis.withHeaders message
        (message.headers ++ [("Signature", HeaderVal.one s1),
          ("Signature-Input", HeaderVal.one s2)])).headers =
        .ok (some [(chooseSignatureName [] [] config.name,
            SFMember.item (.bytes (P.b64encode sig), []))],
          some [(chooseSignatureName [] [] config.name,
            SFMember.inner ⟨items, (Httpbis.createSigningParameters config
              nowMs).map (fun kv => (kv.1, Httpbis.svToBare kv.2))⟩)]) := by
      rw [withHeaders_headers]
      exact collectDicts_append_sig hskip hp1 hp2
    have halgBad : (jsHas ((Httpbis.createSigningParameters config
          nowMs).map (fun kv => (kv.1, Httpbis.svToBare kv.2))) "alg" &&
        (match vkey.algs with
         | none => false
         | some algs =>
           !(match jsGet ((Httpbis.createSigningParameters config
                nowMs).map (fun kv => (kv.1, Httpbis.svToBare kv.2))) "alg" with
             | some (BareItem.str s) => algs.contains s
             | _ => false))) = false := by
      rw [halgs]
      show (jsHas ((Httpbis.createSigningParameters config
          nowMs).map (fun kv => (kv.1, Httpbis.svToBare kv.2))) "alg" &&
        false) = false
      exact Bool.and_false _
    have hcb : (match jsGet ((Httpbis.createSigningParameters config
          nowMs).map (fun kv => (kv.1, Httpbis.svToBare kv.2))) "created" with
        | some (BareItem.int c) =>
          decide (c - 0 > Int.fdiv verifyNowMs 1000)
        | _ => false) = false := by
      rw [jsGet_map_snd]
      cases hg : jsGet (Httpbis.createSigningParameters config nowMs)
          "created" with
      | none => rfl
      | some sv =>
        cases sv with
        | str s => rfl
        | int c =>
          have hc := hcr c hg
          show decide (c - 0 > Int.fdiv verifyNowMs 1000) = false
          simp only [decide_eq_false_iff_not]
          omega
    have hxb : (match jsGet ((Httpbis.createSigningParameters config
          nowMs).map (fun kv => (kv.1, Httpbis.svToBare kv.2))) "expires" with
        | some (BareItem.int e) =>
          decide (Int.fdiv verifyNowMs 1000 > e + 0)
        | _ => false) = false := by
      rw [jsGet_map_snd]
      cases hg : jsGet (Httpbis.createSigningParameters config nowMs)
          "expires" with
      | none => rfl
      | some sv =>
        cases sv with
        | str s => rfl
        | int e =>
          have he := hex e hg
          show decide (Int.fdiv verifyNowMs 1000 > e + 0) = false
          simp only [decide_eq_false_iff_not]
          omega
    -- run the verification
    unfold Httpbis.verifyMessage
    rw [hnh2, hcol2, except_ok_bind]
    unfold Httpbis.verifyCollected
    show Httpbis.verifyEntryStep P { keyLookup := fun _ => some vkey }
      (Httpbis.withHeaders message (message.headers ++
        [("Signature", HeaderVal.one s1), ("Signature-Input", HeaderVal.one s2)]))
      req (Int.fdiv verifyNowMs 1000) 0 (Int.fdiv verifyNowMs 1000)
      [(chooseSignatureName [] [] config.name,
        SFMember.item (.bytes (P.b64encode sig), []))]
      (Except.ok none)
      (chooseSignatureName [] [] config.name,
        SFMember.inner ⟨items, (Httpbis.createSigningParameters config
          nowMs).map (fun kv => (kv.1, Httpbis.svToBare kv.2))⟩) =
      Except.ok (some true)
    unfold Httpbis.verifyEntryStep
    show (if (jsHas ((Httpbis.createSigningParameters config
            nowMs).map (fun kv => (kv.1, Httpbis.svToBare kv.2))) "alg" &&
          (match vkey.algs with
           | none => false
           | some algs =>
             !(match jsGet ((Httpbis.createSigningParameters config
                  nowMs).map (fun kv => (kv.1, Httpbis.svToBare kv.2)))
                  "alg" with
               | some (BareItem.str s) => algs.contains s
               | _ => false))) = true then
        Except.error (ErrM.unsupportedAlg "Unsupported key algorithm")
      else if (match jsGet ((Httpbis.createSigningParameters config
            nowMs).map (fun kv => (kv.1, Httpbis.svToBare kv.2)))
            "created" with
          | some (BareItem.int c) =>
            decide (c - 0 > Int.fdiv verifyNowMs 1000)
          | _ => false) = true then
        Except.error (ErrM.expired "Signature is too old")
      else if (match jsGet ((Httpbis.createSigningParameters config
            nowMs).map (fun kv => (kv.1, Httpbis.svToBare kv.2)))
            "expires" with
          | some (BareItem.int e) =>
            decide (Int.fdiv verifyNowMs 1000 > e + 0)
          | _ => false) = true then
        Except.error (ErrM.expired "Signature has expired")
      else do
        let fields ← items.mapM (fun item =>
          match serializeItem item with
          | some s => Except.ok s
          | none =>
            Except.error (ErrM.serializeError "failed to serialise item"))
        let signingBase ← Httpbis.createSignatureBase P none fields
          (Httpbis.withHeaders message (message.headers ++
            [("Signature", HeaderVal.one s1),
             ("Signature-Input", HeaderVal.one s2)])) req
        let listSer : String ←
          (match serializeListTop [SFMember.inner ⟨items,
              (Httpbis.createSigningParameters config nowMs).map
                (fun kv => (kv.1, Httpbis.svToBare kv.2))⟩] with
          | some s => Except.ok s
          | none => Except.error
              (ErrM.serializeError "failed to serialise signature input"))
        let base2 ← Httpbis.formatSignatureBase
          (signingBase ++ [("\"@signature-params\"", [listSer])])
        match jsGet [(chooseSignatureName [] [] config.name,
            SFMember.item (.bytes (P.b64encode sig), []))]
            (chooseSignatureName [] [] config.name) with
        | none =>
          Except.error (ErrM.malformed "No corresponding signature for input")
        | some (.item (.bytes b, _)) =>
          pure (vkey.verify base2 (P.b64decode b)
            (paramsForLookup ((Httpbis.createSigningParameters config
              nowMs).map (fun kv => (kv.1, Httpbis.svToBare kv.2)))))
        | some _ => Except.error (ErrM.malformed "Malformed signature")) =
      Except.ok (some true)
    rw [halgBad]
    simp only [Bool.false_eq_true, if_false]
    rw [hcb]
    simp only [Bool.false_eq_true, if_false]
    rw [hxb]
    simp only [Bool.false_eq_true, if_false]
    rw [hfields, except_ok_bind]
    have hsb2 : Httpbis.createSignatureBase P none (sb.map Prod.fst)
        (Httpbis.withHeaders message (message.headers ++
          [("Signature", HeaderVal.one s1),
           ("Signature-Input", HeaderVal.one s2)])) req = .ok sb :=
      signatureBase_rebuild P message _ req sb [] hrows
    rw [hsb2, except_ok_bind]
    rw [hs0]
    show (do
      let base2 ← Httpbis.formatSignatureBase
        (sb ++ [("\"@signature-params\"", [s0])])
      match jsGet [(chooseSignatureName [] [] config.name,
          SFMember.item (.bytes (P.b64encode sig), []))]
          (chooseSignatureName [] [] config.name) with
      | none =>
        Except.error (ErrM.malformed "No corresponding signature for input")
      | some (.item (.bytes b, _)) =>
        pure (vkey.verify base2 (P.b64decode b)
          (paramsForLookup ((Httpbis.createSigningParameters config
            nowMs).map (fun kv => (kv.1, Httpbis.svToBare kv.2)))))
      | some _ => Except.error (ErrM.malformed "Malformed signature")) =
      Except.ok (some true)
    rw [hbase, except_ok_bind]
    rw [jsGet_singleton_self (chooseSignatureName [] [] config.name)
      (SFMember.item (.bytes (P.b64encode sig), []))]
    show (pure (vkey.verify base (P.b64decode (P.b64encode sig))
        (paramsForLookup ((Httpbis.createSigningParameters config
          nowMs).map (fun kv => (kv.1, Httpbis.svToBare kv.2))))) :
        Except ErrM (Option Bool)) = Except.ok (some true)
    rw [hdec sig, hver base sig _ hsigk]
    rfl
  · exact Except.noConfusion hsi


/-- A verifying key matching `keyW`: it accepts exactly the signature
string that `keyW` produces. -/
def vKeyFake : VKeyM := { verify := fun _ s _ => some (s == "FAKE") }

/-- The unamended C1 fails: the very message httpbis `signMessage`
produces (at time 0, so with `expires = 300`) is rejected by httpbis
`verifyMessage` with the matching key when verified at 400000 ms — the
round trip does not hold without the timing hypotheses. -/
theorem claim_C1_counterexample :
    Httpbis.signMessage platId cfgW msgW none 0 = .ok msgW1 ∧
    Httpbis.verifyMessage platId { keyLookup := fun _ => some vKeyFake }
      msgW1 none 400000 = .error (.expired "Signature has expired") :=
  ⟨by rfl, by rfl⟩

/-- The amended C1 at a concrete input: the identity-codec platform, the
constant signing key, a one-header request message, verification 100 s
after signing (inside the 300 s expiry window). -/
theorem claim_C1_witness :
    Httpbis.verifyMessage platId { keyLookup := fun _ => some vKeyFake }
      msgW1 none 100000 = .ok (some true) :=
  claim_C1_sign_verify_roundtrip platId cfgW msgW none 0 100000 msgW1 vKeyFake
    (by rfl) rfl (by decide) rfl (fun s => rfl)
    (fun b s ps h => by
      have h2 : (Except.ok "FAKE" : Except ErrM String) = Except.ok s := h
      rw [← Except.ok.inj h2]
      rfl)
    (fun c hc =>
      Option.noConfusion
        ((show jsGet (Httpbis.createSigningParameters cfgW 0) "created" =
          none from rfl).symm.trans hc))
    (fun e he => by
      have h3 : some (SV.int 300) = some (SV.int e) :=
        (show jsGet (Httpbis.createSigningParameters cfgW 0) "expires" =
          some (SV.int 300) from rfl).symm.trans he
      injection h3 with h4
      injection h4 with h5
      subst h5
      decide)

end HttpSig
